import Mathlib

/-!
# large-file-decrypt: staging, transform and publish pipeline

A shallow embedding of `utils/utils.go`, `encrypt/encrypt.go` and
`decrypt/decrypt.go`.

The Go code is a straight line of system calls with early returns and deferred
releases.  It is embedded as explicit state passing over a `World`:

* the file-system namespace (`names`), the content of every inode (`data`),
  the table of open descriptors (`fds`) and of live mappings (`maps`);
* a `trace` of every call issued, with its outcome, and a `clock` counting them.

The outcome of each call is read from an environment `Env`, so that a theorem
quantified over `Env` covers every combination of outcomes of the underlying
system calls.  Where the kernel or the Go runtime forces an outcome (opening a
name that does not exist, mapping zero bytes, allocating a non-positive size,
linking onto an existing name) the model forces it too.

`defer f; rest` is embedded as `f` applied to the result of `rest`, so deferred
releases run last-registered-first on every exit path, as in Go.

Modelling choices:

* a file is an inode; a name, a descriptor and a mapping all refer to it, and a
  write through a shared mapping is a write to the inode (durability is not
  modelled: `msync` only succeeds or fails);
* descriptors, inodes and mappings are numbered by counters that only grow;
* lengths and sizes are unbounded integers: `len + 48` and `len - 48` do not
  wrap (a mapping cannot be within 48 bytes of the largest `int`);
* the messages of the errors are kept without their `%q` and `%w` verbs;
* `multierror.Append` is list append, `ErrorOrNil` is `nil` on the empty list.
-/

namespace LargeFileDecrypt

/-! ## Values -/

abbrev Byte := Fin 256
abbrev Bytes := List Byte
abbrev Path := String

/-- A key is a `*[32]byte`. -/
abbrev Key := { k : Bytes // k.length = 32 }

/-- The value of `box.AnonymousOverhead` (32-byte ephemeral key + 16-byte tag). -/
def AnonymousOverhead : Nat := 48

/-- Error numbers returned by system calls. -/
inductive Errno
  | ENOENT | EEXIST | EINVAL | EOPNOTSUPP | ENOSPC | EACCES | ENOMEM | EBADF | EINTR
  deriving DecidableEq, Repr

/-- A call issued by the program, with the objects it is applied to. -/
inductive Op
  | openRead (path : Path)
  | openTmp (dir : Path)
  | openCreate (path : Path)
  | close (fd : Nat)
  | fstat (fd : Nat)
  | mmap (fd : Nat) (length : Nat)
  | munmap (m : Nat)
  | msync (m : Nat)
  | fallocate (fd : Nat) (size : Int)
  | linkat (fd : Nat) (path : Path)
  | clone (dst src : Nat)
  | copy (dst src : Nat)
  | seal (dst src : Nat)
  | openAnonymous (dst src : Nat)
  deriving DecidableEq, Repr

/-- One entry of the trace: the call and its outcome (`none` is success). -/
structure Ev where
  op : Op
  err : Option Errno
  deriving DecidableEq, Repr

/-- The library `golang.org/x/crypto/nacl/box`, taken as a parameter.
`SealAnonymous msg recipient rand` is the sealed box, or the error of the
randomness source; `OpenAnonymous box pub priv` is the message, or `none` when
the box does not authenticate. -/
structure Box where
  SealAnonymous : Bytes → Key → Bytes → Except Errno Bytes
  OpenAnonymous : Bytes → Key → Key → Option Bytes

/-- Everything the program does not control. -/
structure Env where
  /-- The answer of the kernel to call `op` issued at step `clock`, unless the
  model forces a failure. -/
  result : Op → Nat → Option Errno
  /-- How many bytes a failing `io.Copy` issued at step `clock` had written. -/
  copied : Nat → Nat
  /-- The library function `filepath.Dir`. -/
  dir : Path → Path
  box : Box
  /-- The global `crypto/rand.Reader`. -/
  randReader : Bytes

/-- An `*os.File`: the descriptor and the inode it was opened on. -/
structure File where
  fd : Nat
  ino : Nat
  deriving DecidableEq, Repr

/-- A mapped `[]byte`: the mapping, the inode behind it and its `len`. -/
structure View where
  id : Nat
  ino : Nat
  len : Nat
  deriving DecidableEq, Repr

/-- The state of the file system and of the process. -/
structure World where
  names : Path → Option Nat
  data : Nat → Bytes
  fds : List Nat
  maps : List Nat
  nextIno : Nat
  nextFd : Nat
  nextMap : Nat
  clock : Nat
  trace : List Ev

/-- What a reader of the namespace sees at `path`. -/
def World.visible (w : World) (path : Path) : Option Bytes :=
  (w.names path).map w.data

/-- Record a call and its outcome. -/
def World.emit (w : World) (op : Op) (err : Option Errno) : World :=
  { w with clock := w.clock + 1, trace := w.trace ++ [⟨op, err⟩] }

/-- Replace the content of one inode. -/
def World.write (w : World) (ino : Nat) (content : Bytes) : World :=
  { w with data := fun i => if i = ino then content else w.data i }

/-- Writing `src` at offset 0 of a file holding `old`, without truncation. -/
def overlay (src old : Bytes) : Bytes :=
  src ++ old.drop src.length

/-- The result of `append(view[:0], res...)` seen through the mapping: the
bytes land in the mapping when they fit in its capacity, otherwise `append`
allocates elsewhere and the mapping keeps its content. -/
def appendInto (view : View) (old res : Bytes) : Bytes :=
  if res.length ≤ view.len then overlay res old else old

/-! ## Errors -/

/-- The value `fmt.Errorf("<msg>: %w", errno)`. -/
structure SysErr where
  msg : String
  errno : Errno
  deriving DecidableEq, Repr

/-- What an entry of the top-level error list wraps. -/
inductive Cause
  | errno (e : Errno)
  | sys (e : SysErr)
  | multi (es : List SysErr)
  | multiErrno (es : List Errno)
  deriving DecidableEq, Repr

/-- An entry of the error list of `encryptFile` and `decryptFile`:
`errors.New(msg)` or `fmt.Errorf("<msg>: %w", cause)`.  A `*multierror.Error`
is the list of its entries, `multierror.Append` appends one entry and
`ErrorOrNil` is `nil` exactly on the empty list. -/
inductive Err
  | new (msg : String)
  | wrap (msg : String) (cause : Cause)
  deriving DecidableEq, Repr

/-! ## System calls -/

/-- The call `os.Open(path)`. -/
def osOpen (env : Env) (path : Path) (w : World) : Except Errno File × World :=
  match w.names path with
  | none => (.error .ENOENT, w.emit (.openRead path) (some .ENOENT))
  | some ino =>
    match env.result (.openRead path) w.clock with
    | some e => (.error e, w.emit (.openRead path) (some e))
    | none =>
      (.ok ⟨w.nextFd, ino⟩,
        { w.emit (.openRead path) none with fds := w.nextFd :: w.fds, nextFd := w.nextFd + 1 })

/-- The call `unix.Open(dir, unix.O_RDWR|unix.O_TMPFILE, 0o600)`: a new empty
inode with no name. -/
def unixOpenTmp (env : Env) (dir : Path) (w : World) : Except Errno File × World :=
  match env.result (.openTmp dir) w.clock with
  | some e => (.error e, w.emit (.openTmp dir) (some e))
  | none =>
    (.ok ⟨w.nextFd, w.nextIno⟩,
      { (w.emit (.openTmp dir) none).write w.nextIno [] with
        fds := w.nextFd :: w.fds, nextFd := w.nextFd + 1, nextIno := w.nextIno + 1 })

/-- The call `os.OpenFile(path, os.O_WRONLY|os.O_CREATE, 0o600)`: opens the
file at `path` as it is, or creates it empty when there is none. -/
def osOpenFileCreate (env : Env) (path : Path) (w : World) : Except Errno File × World :=
  match env.result (.openCreate path) w.clock with
  | some e => (.error e, w.emit (.openCreate path) (some e))
  | none =>
    match w.names path with
    | some ino =>
      (.ok ⟨w.nextFd, ino⟩,
        { w.emit (.openCreate path) none with fds := w.nextFd :: w.fds, nextFd := w.nextFd + 1 })
    | none =>
      (.ok ⟨w.nextFd, w.nextIno⟩,
        { (w.emit (.openCreate path) none).write w.nextIno [] with
          names := fun p => if p = path then some w.nextIno else w.names p,
          fds := w.nextFd :: w.fds, nextFd := w.nextFd + 1, nextIno := w.nextIno + 1 })

/-- The method `(*os.File).Close`: the descriptor is gone whatever the outcome;
closing a file that is already closed is an error. -/
def fileClose (env : Env) (f : File) (w : World) : Option Errno × World :=
  let r := if f.fd ∈ w.fds then env.result (.close f.fd) w.clock else some .EBADF
  (r, { w.emit (.close f.fd) r with fds := w.fds.erase f.fd })

/-- The method `(*os.File).Stat`, of which only the size is used. -/
def fileStat (env : Env) (f : File) (w : World) : Except Errno Nat × World :=
  match env.result (.fstat f.fd) w.clock with
  | some e => (.error e, w.emit (.fstat f.fd) (some e))
  | none => (.ok (w.data f.ino).length, w.emit (.fstat f.fd) none)

/-- The call `syscall.Mmap(fd, 0, length, PROT_WRITE|PROT_READ, MAP_SHARED)`:
a length of zero is refused with `EINVAL`. -/
def syscallMmap (env : Env) (f : File) (length : Nat) (w : World) : Except Errno View × World :=
  match (if length = 0 then some Errno.EINVAL else env.result (.mmap f.fd length) w.clock) with
  | some e => (.error e, w.emit (.mmap f.fd length) (some e))
  | none =>
    (.ok ⟨w.nextMap, f.ino, length⟩,
      { w.emit (.mmap f.fd length) none with maps := w.nextMap :: w.maps, nextMap := w.nextMap + 1 })

/-- The call `syscall.Munmap(view)`: a view that is not mapped is refused with
`EINVAL`; the mapping goes away when the call succeeds. -/
def syscallMunmap (env : Env) (v : View) (w : World) : Option Errno × World :=
  let r := if v.id ∈ w.maps then env.result (.munmap v.id) w.clock else some .EINVAL
  (r, { w.emit (.munmap v.id) r with maps := if r = none then w.maps.erase v.id else w.maps })

/-- The call `unix.Msync(view, unix.MS_SYNC)`. -/
def unixMsync (env : Env) (v : View) (w : World) : Option Errno × World :=
  let r := env.result (.msync v.id) w.clock
  (r, w.emit (.msync v.id) r)

/-- The call `syscall.Fallocate(fd, 0, 0, size)`: a size that is not positive
is refused with `EINVAL`; on success the file is at least `size` bytes long. -/
def syscallFallocate (env : Env) (f : File) (size : Int) (w : World) : Option Errno × World :=
  let r := if size ≤ 0 then some Errno.EINVAL else env.result (.fallocate f.fd size) w.clock
  match r with
  | some e => (some e, w.emit (.fallocate f.fd size) (some e))
  | none =>
    (none, (w.emit (.fallocate f.fd size) none).write f.ino
      (w.data f.ino ++ List.replicate (size.toNat - (w.data f.ino).length) 0))

/-- The call `unix.Linkat(fd, "", 0, path, unix.AT_EMPTY_PATH)`: gives the
inode behind `fd` the name `path`; a name that exists is refused with `EEXIST`. -/
def unixLinkat (env : Env) (f : File) (path : Path) (w : World) : Option Errno × World :=
  let r := match env.result (.linkat f.fd path) w.clock with
    | some e => some e
    | none => if (w.names path).isSome then some Errno.EEXIST else none
  match r with
  | some e => (some e, w.emit (.linkat f.fd path) (some e))
  | none =>
    (none, { w.emit (.linkat f.fd path) none with
      names := fun p => if p = path then some f.ino else w.names p })

/-- The call `unix.IoctlFileClone(dst, src)`: shares the whole content of
`src` with `dst` from offset 0. -/
def unixIoctlFileClone (env : Env) (dst src : File) (w : World) : Option Errno × World :=
  match env.result (.clone dst.fd src.fd) w.clock with
  | some e => (some e, w.emit (.clone dst.fd src.fd) (some e))
  | none =>
    (none, (w.emit (.clone dst.fd src.fd) none).write dst.ino
      (overlay (w.data src.ino) (w.data dst.ino)))

/-- The call `io.Copy(dst, src)` on two files whose offsets are 0 (neither was
read, written or seeked through its descriptor): writes the content of `src`
at the start of `dst`; a failing copy has written some of it. -/
def ioCopy (env : Env) (dst src : File) (w : World) : Option Errno × World :=
  match env.result (.copy dst.fd src.fd) w.clock with
  | some e =>
    (some e, (w.emit (.copy dst.fd src.fd) (some e)).write dst.ino
      (overlay ((w.data src.ino).take (env.copied w.clock)) (w.data dst.ino)))
  | none =>
    (none, (w.emit (.copy dst.fd src.fd) none).write dst.ino
      (overlay (w.data src.ino) (w.data dst.ino)))

/-- The bytes seen through a view. -/
def World.bytes (w : World) (v : View) : Bytes :=
  (w.data v.ino).take v.len

/-- The call `box.SealAnonymous(out[:0], message, recipient, rand)` on two views. -/
def boxSealAnonymous (env : Env) (out message : View) (recipient : Key) (rand : Bytes)
    (w : World) : Option Errno × World :=
  match env.box.SealAnonymous (w.bytes message) recipient rand with
  | .error e => (some e, w.emit (.seal out.id message.id) (some e))
  | .ok res =>
    (none, (w.emit (.seal out.id message.id) none).write out.ino
      (appendInto out (w.data out.ino) res))

/-- The call `box.OpenAnonymous(out[:0], box, publicKey, privateKey)` on two
views; `false` when the box does not authenticate, and then nothing is written. -/
def boxOpenAnonymous (env : Env) (out sealed : View) (publicKey privateKey : Key)
    (w : World) : Bool × World :=
  match env.box.OpenAnonymous (w.bytes sealed) publicKey privateKey with
  | none => (false, w.emit (.openAnonymous out.id sealed.id) (some .EINVAL))
  | some res =>
    (true, (w.emit (.openAnonymous out.id sealed.id) none).write out.ino
      (appendInto out (w.data out.ino) res))

/-! ## utils/utils.go -/

/-- The function `CreatePrivateCopyOf`.  Both results are returned on every
path, as in Go: the file may be set while the error list is not empty. -/
def CreatePrivateCopyOf (env : Env) (inputPath tempDir : Path) (w : World) :
    (Option File × List SysErr) × World :=
  match osOpen env inputPath w with
  | (.error err, w) => ((none, [⟨"failed to open file", err⟩]), w)
  | (.ok inputFile, w) =>
    -- defer: inputFile.Close()
    let r : (Option File × List SysErr) × World :=
      match unixOpenTmp env tempDir w with
      | (.error err, w) => ((none, [⟨"failed to open private file", err⟩]), w)
      | (.ok privateFile, w) =>
        -- defer: privateFile.Close() when errStack is not nil
        let body : List SysErr × World :=
          match unixIoctlFileClone env privateFile inputFile w with
          | (none, w) => ([], w)
          | (some err, w) =>
            if err ≠ .EOPNOTSUPP ∧ err ≠ .EINVAL then
              ([⟨"failed to clone file", err⟩], w)
            else
              match ioCopy env privateFile inputFile w with
              | (some err, w) => ([⟨"failed to copy file", err⟩], w)
              | (none, w) => ([], w)
        if body.1 ≠ [] then
          match fileClose env privateFile body.2 with
          | (some err, w) =>
            ((some privateFile, body.1 ++ [⟨"failed to close private copy", err⟩]), w)
          | (none, w) => ((some privateFile, body.1), w)
        else ((some privateFile, body.1), body.2)
    match fileClose env inputFile r.2 with
    | (some err, w) => ((r.1.1, r.1.2 ++ [⟨"failed to close file", err⟩]), w)
    | (none, w) => (r.1, w)

/-- The function `GetDataFromFile`. -/
def GetDataFromFile (env : Env) (privateEncryptedFile : File) (w : World) :
    Except SysErr View × World :=
  match fileStat env privateEncryptedFile w with
  | (.error err, w) => (.error ⟨"failed to stat(2) private copy of encrypted file", err⟩, w)
  | (.ok size, w) =>
    match syscallMmap env privateEncryptedFile size w with
    | (.error err, w) => (.error ⟨"failed to mmap(2) private copy of encrypted file", err⟩, w)
    | (.ok data, w) => (.ok data, w)

/-- The function `CreatePrivateFile`; `size` is an `int64`. -/
def CreatePrivateFile (env : Env) (tempDir : Path) (size : Int) (w : World) :
    Except Cause File × World :=
  match unixOpenTmp env tempDir w with
  | (.error err, w) => (.error (.sys ⟨"failed to create private file", err⟩), w)
  | (.ok privateFile, w) =>
    match syscallFallocate env privateFile size w with
    | (some err, w) =>
      match fileClose env privateFile w with
      | (some err2, w) => (.error (.multiErrno [err, err2]), w)
      | (none, w) => (.error (.errno err), w)
    | (none, w) => (.ok privateFile, w)

/-- The function `PublishFile`. -/
def PublishFile (env : Env) (privateDecryptedFile : File) (outputPath : Path) (w : World) :
    List SysErr × World :=
  match unixLinkat env privateDecryptedFile outputPath w with
  | (none, w) => ([], w)
  | (some err, w) =>
    if err ≠ .ENOENT then ([⟨"failed to call linkat", err⟩], w)
    else
      match osOpenFileCreate env outputPath w with
      | (.error err, w) => ([⟨"failed to create output file", err⟩], w)
      | (.ok outputFile, w) =>
        -- defer: outputFile.Close()
        let body : List SysErr × World :=
          match unixIoctlFileClone env outputFile privateDecryptedFile w with
          | (none, w) => ([], w)
          | (some err, w) =>
            if err ≠ .EOPNOTSUPP ∧ err ≠ .EINVAL then
              ([⟨"failed to clone file", err⟩], w)
            else
              match ioCopy env outputFile privateDecryptedFile w with
              | (some err, w) => ([⟨"failed to copy into public decrypted file", err⟩], w)
              | (none, w) => ([], w)
        match fileClose env outputFile body.2 with
        | (some err, w) => (body.1 ++ [⟨"failed to close file", err⟩], w)
        | (none, w) => (body.1, w)

/-! ## Deferred releases -/

/-- The deferred statement
`if err := f.Close(); err != nil { errStack = multierror.Append(errStack, fmt.Errorf(msg, err)) }`
applied to the result of the code that follows the `defer`. -/
def deferClose (env : Env) (msg : String) (f : File) (r : List Err × World) : List Err × World :=
  match fileClose env f r.2 with
  | (some err, w) => (r.1 ++ [.wrap msg (.errno err)], w)
  | (none, w) => (r.1, w)

/-- The deferred statement
`if err := syscall.Munmap(v); err != nil { errStack = multierror.Append(errStack, fmt.Errorf(msg, err)) }`
applied to the result of the code that follows the `defer`. -/
def deferMunmap (env : Env) (msg : String) (v : View) (r : List Err × World) : List Err × World :=
  match syscallMunmap env v r.2 with
  | (some err, w) => (r.1 ++ [.wrap msg (.errno err)], w)
  | (none, w) => (r.1, w)

/-- What the code after the last `defer` hands to the deferred closures: the
error list and the two flags they read. -/
structure Exit where
  errStack : List Err
  dataFreed : Bool
  fileClosed : Bool

/-! ## decrypt/decrypt.go -/

/-- The body of `decryptFile` from `box.OpenAnonymous` to the end (after the
last `defer`). -/
def decryptFile.transform (env : Env) (outputPath : Path) (pubKey privKey : Key)
    (privateEncryptedFile : File) (encryptedData : View)
    (privateDecryptedFile : File) (decryptedData : View) (w : World) : Exit × World :=
  match boxOpenAnonymous env decryptedData encryptedData pubKey privKey w with
  | (false, w) => (⟨[.new "failed to decrypt file"], false, false⟩, w)
  | (true, w) =>
    match unixMsync env decryptedData w with
    | (some err, w) => (⟨[.wrap "failed to flush changes to disk" (.errno err)], false, false⟩, w)
    | (none, w) =>
      -- privateEncryptedDataFreed = true
      match syscallMunmap env encryptedData w with
      | (some err, w) =>
        (⟨[.wrap "failed to munmap encrypted data" (.errno err)], true, false⟩, w)
      | (none, w) =>
        -- privateEncryptedFileClosed = true
        match fileClose env privateEncryptedFile w with
        | (some err, w) =>
          (⟨[.wrap "failed to close private copy of encrypted file" (.errno err)], true, true⟩, w)
        | (none, w) =>
          match PublishFile env privateDecryptedFile outputPath w with
          | (errs, w) =>
            if errs ≠ [] then
              (⟨[.wrap "failed to publish decrypted file" (.multi errs)], true, true⟩, w)
            else (⟨[], true, true⟩, w)

/-- The body of `decryptFile` from `utils.CreatePrivateFile` to the end, with
the two deferred releases of the destination. -/
def decryptFile.allocate (env : Env) (outputPath : Path) (pubKey privKey : Key)
    (privateEncryptedFile : File) (encryptedData : View) (w : World) : Exit × World :=
  let decryptedSize : Int := (encryptedData.len : Int) - (AnonymousOverhead : Int)
  let outputTempDir := env.dir outputPath
  match CreatePrivateFile env outputTempDir decryptedSize w with
  | (.error err, w) =>
    (⟨[.wrap "failed to create private decrypted file" err], false, false⟩, w)
  | (.ok privateDecryptedFile, w) =>
    -- defer: close privateDecryptedFile
    let r : Exit × World :=
      match GetDataFromFile env privateDecryptedFile w with
      | (.error err, w) => (⟨[.wrap "failed to mmap decrypted file" (.sys err)], false, false⟩, w)
      | (.ok decryptedData, w) =>
        -- defer: munmap decryptedData
        let r := decryptFile.transform env outputPath pubKey privKey
          privateEncryptedFile encryptedData privateDecryptedFile decryptedData w
        let d := deferMunmap env "failed to munmap decrypted data" decryptedData
          (r.1.errStack, r.2)
        (⟨d.1, r.1.dataFreed, r.1.fileClosed⟩, d.2)
    let d := deferClose env "failed to close private decrypted file" privateDecryptedFile
      (r.1.errStack, r.2)
    (⟨d.1, r.1.dataFreed, r.1.fileClosed⟩, d.2)

/-- The function `decryptFile`. -/
def decryptFile (env : Env) (inputPath outputPath : Path) (pubKey privKey : Key) (w : World) :
    List Err × World :=
  let inputTempDir := env.dir inputPath
  match CreatePrivateCopyOf env inputPath inputTempDir w with
  | ((_, e :: es), w) =>
    ([.wrap "failed to create the private copy of the encrypted file" (.multi (e :: es))], w)
  | ((none, []), w) =>
    -- not reached: the file is set whenever the list is empty; a nil file
    -- makes Stat and Close fail without a system call
    ([.wrap "failed to get encrypted data"
        (.sys ⟨"failed to stat(2) private copy of encrypted file", .EINVAL⟩),
      .wrap "failed to close private copy of encrypted file" (.errno .EINVAL)], w)
  | ((some privateEncryptedFile, []), w) =>
    -- defer: close privateEncryptedFile unless privateEncryptedFileClosed
    let r : Exit × World :=
      match GetDataFromFile env privateEncryptedFile w with
      | (.error err, w) => (⟨[.wrap "failed to get encrypted data" (.sys err)], false, false⟩, w)
      | (.ok encryptedData, w) =>
        -- defer: munmap encryptedData unless privateEncryptedDataFreed
        let r := decryptFile.allocate env outputPath pubKey privKey
          privateEncryptedFile encryptedData w
        if r.1.dataFreed then r
        else
          let d := deferMunmap env "failed to munmap encrypted data" encryptedData
            (r.1.errStack, r.2)
          (⟨d.1, r.1.dataFreed, r.1.fileClosed⟩, d.2)
    if r.1.fileClosed then (r.1.errStack, r.2)
    else
      deferClose env "failed to close private copy of encrypted file" privateEncryptedFile
        (r.1.errStack, r.2)

/-- The function `DecryptFile`: the error list, `nil` when it is empty. -/
def DecryptFile (env : Env) (inputPath outputPath : Path) (pubKey privKey : Key) (w : World) :
    List Err × World :=
  decryptFile env inputPath outputPath pubKey privKey w

/-! ## encrypt/encrypt.go -/

/-- The body of `encryptFile` from `box.SealAnonymous` to the end (after the
last `defer`). -/
def encryptFile.transform (env : Env) (outputPath : Path) (pubKey : Key) (cryptoReader : Bytes)
    (privateClearFile : File) (clearData : View)
    (privateEncryptedFile : File) (encryptedData : View) (w : World) : Exit × World :=
  match boxSealAnonymous env encryptedData clearData pubKey cryptoReader w with
  | (some err, w) => (⟨[.wrap "failed to seal data" (.errno err)], false, false⟩, w)
  | (none, w) =>
    match unixMsync env encryptedData w with
    | (some err, w) =>
      (⟨[.wrap "failed to flush encrypted data on disk" (.errno err)], false, false⟩, w)
    | (none, w) =>
      -- clearDataFreed = true
      match syscallMunmap env clearData w with
      | (some err, w) =>
        (⟨[.wrap "failed to get data from private copy" (.errno err)], true, false⟩, w)
      | (none, w) =>
        -- privateClearFileClosed = true
        match fileClose env privateClearFile w with
        | (some err, w) =>
          (⟨[.wrap "failed to close private copy of" (.errno err)], true, true⟩, w)
        | (none, w) =>
          match PublishFile env privateEncryptedFile outputPath w with
          | (errs, w) =>
            if errs ≠ [] then
              (⟨[.wrap "failed to publish encrypted file" (.multi errs)], true, true⟩, w)
            else (⟨[], true, true⟩, w)

/-- The body of `encryptFile` from `utils.CreatePrivateFile` to the end, with
the two deferred releases of the destination. -/
def encryptFile.allocate (env : Env) (outputPath : Path) (pubKey : Key) (cryptoReader : Bytes)
    (privateClearFile : File) (clearData : View) (w : World) : Exit × World :=
  let outputTempDir := env.dir outputPath
  let encryptedSize : Int := (clearData.len : Int) + (AnonymousOverhead : Int)
  match CreatePrivateFile env outputTempDir encryptedSize w with
  | (.error err, w) =>
    (⟨[.wrap "failed to create private encrypted file" err], false, false⟩, w)
  | (.ok privateEncryptedFile, w) =>
    -- defer: close privateEncryptedFile
    let r : Exit × World :=
      match GetDataFromFile env privateEncryptedFile w with
      | (.error err, w) =>
        (⟨[.wrap "failed to get data from encrypted file" (.sys err)], false, false⟩, w)
      | (.ok encryptedData, w) =>
        -- defer: munmap encryptedData
        let r := encryptFile.transform env outputPath pubKey cryptoReader
          privateClearFile clearData privateEncryptedFile encryptedData w
        let d := deferMunmap env "failed to release encrypted data" encryptedData
          (r.1.errStack, r.2)
        (⟨d.1, r.1.dataFreed, r.1.fileClosed⟩, d.2)
    let d := deferClose env "failed to close private encrypted file" privateEncryptedFile
      (r.1.errStack, r.2)
    (⟨d.1, r.1.dataFreed, r.1.fileClosed⟩, d.2)

/-- The function `encryptFile`. -/
def encryptFile (env : Env) (inputPath outputPath : Path) (pubKey : Key) (cryptoReader : Bytes)
    (w : World) : List Err × World :=
  let inputTempDir := env.dir inputPath
  match CreatePrivateCopyOf env inputPath inputTempDir w with
  | ((_, e :: es), w) =>
    ([.wrap "failed to acquire a private copy of" (.multi (e :: es))], w)
  | ((none, []), w) =>
    -- not reached: the file is set whenever the list is empty; a nil file
    -- makes Stat and Close fail without a system call
    ([.wrap "failed to get data from private copy"
        (.sys ⟨"failed to stat(2) private copy of encrypted file", .EINVAL⟩),
      .wrap "failed to close private copy of" (.errno .EINVAL)], w)
  | ((some privateClearFile, []), w) =>
    -- defer: close privateClearFile unless privateClearFileClosed
    let r : Exit × World :=
      match GetDataFromFile env privateClearFile w with
      | (.error err, w) =>
        (⟨[.wrap "failed to get data from private copy" (.sys err)], false, false⟩, w)
      | (.ok clearData, w) =>
        -- defer: munmap clearData unless clearDataFreed
        let r := encryptFile.allocate env outputPath pubKey cryptoReader
          privateClearFile clearData w
        if r.1.dataFreed then r
        else
          let d := deferMunmap env "failed to munmap clear data" clearData (r.1.errStack, r.2)
          (⟨d.1, r.1.dataFreed, r.1.fileClosed⟩, d.2)
    if r.1.fileClosed then (r.1.errStack, r.2)
    else
      deferClose env "failed to close private copy of" privateClearFile (r.1.errStack, r.2)

/-- The function `EncryptFile`: `encryptFile` with the global `rand.Reader`. -/
def EncryptFile (env : Env) (inputPath outputPath : Path) (pubKey : Key) (w : World) :
    List Err × World :=
  encryptFile env inputPath outputPath pubKey env.randReader w

/-! ## Vocabulary for the proofs -/

/-- The constructor of a call, without its arguments. -/
inductive Kind
  | openRead | openTmp | openCreate | close | fstat | mmap | munmap | msync | fallocate
  | linkat | clone | copy | seal | openAnonymous
  deriving DecidableEq, Repr

/-- The kind of a call. -/
def Op.kind : Op → Kind
  | .openRead _ => .openRead
  | .openTmp _ => .openTmp
  | .openCreate _ => .openCreate
  | .close _ => .close
  | .fstat _ => .fstat
  | .mmap _ _ => .mmap
  | .munmap _ => .munmap
  | .msync _ => .msync
  | .fallocate _ _ => .fallocate
  | .linkat _ _ => .linkat
  | .clone _ _ => .clone
  | .copy _ _ => .copy
  | .seal _ _ => .seal
  | .openAnonymous _ _ => .openAnonymous

/-- An outcome that does not make the step fail: success, or one of the
answers the code recognises as "not supported here" and falls back from
(`EOPNOTSUPP` and `EINVAL` from a clone, `ENOENT` from `linkat`). -/
def Ev.clean (e : Ev) : Bool :=
  match e.op, e.err with
  | _, none => true
  | .clone _ _, some .EOPNOTSUPP => true
  | .clone _ _, some .EINVAL => true
  | .linkat _ _, some .ENOENT => true
  | _, _ => false

/-- A call that changed the namespace: a `linkat` or an open-for-create that
succeeded. -/
def Ev.published (e : Ev) : Bool :=
  match e.op, e.err with
  | .linkat _ _, none => true
  | .openCreate _, none => true
  | _, _ => false

/-- The error of a result, if any. -/
def errOf {ε α : Type} : Except ε α → Option ε
  | .error e => some e
  | .ok _ => none

/-- The calls recorded between two worlds. -/
def World.since (w w' : World) : List Ev :=
  w'.trace.drop w.trace.length

/-- Every name points below the inode counter. -/
def World.WF (w : World) : Prop :=
  ∀ p i, w.names p = some i → i < w.nextIno

/-- How the world moved while the calls `evs` were issued: the trace grew by
`evs`, the names in `P` and the inodes in `I` were left alone, and the
counters did not go back. -/
@[mk_iff]
structure Evolves (P : Path → Prop) (I : Nat → Prop) (w w' : World) (evs : List Ev) : Prop where
  trace : w'.trace = w.trace ++ evs
  names : ∀ p, P p → w'.names p = w.names p
  data : ∀ i, I i → w'.data i = w.data i
  nextIno : w.nextIno ≤ w'.nextIno
  nextFd : w.nextFd ≤ w'.nextFd
  nextMap : w.nextMap ≤ w'.nextMap

/-- The counters and tables a call leaves alone. -/
@[mk_iff]
structure SameIds (w w' : World) : Prop where
  nextIno : w'.nextIno = w.nextIno
  nextFd : w'.nextFd = w.nextFd
  nextMap : w'.nextMap = w.nextMap

/-- The entry a failed release adds to a list of `utils`. -/
def sysErrOf (msg : String) : Option Errno → List SysErr
  | none => []
  | some e => [⟨msg, e⟩]

/-- The fallback shared by `CreatePrivateCopyOf` and `PublishFile`: clone, and
copy when the clone is not supported. -/
def cloneOrCopy (env : Env) (msgClone msgCopy : String) (dst src : File) (w : World) :
    List SysErr × World :=
  match unixIoctlFileClone env dst src w with
  | (none, w) => ([], w)
  | (some err, w) =>
    if err ≠ Errno.EOPNOTSUPP ∧ err ≠ Errno.EINVAL then ([⟨msgClone, err⟩], w)
    else
      match ioCopy env dst src w with
      | (some err, w) => ([⟨msgCopy, err⟩], w)
      | (none, w) => ([], w)

/-- The second deferred closure of `CreatePrivateCopyOf`: the private file is
closed when the error list is not empty at that point. -/
def closeIfFailed (env : Env) (privateFile : File) (body : List SysErr × World) :
    (Option File × List SysErr) × World :=
  if body.1 ≠ [] then
    match fileClose env privateFile body.2 with
    | (some err, w) =>
      ((some privateFile, body.1 ++ [⟨"failed to close private copy", err⟩]), w)
    | (none, w) => ((some privateFile, body.1), w)
  else ((some privateFile, body.1), body.2)

/-! ## The pipeline shared by `encryptFile` and `decryptFile`

The two functions are the same sequence of steps around a different transform
and with different messages.  `pipeline` is that sequence with the differences
as parameters; `decryptFile_eq` and `encryptFile_eq` show that each function is
an instance of it, so that what is proved of `pipeline` holds of both. -/

/-- What differs between `encryptFile` and `decryptFile`. -/
structure Config where
  mStage : String
  mMapSrc : String
  mCloseSrc : String
  mUnmapSrc : String
  mAlloc : String
  mCloseDst : String
  mMapDst : String
  mUnmapDst : String
  mFlush : String
  mEarlyUnmap : String
  mEarlyClose : String
  mPublish : String
  /-- The size of the destination, from the length of the source view. -/
  size : Nat → Int
  /-- The call recorded by the transform, from the destination and source views. -/
  op : Nat → Nat → Op
  /-- The entry of a failed transform, from the error recorded. -/
  report : Errno → Err
  /-- The transform on the destination and source views: the entry to report,
  or `none` when it succeeded. -/
  transform : Env → View → View → World → Option Err × World

/-- The steps after the last `defer`. -/
def pipeline.transform (cfg : Config) (env : Env) (outputPath : Path)
    (srcFile : File) (srcData : View) (dstFile : File) (dstData : View) (w : World) :
    Exit × World :=
  match cfg.transform env dstData srcData w with
  | (some err, w) => (⟨[err], false, false⟩, w)
  | (none, w) =>
    match unixMsync env dstData w with
    | (some err, w) => (⟨[.wrap cfg.mFlush (.errno err)], false, false⟩, w)
    | (none, w) =>
      match syscallMunmap env srcData w with
      | (some err, w) => (⟨[.wrap cfg.mEarlyUnmap (.errno err)], true, false⟩, w)
      | (none, w) =>
        match fileClose env srcFile w with
        | (some err, w) => (⟨[.wrap cfg.mEarlyClose (.errno err)], true, true⟩, w)
        | (none, w) =>
          match PublishFile env dstFile outputPath w with
          | (errs, w) =>
            if errs ≠ [] then (⟨[.wrap cfg.mPublish (.multi errs)], true, true⟩, w)
            else (⟨[], true, true⟩, w)

/-- The steps from the allocation of the destination, with its two deferred
releases. -/
def pipeline.allocate (cfg : Config) (env : Env) (outputPath : Path)
    (srcFile : File) (srcData : View) (w : World) : Exit × World :=
  match CreatePrivateFile env (env.dir outputPath) (cfg.size srcData.len) w with
  | (.error err, w) => (⟨[.wrap cfg.mAlloc err], false, false⟩, w)
  | (.ok dstFile, w) =>
    let r : Exit × World :=
      match GetDataFromFile env dstFile w with
      | (.error err, w) => (⟨[.wrap cfg.mMapDst (.sys err)], false, false⟩, w)
      | (.ok dstData, w) =>
        let r := pipeline.transform cfg env outputPath srcFile srcData dstFile dstData w
        let d := deferMunmap env cfg.mUnmapDst dstData (r.1.errStack, r.2)
        (⟨d.1, r.1.dataFreed, r.1.fileClosed⟩, d.2)
    let d := deferClose env cfg.mCloseDst dstFile (r.1.errStack, r.2)
    (⟨d.1, r.1.dataFreed, r.1.fileClosed⟩, d.2)

/-- The whole sequence, from the staging of the source. -/
def pipeline (cfg : Config) (env : Env) (inputPath outputPath : Path) (w : World) :
    List Err × World :=
  match CreatePrivateCopyOf env inputPath (env.dir inputPath) w with
  | ((_, e :: es), w) => ([.wrap cfg.mStage (.multi (e :: es))], w)
  | ((none, []), w) =>
    ([.wrap cfg.mMapSrc (.sys ⟨"failed to stat(2) private copy of encrypted file", .EINVAL⟩),
      .wrap cfg.mCloseSrc (.errno .EINVAL)], w)
  | ((some srcFile, []), w) =>
    let r : Exit × World :=
      match GetDataFromFile env srcFile w with
      | (.error err, w) => (⟨[.wrap cfg.mMapSrc (.sys err)], false, false⟩, w)
      | (.ok srcData, w) =>
        let r := pipeline.allocate cfg env outputPath srcFile srcData w
        if r.1.dataFreed then r
        else
          let d := deferMunmap env cfg.mUnmapSrc srcData (r.1.errStack, r.2)
          (⟨d.1, r.1.dataFreed, r.1.fileClosed⟩, d.2)
    if r.1.fileClosed then (r.1.errStack, r.2)
    else deferClose env cfg.mCloseSrc srcFile (r.1.errStack, r.2)

/-- The parameters of `decryptFile`. -/
def decryptConfig (pubKey privKey : Key) : Config where
  mStage := "failed to create the private copy of the encrypted file"
  mMapSrc := "failed to get encrypted data"
  mCloseSrc := "failed to close private copy of encrypted file"
  mUnmapSrc := "failed to munmap encrypted data"
  mAlloc := "failed to create private decrypted file"
  mCloseDst := "failed to close private decrypted file"
  mMapDst := "failed to mmap decrypted file"
  mUnmapDst := "failed to munmap decrypted data"
  mFlush := "failed to flush changes to disk"
  mEarlyUnmap := "failed to munmap encrypted data"
  mEarlyClose := "failed to close private copy of encrypted file"
  mPublish := "failed to publish decrypted file"
  size := fun len => (len : Int) - (AnonymousOverhead : Int)
  op := .openAnonymous
  report := fun _ => .new "failed to decrypt file"
  transform := fun env dst src w =>
    match boxOpenAnonymous env dst src pubKey privKey w with
    | (false, w) => (some (.new "failed to decrypt file"), w)
    | (true, w) => (none, w)

/-- The parameters of `encryptFile`. -/
def encryptConfig (pubKey : Key) (cryptoReader : Bytes) : Config where
  mStage := "failed to acquire a private copy of"
  mMapSrc := "failed to get data from private copy"
  mCloseSrc := "failed to close private copy of"
  mUnmapSrc := "failed to munmap clear data"
  mAlloc := "failed to create private encrypted file"
  mCloseDst := "failed to close private encrypted file"
  mMapDst := "failed to get data from encrypted file"
  mUnmapDst := "failed to release encrypted data"
  mFlush := "failed to flush encrypted data on disk"
  mEarlyUnmap := "failed to get data from private copy"
  mEarlyClose := "failed to close private copy of"
  mPublish := "failed to publish encrypted file"
  size := fun len => (len : Int) + (AnonymousOverhead : Int)
  op := .seal
  report := fun e => .wrap "failed to seal data" (.errno e)
  transform := fun env dst src w =>
    match boxSealAnonymous env dst src pubKey cryptoReader w with
    | (some err, w) => (some (.wrap "failed to seal data" (.errno err)), w)
    | (none, w) => (none, w)

/-- What the proofs need to know of a transform: it is one call, recorded as
`cfg.op`, that writes to the destination only. -/
structure Config.Sound (cfg : Config) : Prop where
  transform : ∀ {env : Env} {d s : View} {w w' : World} {r : Option Err},
    cfg.transform env d s w = (r, w') →
    ∃ e : Option Errno, r = e.map cfg.report ∧ SameIds w w' ∧ w'.fds = w.fds ∧
      w'.maps = w.maps ∧
      ∀ (P : Path → Prop) (I : Nat → Prop), (∀ i, I i → i ≠ d.ino) →
        Evolves P I w w' [⟨cfg.op d.id s.id, e⟩]
  kind : ∀ a b, (cfg.op a b).kind = .seal ∨ (cfg.op a b).kind = .openAnonymous

/-- The entry a failed deferred release adds to the error list. -/
def relErr (msg : String) : Option Errno → List Err
  | none => []
  | some e => [.wrap msg (.errno e)]

/-- The frame of a run: names other than `outputPath` are kept, and so is the
content of every inode that existed before the run (below `n`) and was not
named `outputPath`; when no call changed the namespace, everything that
existed before the run is kept. -/
def Framed (outputPath : Path) (n : Nat) (w w' : World) (evs : List Ev) : Prop :=
  Evolves (fun p => p ≠ outputPath) (fun i => i < n ∧ w.names outputPath ≠ some i) w w' evs ∧
  ((∀ e ∈ evs, e.published = false) → Evolves (fun _ => True) (fun i => i < n) w w' evs)

/-! ## The shape of a run -/

/-- What `PublishFile` records after its `linkat`: nothing that releases the
staged source or the destination temp file. -/
def PubRest (sf df : File) (rest : List Ev) : Prop :=
  ∀ e ∈ rest,
    (e.op.kind = .openCreate ∨ e.op.kind = .clone ∨ e.op.kind = .copy ∨ e.op.kind = .close) ∧
    e.op ≠ .close sf.fd ∧ e.op ≠ .close df.fd

/-- The ways the steps after the last `defer` can end: the value handed to the
deferred closures and the calls recorded. -/
inductive TailShape (cfg : Config) (outputPath : Path) (sf : File) (sv : View) (df : File)
    (dv : View) : Exit → List Ev → Prop
  | transform (e : Errno) :
    TailShape cfg outputPath sf sv df dv ⟨[cfg.report e], false, false⟩
      [⟨cfg.op dv.id sv.id, some e⟩]
  | flush (e : Errno) :
    TailShape cfg outputPath sf sv df dv ⟨[.wrap cfg.mFlush (.errno e)], false, false⟩
      [⟨cfg.op dv.id sv.id, none⟩, ⟨.msync dv.id, some e⟩]
  | earlyUnmap (e : Errno) :
    TailShape cfg outputPath sf sv df dv ⟨[.wrap cfg.mEarlyUnmap (.errno e)], true, false⟩
      [⟨cfg.op dv.id sv.id, none⟩, ⟨.msync dv.id, none⟩, ⟨.munmap sv.id, some e⟩]
  | earlyClose (e : Errno) :
    TailShape cfg outputPath sf sv df dv ⟨[.wrap cfg.mEarlyClose (.errno e)], true, true⟩
      [⟨cfg.op dv.id sv.id, none⟩, ⟨.msync dv.id, none⟩, ⟨.munmap sv.id, none⟩,
        ⟨.close sf.fd, some e⟩]
  | publish (r : Option Errno) (rest : List Ev) (es : List SysErr) (hes : es ≠ [])
      (hk : PubRest sf df rest)
      (hc : ¬ ∀ e ∈ (⟨.linkat df.fd outputPath, r⟩ :: rest : List Ev), e.clean = true)
      (hq : ∀ x, es.head? = some x →
        (x.msg = "failed to call linkat" ∨ x.msg = "failed to create output file") →
        ∀ e ∈ (⟨.linkat df.fd outputPath, r⟩ :: rest : List Ev), e.published = false)
      (hp : (∀ x, es.head? = some x →
          x.msg ≠ "failed to call linkat" ∧ x.msg ≠ "failed to create output file") →
        ∃ e ∈ (⟨.linkat df.fd outputPath, r⟩ :: rest : List Ev), e.published = true) :
    TailShape cfg outputPath sf sv df dv ⟨[.wrap cfg.mPublish (.multi es)], true, true⟩
      ([⟨cfg.op dv.id sv.id, none⟩, ⟨.msync dv.id, none⟩, ⟨.munmap sv.id, none⟩,
        ⟨.close sf.fd, none⟩, ⟨.linkat df.fd outputPath, r⟩] ++ rest)
  | done (r : Option Errno) (rest : List Ev)
      (hk : PubRest sf df rest)
      (hc : ∀ e ∈ (⟨.linkat df.fd outputPath, r⟩ :: rest : List Ev), e.clean = true)
      (hp : ∃ e ∈ (⟨.linkat df.fd outputPath, r⟩ :: rest : List Ev), e.published = true) :
    TailShape cfg outputPath sf sv df dv ⟨[], true, true⟩
      ([⟨cfg.op dv.id sv.id, none⟩, ⟨.msync dv.id, none⟩, ⟨.munmap sv.id, none⟩,
        ⟨.close sf.fd, none⟩, ⟨.linkat df.fd outputPath, r⟩] ++ rest)

/-- The ways the steps from the allocation of the destination can end, its two
deferred releases included.  `lo` and `lom` are the descriptor counter and the
mapping counter at the start. -/
inductive AllocShape (cfg : Config) (outputPath : Path) (sf : File) (sv : View)
    (lo lom : Nat) :
    Exit → List Ev → Prop
  | alloc (al : List Ev) (c : Cause)
      (hk : ∀ e ∈ al, e.op.kind = .openTmp ∨ e.op.kind = .fallocate ∨ e.op.kind = .close)
      (hc : ¬ ∀ e ∈ al, e.clean = true)
      (hfd : ∀ e ∈ al, ∀ fd, e.op = .close fd → lo ≤ fd) :
    AllocShape cfg outputPath sf sv lo lom ⟨[.wrap cfg.mAlloc c], false, false⟩ al
  | mapDst (pre : List Ev) (df : File) (e : SysErr) (r0 : Option Errno)
      (hk : ∀ e ∈ pre, e.op.kind = .openTmp ∨ e.op.kind = .fallocate ∨
        e.op.kind = .fstat ∨ e.op.kind = .mmap)
      (hc : ¬ ∀ e ∈ pre, e.clean = true)
      (hsize : 0 < cfg.size sv.len)
      (hdf : lo ≤ df.fd)
      (hst : ∃ r, (⟨.fstat df.fd, r⟩ : Ev) ∈ pre)
      (hso : ∀ e ∈ pre, ∀ fd, e.op = .fstat fd → fd = df.fd) :
    AllocShape cfg outputPath sf sv lo lom
      ⟨[.wrap cfg.mMapDst (.sys e)] ++ relErr cfg.mCloseDst r0, false, false⟩
      (pre ++ [⟨.close df.fd, r0⟩])
  | tail (pre : List Ev) (df : File) (dv : View) (x : Exit) (tl : List Ev)
      (r0 r1 : Option Errno)
      (ht : TailShape cfg outputPath sf sv df dv x tl)
      (hk : ∀ e ∈ pre, e.op.kind = .openTmp ∨ e.op.kind = .fallocate ∨
        e.op.kind = .fstat ∨ e.op.kind = .mmap)
      (hc : ∀ e ∈ pre, e.clean = true)
      (hdf : lo ≤ df.fd)
      (hdv : lom ≤ dv.id)
      (hsize : 0 < cfg.size sv.len)
      (hst : ∃ r, (⟨.fstat df.fd, r⟩ : Ev) ∈ pre)
      (hso : ∀ e ∈ pre, ∀ fd, e.op = .fstat fd → fd = df.fd) :
    AllocShape cfg outputPath sf sv lo lom
      ⟨x.errStack ++ relErr cfg.mUnmapDst r0 ++ relErr cfg.mCloseDst r1,
        x.dataFreed, x.fileClosed⟩
      (pre ++ tl ++ [⟨.munmap dv.id, r0⟩, ⟨.close df.fd, r1⟩])

/-- The ways a run of `pipeline` can end: the error list returned and the
calls recorded. -/
inductive Shape (cfg : Config) (inputPath outputPath : Path) (w : World) :
    List Err → List Ev → Prop
  | stage (stg : List Ev) (es : List SysErr) (hes : es ≠ [])
      (hk : ∀ e ∈ stg, e.op.kind = .openRead ∨ e.op.kind = .openTmp ∨ e.op.kind = .clone ∨
        e.op.kind = .copy ∨ e.op.kind = .close)
      (hc : ¬ ∀ e ∈ stg, e.clean = true) :
    Shape cfg inputPath outputPath w [.wrap cfg.mStage (.multi es)] stg
  | mapSrc (pre : List Ev) (sf : File) (e : SysErr) (r : Option Errno)
      (hk : ∀ e ∈ pre, e.op.kind = .openRead ∨ e.op.kind = .openTmp ∨ e.op.kind = .clone ∨
        e.op.kind = .copy ∨ e.op.kind = .close ∨ e.op.kind = .fstat ∨ e.op.kind = .mmap)
      (hc : ¬ ∀ e ∈ pre, e.clean = true)
      (hlo : ∀ e ∈ pre, ∀ fd, e.op = .close fd → fd < sf.fd)
      (hst : ∃ r, (⟨.fstat sf.fd, r⟩ : Ev) ∈ pre)
      (hso : ∀ e ∈ pre, ∀ fd, e.op = .fstat fd → fd = sf.fd) :
    Shape cfg inputPath outputPath w
      ([.wrap cfg.mMapSrc (.sys e)] ++ relErr cfg.mCloseSrc r) (pre ++ [⟨.close sf.fd, r⟩])
  | staged (pre : List Ev) (sf : File) (sv : View) (lo lom : Nat) (x : Exit) (evs : List Ev)
      (r2 r3 : Option Errno)
      (ha : AllocShape cfg outputPath sf sv lo lom x evs)
      (hk : ∀ e ∈ pre, e.op.kind = .openRead ∨ e.op.kind = .openTmp ∨ e.op.kind = .clone ∨
        e.op.kind = .copy ∨ e.op.kind = .close ∨ e.op.kind = .fstat ∨ e.op.kind = .mmap)
      (hc : ∀ e ∈ pre, e.clean = true)
      (hlo : ∀ e ∈ pre, ∀ fd, e.op = .close fd → fd < sf.fd)
      (hsf : sf.fd < lo)
      (hsv : sv.id < lom)
      (hlen : ∃ i, w.names inputPath = some i ∧
        (i < w.nextIno → sv.len = (w.data i).length))
      (hst : ∃ r, (⟨.fstat sf.fd, r⟩ : Ev) ∈ pre)
      (hso : ∀ e ∈ pre, ∀ fd, e.op = .fstat fd → fd = sf.fd) :
    Shape cfg inputPath outputPath w
      (x.errStack ++ (if x.dataFreed then [] else relErr cfg.mUnmapSrc r2) ++
        (if x.fileClosed then [] else relErr cfg.mCloseSrc r3))
      (pre ++ evs ++ (if x.dataFreed then [] else [⟨.munmap sv.id, r2⟩]) ++
        (if x.fileClosed then [] else [⟨.close sf.fd, r3⟩]))

/-! ## Fixtures for the concrete runs -/

/-- A stand-in for the library: the sealed box is 48 zero bytes followed by the
message, and a box opens when it starts with 48 zero bytes. -/
def toyBox : Box where
  SealAnonymous := fun msg _ _ => .ok (List.replicate 48 0 ++ msg)
  OpenAnonymous := fun c _ _ =>
    if 48 ≤ c.length ∧ c.take 48 = List.replicate 48 0 then some (c.drop 48) else none

/-- A key of 32 zero bytes. -/
def testKey : Key := ⟨List.replicate 32 0, by decide⟩

/-- An environment in which every call succeeds. -/
def allSucceed : Env where
  result := fun _ _ => none
  copied := fun _ => 0
  dir := fun _ => "/tmp"
  box := toyBox
  randReader := []

/-- An environment without the fast paths: `linkat` answers `ENOENT` and the
clone answers `EOPNOTSUPP`; every other call succeeds. -/
def noFastPath : Env :=
  { allSucceed with
    result := fun op _ =>
      match op with
      | .linkat _ _ => some .ENOENT
      | .clone _ _ => some .EOPNOTSUPP
      | _ => none }

/-- A file system holding one file, of inode 0. -/
def oneFile (path : Path) (content : Bytes) : World where
  names := fun q => if q = path then some 0 else none
  data := fun i => if i = 0 then content else []
  fds := []
  maps := []
  nextIno := 1
  nextFd := 3
  nextMap := 0
  clock := 0
  trace := []

/-- A file system holding two files, of inodes 0 and 1. -/
def twoFiles (path : Path) (content : Bytes) (path2 : Path) (content2 : Bytes) : World where
  names := fun q => if q = path then some 0 else if q = path2 then some 1 else none
  data := fun i => if i = 0 then content else if i = 1 then content2 else []
  fds := []
  maps := []
  nextIno := 2
  nextFd := 3
  nextMap := 0
  clock := 0
  trace := []

/-- The nine bytes of "Geronimo!". -/
def geronimo : Bytes := [71, 101, 114, 111, 110, 105, 109, 111, 33]

/-- An environment without the fast paths in which the copy into the output
file fails with `ENOSPC` after four bytes. -/
def outputCopyFails : Env :=
  { allSucceed with
    result := fun op _ =>
      match op with
      | .linkat _ _ => some .ENOENT
      | .clone _ _ => some .EOPNOTSUPP
      | .copy 6 _ => some .ENOSPC
      | _ => none
    copied := fun _ => 4 }

/-! ## Vocabulary: a failing transform -/

/-- An event that is not a failed transform. -/
def NotFail (x : Ev) : Prop :=
  (x.op.kind ≠ .seal ∧ x.op.kind ≠ .openAnonymous) ∨ x.err = none

/-- The calls before the transform: none of them flushes, unmaps, publishes or
closes the staged source. -/
def BeforeTransform (srcFd : Nat) (pre : List Ev) : Prop :=
  ∀ x ∈ pre, (x.op.kind = .openRead ∨ x.op.kind = .openTmp ∨ x.op.kind = .clone ∨
    x.op.kind = .copy ∨ x.op.kind = .close ∨ x.op.kind = .fstat ∨ x.op.kind = .mmap ∨
    x.op.kind = .fallocate) ∧ x.op ≠ .close srcFd

/-- Every event of the list satisfies `P`. -/
def Every (P : Ev → Prop) (l : List Ev) : Prop := ∀ x ∈ l, P x

/-- A file that does not open with `toyBox`: fifty bytes of value 1. -/
def tampered : Bytes := List.replicate 50 1

/-! ## Vocabulary: the order of the releases around `PublishFile` -/

/-- An event that is not a `linkat`. -/
def NotLink (x : Ev) : Prop := x.op.kind ≠ .linkat

/-- The calls of a list leave the two views and the two files alone: none of
them is a transform, a flush, an unmapping, a `linkat`, or the closing of the
staged source or of the destination temp file. -/
def Untouched (srcFd dstFd : Nat) (l : List Ev) : Prop :=
  ∀ x ∈ l, x.op.kind ≠ .munmap ∧ x.op.kind ≠ .msync ∧ x.op.kind ≠ .linkat ∧
    x.op.kind ≠ .seal ∧ x.op.kind ≠ .openAnonymous ∧
    x.op ≠ .close srcFd ∧ x.op ≠ .close dstFd

/-- The order C10 describes, for a transform recorded as `op`: before the
`linkat` of `PublishFile` come, in this order, a successful transform, a
successful `msync` of the destination view, a successful `munmap` of the
source view and a successful close of the staged source; the destination view
is unmapped and the destination file closed last, after everything
`PublishFile` did; and no other call touches them. -/
def ReleasedBetweenFlushAndPublish (op : Nat → Nat → Op) (outputPath : Path) (T : List Ev) :
    Prop :=
  ∃ pre rest srcFd srcView dstFd dstView r r0 r1,
    T = pre ++ [⟨op dstView srcView, none⟩, ⟨.msync dstView, none⟩,
        ⟨.munmap srcView, none⟩, ⟨.close srcFd, none⟩, ⟨.linkat dstFd outputPath, r⟩] ++
      rest ++ [⟨.munmap dstView, r0⟩, ⟨.close dstFd, r1⟩] ∧
    srcView ≠ dstView ∧ srcFd ≠ dstFd ∧
    Untouched srcFd dstFd pre ∧ Untouched srcFd dstFd rest ∧
    T.countP (fun x => decide (x.op = .munmap srcView)) = 1 ∧
    T.countP (fun x => decide (x.op = .close srcFd)) = 1

/-! ## Vocabulary: the error list -/

/-- A release of a resource that `encryptFile` or `decryptFile` itself holds,
among the calls `T` of a run: the unmapping of a view, or the closing of a file
that the run has stat-ed.  `GetDataFromFile` stats the file it maps and nothing
else stats a file, so the stat-ed files are the staged source and the
destination temp file.  The closes made inside `CreatePrivateCopyOf`,
`CreatePrivateFile` and `PublishFile` are of files that are never stat-ed: the
input file, a private file whose copy or allocation failed, the output file. -/
def ownRelease (T : List Ev) (e : Ev) : Bool :=
  match e.op with
  | .munmap _ => true
  | .close fd => T.any (fun x => decide (x.op = .fstat fd))
  | _ => false

/-- An entry that reports a step made once `PublishFile` has linked or opened
the output: the publish failure, unless its first cause is the `linkat` or the
opening of the output file; or a failed release of the destination view or
file, which runs after `PublishFile`.  The three messages are those of the
function at hand. -/
def reportsAfterOutput (mPublish mUnmapDst mCloseDst : String) : Err → Bool
  | .wrap m (.multi (x :: _)) =>
    decide (m = mPublish) && !decide (x.msg = "failed to call linkat") &&
      !decide (x.msg = "failed to create output file")
  | .wrap m (.errno _) => decide (m = mUnmapDst) || decide (m = mCloseDst)
  | _ => false

/-- The messages of a function tell the steps apart: the entry of a step that
precedes `PublishFile` is not taken for one that follows it. -/
structure Config.Distinct (cfg : Config) : Prop where
  stage : cfg.mStage ≠ cfg.mPublish
  alloc : cfg.mAlloc ≠ cfg.mPublish ∧ cfg.mAlloc ≠ cfg.mUnmapDst ∧ cfg.mAlloc ≠ cfg.mCloseDst
  flush : cfg.mFlush ≠ cfg.mUnmapDst ∧ cfg.mFlush ≠ cfg.mCloseDst
  earlyUnmap : cfg.mEarlyUnmap ≠ cfg.mUnmapDst ∧ cfg.mEarlyUnmap ≠ cfg.mCloseDst
  earlyClose : cfg.mEarlyClose ≠ cfg.mUnmapDst ∧ cfg.mEarlyClose ≠ cfg.mCloseDst
  report : ∀ e, reportsAfterOutput cfg.mPublish cfg.mUnmapDst cfg.mCloseDst (cfg.report e) = false

/-! ## Fixtures for the defects -/

/-- An environment in which every call succeeds except the close of the source
file (descriptor 3), which fails with `EINTR`. -/
def inputCloseFails : Env :=
  { allSucceed with
    result := fun op _ =>
      match op with
      | .close 3 => some .EINTR
      | _ => none }

/-- A file system in which `outputPath` already holds five bytes, and a staged
file of two bytes (inode 1, open as descriptor 5) is ready to be published. -/
def stagedOverExisting : World where
  names := fun q => if q = "out" then some 0 else none
  data := fun i => if i = 0 then [9, 9, 9, 9, 9] else if i = 1 then [1, 2] else []
  fds := [5]
  maps := []
  nextIno := 2
  nextFd := 6
  nextMap := 0
  clock := 0
  trace := []

/-- An environment without the fast paths in which the opening of the output
file fails with `EACCES`. -/
def outputOpenFails : Env :=
  { allSucceed with
    result := fun op _ =>
      match op with
      | .linkat _ _ => some .ENOENT
      | .clone _ _ => some .EOPNOTSUPP
      | .openCreate _ => some .EACCES
      | _ => none }

/-- An environment in which `linkat` answers `ENOENT` and the clone into the
output file (descriptor 6) fails with `EACCES`. -/
def outputCloneFails : Env :=
  { allSucceed with
    result := fun op _ =>
      match op with
      | .linkat _ _ => some .ENOENT
      | .clone 6 _ => some .EACCES
      | _ => none }

/-- An environment without the fast paths in which the close of the output
file (descriptor 6) fails with `EINTR`. -/
def outputCloseFails : Env :=
  { allSucceed with
    result := fun op _ =>
      match op with
      | .linkat _ _ => some .ENOENT
      | .clone _ _ => some .EOPNOTSUPP
      | .close 6 => some .EINTR
      | _ => none }

/-- An environment in which every call succeeds except the close of the
destination temp file (descriptor 5), which fails with `EINTR`. -/
def destinationCloseFails : Env :=
  { allSucceed with
    result := fun op _ =>
      match op with
      | .close 5 => some .EINTR
      | _ => none }

/-- An environment in which every call succeeds except the unmapping of the
destination view (mapping 1), which fails with `EINVAL`. -/
def destinationUnmapFails : Env :=
  { allSucceed with
    result := fun op _ =>
      match op with
      | .munmap 1 => some .EINVAL
      | _ => none }

/-- An environment in which no call fails, except that a clone may answer that
it is not supported (`EOPNOTSUPP`, `EINVAL`) and `linkat` may answer `ENOENT`:
the answers the code falls back from. -/
def Env.Benign (env : Env) : Prop :=
  ∀ op k, env.result op k = none ∨
    (op.kind = .clone ∧
      (env.result op k = some .EOPNOTSUPP ∨ env.result op k = some .EINVAL)) ∨
    (op.kind = .linkat ∧ env.result op k = some .ENOENT)

/-- What a run needs of the transform to go through: on a source view showing
`S` and a destination of `R.length` zero bytes it succeeds and leaves `R` in
the destination. -/
def Config.Maps (cfg : Config) (env : Env) (S R : Bytes) : Prop :=
  ∀ (d s : View) (wx wy : World) (r : Option Err), cfg.transform env d s wx = (r, wy) →
    wx.bytes s = S → wx.data d.ino = List.replicate R.length 0 → d.len = R.length →
    r = none ∧ wy.data d.ino = R

/-! # Proofs

## How worlds move -/

theorem Evolves.refl (P : Path → Prop) (I : Nat → Prop) (w : World) : Evolves P I w w [] :=
  ⟨by simp, fun _ _ => rfl, fun _ _ => rfl, le_refl _, le_refl _, le_refl _⟩

theorem Evolves.trans {P : Path → Prop} {I : Nat → Prop} {w w1 w2 : World} {e1 e2 : List Ev}
    (h1 : Evolves P I w w1 e1) (h2 : Evolves P I w1 w2 e2) : Evolves P I w w2 (e1 ++ e2) :=
  ⟨by rw [h2.trace, h1.trace, List.append_assoc],
   fun p hp => by rw [h2.names p hp, h1.names p hp],
   fun i hi => by rw [h2.data i hi, h1.data i hi],
   le_trans h1.nextIno h2.nextIno, le_trans h1.nextFd h2.nextFd, le_trans h1.nextMap h2.nextMap⟩

theorem Evolves.mono {P Q : Path → Prop} {I J : Nat → Prop} {w w' : World} {evs : List Ev}
    (h : Evolves P I w w' evs) (hP : ∀ p, Q p → P p) (hI : ∀ i, J i → I i) :
    Evolves Q J w w' evs :=
  ⟨h.trace, fun p hp => h.names p (hP p hp), fun i hi => h.data i (hI i hi),
   h.nextIno, h.nextFd, h.nextMap⟩

theorem Evolves.since {P : Path → Prop} {I : Nat → Prop} {w w' : World} {evs : List Ev}
    (h : Evolves P I w w' evs) : w.since w' = evs := by
  simp [World.since, h.trace]

/-! ## What each call does -/

theorem osOpen_evolves {env : Env} {path : Path} {w w' : World} {r : Except Errno File}
    (h : osOpen env path w = (r, w')) (P : Path → Prop) (I : Nat → Prop) :
    Evolves P I w w' [⟨.openRead path, errOf r⟩] := by
  unfold osOpen at h
  repeat' split at h
  all_goals obtain ⟨rfl, rfl⟩ := Prod.mk.inj h
  all_goals simp [evolves_iff, World.emit, World.write, errOf]

theorem osOpen_ok {env : Env} {path : Path} {w w' : World} {f : File}
    (h : osOpen env path w = (.ok f, w')) :
    f.fd = w.nextFd ∧ w.names path = some f.ino ∧
      w'.nextFd = w.nextFd + 1 ∧ w'.nextIno = w.nextIno ∧ w'.nextMap = w.nextMap ∧
      w'.fds = w.nextFd :: w.fds ∧ w'.maps = w.maps := by
  unfold osOpen at h
  repeat' split at h
  all_goals obtain ⟨h1, rfl⟩ := Prod.mk.inj h
  all_goals simp_all [World.emit, World.write]
  all_goals subst h1
  all_goals simp_all

theorem unixOpenTmp_evolves {env : Env} {dir : Path} {w w' : World} {r : Except Errno File}
    (h : unixOpenTmp env dir w = (r, w')) {P : Path → Prop} {I : Nat → Prop}
    (hI : ∀ i, I i → i ≠ w.nextIno) :
    Evolves P I w w' [⟨.openTmp dir, errOf r⟩] := by
  unfold unixOpenTmp at h
  repeat' split at h
  all_goals obtain ⟨rfl, rfl⟩ := Prod.mk.inj h
  all_goals simp [evolves_iff, World.emit, World.write, errOf]
  all_goals intro i hi hn; exact absurd hn (hI i hi)

theorem unixOpenTmp_ok {env : Env} {dir : Path} {w w' : World} {f : File}
    (h : unixOpenTmp env dir w = (.ok f, w')) :
    f = ⟨w.nextFd, w.nextIno⟩ ∧
      w'.nextFd = w.nextFd + 1 ∧ w'.nextIno = w.nextIno + 1 ∧ w'.nextMap = w.nextMap ∧
      w'.fds = w.nextFd :: w.fds ∧ w'.maps = w.maps ∧ w'.data w.nextIno = [] := by
  unfold unixOpenTmp at h
  repeat' split at h
  all_goals obtain ⟨h1, rfl⟩ := Prod.mk.inj h
  all_goals simp_all [World.emit, World.write]

theorem unixOpenTmp_result {env : Env} {dir : Path} {w w' : World} {r : Except Errno File}
    (h : unixOpenTmp env dir w = (r, w')) : errOf r = env.result (.openTmp dir) w.clock := by
  unfold unixOpenTmp at h
  repeat' split at h
  all_goals obtain ⟨rfl, rfl⟩ := Prod.mk.inj h
  all_goals simp_all [errOf]

theorem osOpenFileCreate_evolves {env : Env} {path : Path} {w w' : World}
    {r : Except Errno File} (h : osOpenFileCreate env path w = (r, w'))
    {P : Path → Prop} {I : Nat → Prop}
    (hP : ∀ p, P p → p ≠ path) (hI : ∀ i, I i → i ≠ w.nextIno) :
    Evolves P I w w' [⟨.openCreate path, errOf r⟩] := by
  unfold osOpenFileCreate at h
  repeat' split at h
  all_goals obtain ⟨rfl, rfl⟩ := Prod.mk.inj h
  all_goals simp [evolves_iff, World.emit, World.write, errOf]
  all_goals constructor
  · intro p hp hn; exact absurd hn (hP p hp)
  · intro i hi hn; exact absurd hn (hI i hi)

theorem osOpenFileCreate_quiet {env : Env} {path : Path} {w w' : World}
    {r : Except Errno File} (h : osOpenFileCreate env path w = (r, w'))
    (hq : errOf r ≠ none) : w'.names = w.names ∧ w'.data = w.data := by
  unfold osOpenFileCreate at h
  repeat' split at h
  all_goals obtain ⟨rfl, rfl⟩ := Prod.mk.inj h
  all_goals simp_all [World.emit, World.write, errOf]

theorem osOpenFileCreate_ok {env : Env} {path : Path} {w w' : World} {f : File}
    (h : osOpenFileCreate env path w = (.ok f, w')) :
    f.fd = w.nextFd ∧ w'.names path = some f.ino ∧ w'.nextFd = w.nextFd + 1 ∧
      w'.nextMap = w.nextMap ∧ w'.fds = w.nextFd :: w.fds ∧ w'.maps = w.maps ∧
      ((w.names path = some f.ino ∧ w'.nextIno = w.nextIno ∧ w'.data = w.data) ∨
       (w.names path = none ∧ f.ino = w.nextIno ∧ w'.nextIno = w.nextIno + 1 ∧
         w'.data f.ino = [])) := by
  unfold osOpenFileCreate at h
  repeat' split at h
  all_goals obtain ⟨h1, rfl⟩ := Prod.mk.inj h
  all_goals simp_all [World.emit, World.write]
  all_goals subst h1
  all_goals simp_all

theorem osOpenFileCreate_result {env : Env} {path : Path} {w w' : World}
    {r : Except Errno File} (h : osOpenFileCreate env path w = (r, w')) :
    errOf r = env.result (.openCreate path) w.clock := by
  unfold osOpenFileCreate at h
  repeat' split at h
  all_goals obtain ⟨rfl, rfl⟩ := Prod.mk.inj h
  all_goals simp_all [errOf]

theorem fileClose_evolves {env : Env} {f : File} {w w' : World} {r : Option Errno}
    (h : fileClose env f w = (r, w')) (P : Path → Prop) (I : Nat → Prop) :
    Evolves P I w w' [⟨.close f.fd, r⟩] := by
  unfold fileClose at h
  obtain ⟨rfl, rfl⟩ := Prod.mk.inj h
  simp [evolves_iff, World.emit, World.write]

theorem fileClose_ids {env : Env} {f : File} {w w' : World} {r : Option Errno}
    (h : fileClose env f w = (r, w')) :
    SameIds w w' ∧ w'.fds = w.fds.erase f.fd ∧ w'.maps = w.maps ∧
      (f.fd ∈ w.fds → r = env.result (.close f.fd) w.clock) := by
  unfold fileClose at h
  obtain ⟨rfl, rfl⟩ := Prod.mk.inj h
  simp +contextual [sameIds_iff, World.emit, World.write]

theorem fileStat_evolves {env : Env} {f : File} {w w' : World} {r : Except Errno Nat}
    (h : fileStat env f w = (r, w')) (P : Path → Prop) (I : Nat → Prop) :
    Evolves P I w w' [⟨.fstat f.fd, errOf r⟩] := by
  unfold fileStat at h
  repeat' split at h
  all_goals obtain ⟨rfl, rfl⟩ := Prod.mk.inj h
  all_goals simp [evolves_iff, World.emit, World.write, errOf]

theorem fileStat_ids {env : Env} {f : File} {w w' : World} {r : Except Errno Nat}
    (h : fileStat env f w = (r, w')) :
    SameIds w w' ∧ w'.fds = w.fds ∧ w'.maps = w.maps ∧
      errOf r = env.result (.fstat f.fd) w.clock ∧
      (∀ n, r = .ok n → n = (w.data f.ino).length) := by
  unfold fileStat at h
  repeat' split at h
  all_goals obtain ⟨rfl, rfl⟩ := Prod.mk.inj h
  all_goals simp_all [sameIds_iff, World.emit, World.write, errOf]

theorem syscallMmap_evolves {env : Env} {f : File} {length : Nat} {w w' : World}
    {r : Except Errno View} (h : syscallMmap env f length w = (r, w'))
    (P : Path → Prop) (I : Nat → Prop) :
    Evolves P I w w' [⟨.mmap f.fd length, errOf r⟩] := by
  unfold syscallMmap at h
  repeat' split at h
  all_goals obtain ⟨rfl, rfl⟩ := Prod.mk.inj h
  all_goals simp [evolves_iff, World.emit, World.write, errOf]

theorem syscallMmap_ok {env : Env} {f : File} {length : Nat} {w w' : World} {v : View}
    (h : syscallMmap env f length w = (.ok v, w')) :
    v = ⟨w.nextMap, f.ino, length⟩ ∧ length ≠ 0 ∧ w'.nextMap = w.nextMap + 1 ∧
      w'.nextFd = w.nextFd ∧ w'.nextIno = w.nextIno ∧ w'.fds = w.fds ∧
      w'.maps = w.nextMap :: w.maps := by
  unfold syscallMmap at h
  repeat' split at h
  all_goals obtain ⟨h1, rfl⟩ := Prod.mk.inj h
  all_goals simp_all [World.emit, World.write]
  rename_i hn
  intro h0
  simp [h0] at hn

theorem syscallMmap_result {env : Env} {f : File} {length : Nat} {w w' : World}
    {r : Except Errno View} (h : syscallMmap env f length w = (r, w')) (hl : length ≠ 0) :
    errOf r = env.result (.mmap f.fd length) w.clock := by
  unfold syscallMmap at h
  repeat' split at h
  all_goals obtain ⟨rfl, rfl⟩ := Prod.mk.inj h
  all_goals simp_all [errOf]

theorem syscallMunmap_evolves {env : Env} {v : View} {w w' : World} {r : Option Errno}
    (h : syscallMunmap env v w = (r, w')) (P : Path → Prop) (I : Nat → Prop) :
    Evolves P I w w' [⟨.munmap v.id, r⟩] := by
  unfold syscallMunmap at h
  obtain ⟨rfl, rfl⟩ := Prod.mk.inj h
  simp [evolves_iff, World.emit, World.write]

theorem syscallMunmap_ids {env : Env} {v : View} {w w' : World} {r : Option Errno}
    (h : syscallMunmap env v w = (r, w')) :
    SameIds w w' ∧ w'.fds = w.fds ∧
      w'.maps = (if r = none then w.maps.erase v.id else w.maps) ∧
      (v.id ∈ w.maps → r = env.result (.munmap v.id) w.clock) := by
  unfold syscallMunmap at h
  obtain ⟨rfl, rfl⟩ := Prod.mk.inj h
  simp +contextual [sameIds_iff, World.emit, World.write]

theorem unixMsync_evolves {env : Env} {v : View} {w w' : World} {r : Option Errno}
    (h : unixMsync env v w = (r, w')) (P : Path → Prop) (I : Nat → Prop) :
    Evolves P I w w' [⟨.msync v.id, r⟩] := by
  unfold unixMsync at h
  obtain ⟨rfl, rfl⟩ := Prod.mk.inj h
  simp [evolves_iff, World.emit, World.write]

theorem unixMsync_ids {env : Env} {v : View} {w w' : World} {r : Option Errno}
    (h : unixMsync env v w = (r, w')) :
    SameIds w w' ∧ w'.fds = w.fds ∧ w'.maps = w.maps ∧
      r = env.result (.msync v.id) w.clock := by
  unfold unixMsync at h
  obtain ⟨rfl, rfl⟩ := Prod.mk.inj h
  simp [sameIds_iff, World.emit, World.write]

theorem syscallFallocate_evolves {env : Env} {f : File} {size : Int} {w w' : World}
    {r : Option Errno} (h : syscallFallocate env f size w = (r, w'))
    {P : Path → Prop} {I : Nat → Prop} (hI : ∀ i, I i → i ≠ f.ino) :
    Evolves P I w w' [⟨.fallocate f.fd size, r⟩] := by
  unfold syscallFallocate at h
  simp only [] at h
  repeat' split at h
  all_goals obtain ⟨rfl, rfl⟩ := Prod.mk.inj h
  all_goals simp [evolves_iff, World.emit, World.write]
  all_goals intro i hi hn; exact absurd hn (hI i hi)

theorem syscallFallocate_ids {env : Env} {f : File} {size : Int} {w w' : World}
    {r : Option Errno} (h : syscallFallocate env f size w = (r, w')) :
    SameIds w w' ∧ w'.fds = w.fds ∧ w'.maps = w.maps ∧
      (size ≤ 0 → r ≠ none) ∧
      (0 < size → r = env.result (.fallocate f.fd size) w.clock) ∧
      (r = none → w'.data f.ino =
        w.data f.ino ++ List.replicate (size.toNat - (w.data f.ino).length) 0) := by
  unfold syscallFallocate at h
  simp only [] at h
  by_cases hs : size ≤ 0
  · simp only [hs, if_true] at h
    obtain ⟨rfl, rfl⟩ := Prod.mk.inj h
    simp [sameIds_iff, World.emit, World.write, hs]
  · simp only [hs, if_false] at h
    split at h
    all_goals obtain ⟨rfl, rfl⟩ := Prod.mk.inj h
    all_goals simp_all [sameIds_iff, World.emit, World.write]

theorem unixLinkat_evolves {env : Env} {f : File} {path : Path} {w w' : World}
    {r : Option Errno} (h : unixLinkat env f path w = (r, w'))
    {P : Path → Prop} (I : Nat → Prop) (hP : ∀ p, P p → p ≠ path) :
    Evolves P I w w' [⟨.linkat f.fd path, r⟩] := by
  unfold unixLinkat at h
  simp only [] at h
  repeat' split at h
  all_goals obtain ⟨rfl, rfl⟩ := Prod.mk.inj h
  all_goals simp [evolves_iff, World.emit, World.write]
  all_goals intro p hp hn; exact absurd hn (hP p hp)

theorem unixLinkat_ids {env : Env} {f : File} {path : Path} {w w' : World}
    {r : Option Errno} (h : unixLinkat env f path w = (r, w')) :
    SameIds w w' ∧ w'.fds = w.fds ∧ w'.maps = w.maps ∧ w'.data = w.data ∧
      (r ≠ none → w'.names = w.names) ∧
      (r = none → w.names path = none ∧ w'.names path = some f.ino) ∧
      (w.names path = none → r = env.result (.linkat f.fd path) w.clock) := by
  unfold unixLinkat at h
  simp only [] at h
  rcases ho : env.result (.linkat f.fd path) w.clock with _ | e
  · rcases hn : w.names path with _ | i
    · simp only [ho, hn, Option.isSome_none] at h
      obtain ⟨rfl, rfl⟩ := Prod.mk.inj h
      simp [sameIds_iff, World.emit, World.write]
    · simp only [ho, hn, Option.isSome_some, if_true] at h
      obtain ⟨rfl, rfl⟩ := Prod.mk.inj h
      simp [sameIds_iff, World.emit, World.write]
  · simp only [ho] at h
    obtain ⟨rfl, rfl⟩ := Prod.mk.inj h
    simp [sameIds_iff, World.emit, World.write]

theorem unixIoctlFileClone_evolves {env : Env} {dst src : File} {w w' : World}
    {r : Option Errno} (h : unixIoctlFileClone env dst src w = (r, w'))
    (P : Path → Prop) {I : Nat → Prop} (hI : ∀ i, I i → i ≠ dst.ino) :
    Evolves P I w w' [⟨.clone dst.fd src.fd, r⟩] := by
  unfold unixIoctlFileClone at h
  repeat' split at h
  all_goals obtain ⟨rfl, rfl⟩ := Prod.mk.inj h
  all_goals simp [evolves_iff, World.emit, World.write]
  all_goals intro i hi hn; exact absurd hn (hI i hi)

theorem unixIoctlFileClone_ids {env : Env} {dst src : File} {w w' : World}
    {r : Option Errno} (h : unixIoctlFileClone env dst src w = (r, w')) :
    SameIds w w' ∧ w'.fds = w.fds ∧ w'.maps = w.maps ∧
      r = env.result (.clone dst.fd src.fd) w.clock ∧
      (r ≠ none → w'.data = w.data) ∧
      (r = none → w'.data dst.ino = overlay (w.data src.ino) (w.data dst.ino)) := by
  unfold unixIoctlFileClone at h
  repeat' split at h
  all_goals obtain ⟨rfl, rfl⟩ := Prod.mk.inj h
  all_goals simp_all [sameIds_iff, World.emit, World.write]

theorem ioCopy_evolves {env : Env} {dst src : File} {w w' : World}
    {r : Option Errno} (h : ioCopy env dst src w = (r, w'))
    (P : Path → Prop) {I : Nat → Prop} (hI : ∀ i, I i → i ≠ dst.ino) :
    Evolves P I w w' [⟨.copy dst.fd src.fd, r⟩] := by
  unfold ioCopy at h
  repeat' split at h
  all_goals obtain ⟨rfl, rfl⟩ := Prod.mk.inj h
  all_goals simp [evolves_iff, World.emit, World.write]
  all_goals intro i hi hn; exact absurd hn (hI i hi)

theorem ioCopy_ids {env : Env} {dst src : File} {w w' : World}
    {r : Option Errno} (h : ioCopy env dst src w = (r, w')) :
    SameIds w w' ∧ w'.fds = w.fds ∧ w'.maps = w.maps ∧
      r = env.result (.copy dst.fd src.fd) w.clock ∧
      (r = none → w'.data dst.ino = overlay (w.data src.ino) (w.data dst.ino)) := by
  unfold ioCopy at h
  repeat' split at h
  all_goals obtain ⟨rfl, rfl⟩ := Prod.mk.inj h
  all_goals simp_all [sameIds_iff, World.emit, World.write]

theorem boxSealAnonymous_evolves {env : Env} {out message : View} {recipient : Key}
    {rand : Bytes} {w w' : World} {r : Option Errno}
    (h : boxSealAnonymous env out message recipient rand w = (r, w'))
    (P : Path → Prop) {I : Nat → Prop} (hI : ∀ i, I i → i ≠ out.ino) :
    Evolves P I w w' [⟨.seal out.id message.id, r⟩] := by
  unfold boxSealAnonymous at h
  repeat' split at h
  all_goals obtain ⟨rfl, rfl⟩ := Prod.mk.inj h
  all_goals simp [evolves_iff, World.emit, World.write]
  all_goals intro i hi hn; exact absurd hn (hI i hi)

theorem boxSealAnonymous_ids {env : Env} {out message : View} {recipient : Key}
    {rand : Bytes} {w w' : World} {r : Option Errno}
    (h : boxSealAnonymous env out message recipient rand w = (r, w')) :
    SameIds w w' ∧ w'.fds = w.fds ∧ w'.maps = w.maps ∧
      (∀ res, env.box.SealAnonymous (w.bytes message) recipient rand = .ok res →
        r = none ∧ w'.data out.ino = appendInto out (w.data out.ino) res) := by
  unfold boxSealAnonymous at h
  repeat' split at h
  all_goals obtain ⟨rfl, rfl⟩ := Prod.mk.inj h
  all_goals simp_all [sameIds_iff, World.emit, World.write]

theorem boxOpenAnonymous_evolves {env : Env} {out sealed : View} {publicKey privateKey : Key}
    {w w' : World} {b : Bool}
    (h : boxOpenAnonymous env out sealed publicKey privateKey w = (b, w'))
    (P : Path → Prop) {I : Nat → Prop} (hI : ∀ i, I i → i ≠ out.ino) :
    Evolves P I w w'
      [⟨.openAnonymous out.id sealed.id, if b then none else some .EINVAL⟩] := by
  unfold boxOpenAnonymous at h
  repeat' split at h
  all_goals obtain ⟨rfl, rfl⟩ := Prod.mk.inj h
  all_goals simp [evolves_iff, World.emit, World.write]
  all_goals intro i hi hn; exact absurd hn (hI i hi)

theorem boxOpenAnonymous_ids {env : Env} {out sealed : View} {publicKey privateKey : Key}
    {w w' : World} {b : Bool}
    (h : boxOpenAnonymous env out sealed publicKey privateKey w = (b, w')) :
    SameIds w w' ∧ w'.fds = w.fds ∧ w'.maps = w.maps ∧
      (∀ res, env.box.OpenAnonymous (w.bytes sealed) publicKey privateKey = some res →
        b = true ∧ w'.data out.ino = appendInto out (w.data out.ino) res) := by
  unfold boxOpenAnonymous at h
  repeat' split at h
  all_goals obtain ⟨rfl, rfl⟩ := Prod.mk.inj h
  all_goals simp_all [sameIds_iff, World.emit, World.write]

theorem osOpen_ids {env : Env} {path : Path} {w w' : World} {r : Except Errno File}
    (h : osOpen env path w = (r, w')) :
    w'.nextIno = w.nextIno ∧ w'.nextMap = w.nextMap ∧ w'.maps = w.maps ∧
      (∀ i, w.names path = some i → errOf r = env.result (.openRead path) w.clock) := by
  unfold osOpen at h
  repeat' split at h
  all_goals obtain ⟨rfl, rfl⟩ := Prod.mk.inj h
  all_goals simp_all [World.emit, World.write, errOf]

theorem unixOpenTmp_ids {env : Env} {dir : Path} {w w' : World} {r : Except Errno File}
    (h : unixOpenTmp env dir w = (r, w')) :
    w'.nextMap = w.nextMap ∧ w'.maps = w.maps := by
  unfold unixOpenTmp at h
  repeat' split at h
  all_goals obtain ⟨rfl, rfl⟩ := Prod.mk.inj h
  all_goals simp_all [World.emit, World.write]

theorem osOpenFileCreate_ids {env : Env} {path : Path} {w w' : World}
    {r : Except Errno File} (h : osOpenFileCreate env path w = (r, w')) :
    w'.nextMap = w.nextMap ∧ w'.maps = w.maps := by
  unfold osOpenFileCreate at h
  repeat' split at h
  all_goals obtain ⟨rfl, rfl⟩ := Prod.mk.inj h
  all_goals simp_all [World.emit, World.write]

theorem syscallMmap_ids {env : Env} {f : File} {length : Nat} {w w' : World}
    {r : Except Errno View} (h : syscallMmap env f length w = (r, w')) :
    w'.nextFd = w.nextFd ∧ w'.nextIno = w.nextIno ∧ w'.fds = w.fds := by
  unfold syscallMmap at h
  repeat' split at h
  all_goals obtain ⟨rfl, rfl⟩ := Prod.mk.inj h
  all_goals simp_all [World.emit, World.write]

/-! ## What each function of `utils` does -/

theorem GetDataFromFile_spec {env : Env} {f : File} {w w' : World} {r : Except SysErr View}
    (h : GetDataFromFile env f w = (r, w')) (P : Path → Prop) (I : Nat → Prop) :
    ∃ evs, Evolves P I w w' evs ∧
      (∀ e ∈ evs, e.op.kind = .fstat ∨ e.op.kind = .mmap) ∧
      (errOf r = none ↔ ∀ e ∈ evs, e.clean = true) ∧
      w'.nextFd = w.nextFd ∧ w'.nextIno = w.nextIno ∧ w'.fds = w.fds ∧
      (∀ v, r = .ok v → v = ⟨w.nextMap, f.ino, (w.data f.ino).length⟩ ∧ v.len ≠ 0 ∧
        w'.nextMap = w.nextMap + 1 ∧ w'.maps = w.nextMap :: w.maps) := by
  unfold GetDataFromFile at h
  rcases h1 : fileStat env f w with ⟨r1, w1⟩
  have E1 := fileStat_evolves h1 P I
  obtain ⟨S1, F1, M1, -, L1⟩ := fileStat_ids h1
  rw [h1] at h
  rcases r1 with e1 | n
  · obtain ⟨rfl, rfl⟩ := Prod.mk.inj h
    exact ⟨_, E1, by simp [Op.kind], by simp [errOf, Ev.clean], S1.nextFd, S1.nextIno, F1,
      by simp⟩
  · simp only [] at h
    rcases h2 : syscallMmap env f n w1 with ⟨r2, w2⟩
    have E2 := syscallMmap_evolves h2 P I
    obtain ⟨A2, B2, C2⟩ := syscallMmap_ids h2
    rw [h2] at h
    have hn := L1 n rfl
    rcases r2 with e2 | v
    · obtain ⟨rfl, rfl⟩ := Prod.mk.inj h
      exact ⟨_, E1.trans E2, by simp [Op.kind], by simp [errOf, Ev.clean],
        by rw [A2, S1.nextFd], by rw [B2, S1.nextIno], by rw [C2, F1], by simp⟩
    · obtain ⟨rfl, rfl⟩ := Prod.mk.inj h
      obtain ⟨hv, hl, hm, -, -, -, hmp⟩ := syscallMmap_ok h2
      refine ⟨_, E1.trans E2, by simp [Op.kind], by simp [errOf, Ev.clean],
        by rw [A2, S1.nextFd], by rw [B2, S1.nextIno], by rw [C2, F1], ?_⟩
      intro v' hv'
      cases hv'
      subst hn
      refine ⟨by rw [hv, S1.nextMap], by rw [hv]; exact hl, by rw [hm, S1.nextMap],
        by rw [hmp, S1.nextMap, M1]⟩

theorem GetDataFromFile_fstat {env : Env} {f : File} {w w' : World} {r : Except SysErr View}
    (h : GetDataFromFile env f w = (r, w')) :
    (∃ r0, (⟨.fstat f.fd, r0⟩ : Ev) ∈ w.since w') ∧
      ∀ e ∈ w.since w', ∀ fd, e.op = .fstat fd → fd = f.fd := by
  unfold GetDataFromFile at h
  rcases h1 : fileStat env f w with ⟨r1, w1⟩
  have E1 := fileStat_evolves h1 (fun _ => True) (fun _ => True)
  rw [h1] at h
  rcases r1 with e1 | n
  · obtain ⟨rfl, rfl⟩ := Prod.mk.inj h
    rw [E1.since]
    refine ⟨⟨_, List.mem_singleton.mpr rfl⟩, ?_⟩
    intro e he fd hfd
    rw [List.mem_singleton.mp he] at hfd
    injection hfd with hfd
    exact hfd.symm
  · simp only [] at h
    rcases h2 : syscallMmap env f n w1 with ⟨r2, w2⟩
    have E2 := syscallMmap_evolves h2 (fun _ => True) (fun _ => True)
    rw [h2] at h
    have hw : w' = w2 := by
      rcases r2 with e2 | v
      · obtain ⟨-, rfl⟩ := Prod.mk.inj h
        rfl
      · obtain ⟨-, rfl⟩ := Prod.mk.inj h
        rfl
    subst hw
    rw [(E1.trans E2).since]
    refine ⟨⟨_, List.mem_cons_self _ _⟩, ?_⟩
    intro e he fd hfd
    simp only [List.singleton_append, List.mem_cons, List.mem_singleton, List.not_mem_nil,
      or_false] at he
    rcases he with rfl | rfl
    · injection hfd with hfd
      exact hfd.symm
    · cases hfd

theorem CreatePrivateFile_spec {env : Env} {tempDir : Path} {size : Int} {w w' : World}
    {r : Except Cause File} (h : CreatePrivateFile env tempDir size w = (r, w'))
    (P : Path → Prop) {I : Nat → Prop} (hI : ∀ i, I i → i ≠ w.nextIno) :
    ∃ evs, Evolves P I w w' evs ∧
      (∀ e ∈ evs, e.op.kind = .openTmp ∨ e.op.kind = .fallocate ∨ e.op = .close w.nextFd) ∧
      (errOf r = none ↔ ∀ e ∈ evs, e.clean = true) ∧
      w'.nextMap = w.nextMap ∧ w'.maps = w.maps ∧
      (size ≤ 0 → errOf r ≠ none) ∧
      (∀ e ∈ evs, ∀ fd n, e.op = .fallocate fd n → n = size) ∧
      (∀ f, r = .ok f → f = ⟨w.nextFd, w.nextIno⟩ ∧ 0 < size ∧
        w'.nextFd = w.nextFd + 1 ∧ w'.nextIno = w.nextIno + 1 ∧
        w'.fds = w.nextFd :: w.fds ∧
        w'.data w.nextIno = List.replicate size.toNat 0 ∧
        (∀ e ∈ evs, e.op.kind ≠ .close)) := by
  unfold CreatePrivateFile at h
  rcases h1 : unixOpenTmp env tempDir w with ⟨r1, w1⟩
  have E1 := unixOpenTmp_evolves h1 (P := P) hI
  obtain ⟨T1, U1⟩ := unixOpenTmp_ids h1
  rw [h1] at h
  rcases r1 with e1 | f
  · obtain ⟨rfl, rfl⟩ := Prod.mk.inj h
    exact ⟨_, E1, by simp [Op.kind], by simp [errOf, Ev.clean], T1, U1,
      by simp [errOf], by simp, by simp⟩
  · simp only [] at h
    obtain ⟨hf, hfd, hino, -, hfds, -, hdata⟩ := unixOpenTmp_ok h1
    rcases h2 : syscallFallocate env f size w1 with ⟨r2, w2⟩
    have E2 := syscallFallocate_evolves h2 (P := P) (I := I)
      (by intro i hi; rw [hf]; exact hI i hi)
    obtain ⟨S2, F2, M2, hneg, -, hd2⟩ := syscallFallocate_ids h2
    rw [h2] at h
    rcases r2 with _ | e2
    · obtain ⟨rfl, rfl⟩ := Prod.mk.inj h
      have hpos : 0 < size := by
        by_contra hc
        exact hneg (not_lt.mp hc) rfl
      refine ⟨_, E1.trans E2, by simp [Op.kind], by simp [errOf, Ev.clean],
        by rw [S2.nextMap, T1], by rw [M2, U1], ?_, by simp, ?_⟩
      · intro hs
        exact absurd hs (not_le.mpr hpos)
      · intro f' hf'
        cases hf'
        refine ⟨hf, hpos, by rw [S2.nextFd, hfd], by rw [S2.nextIno, hino], by rw [F2, hfds],
          ?_, by simp [Op.kind]⟩
        have := hd2 rfl
        rw [hf] at this
        simpa [hdata] using this
    · simp only [] at h
      rcases h3 : fileClose env f w2 with ⟨r3, w3⟩
      have E3 := fileClose_evolves h3 P I
      obtain ⟨S3, -, M3, -⟩ := fileClose_ids h3
      rw [h3] at h
      have hfd' : f.fd = w.nextFd := by rw [hf]
      have hres : errOf r ≠ none ∧ w' = w3 := by
        rcases r3 with _ | e3
        · obtain ⟨rfl, rfl⟩ := Prod.mk.inj h
          simp [errOf]
        · obtain ⟨rfl, rfl⟩ := Prod.mk.inj h
          simp [errOf]
      obtain ⟨hne, rfl⟩ := hres
      refine ⟨_, E1.trans (E2.trans E3), by simp [Op.kind, hfd'], ?_,
        by rw [S3.nextMap, S2.nextMap, T1], by rw [M3, M2, U1], fun _ => hne, by simp, ?_⟩
      · simp [hne, Ev.clean]
      · intro f' hf'
        subst hf'
        simp [errOf] at hne

theorem overlay_nil (src : Bytes) : overlay src [] = src := by
  simp [overlay]

theorem clean_clone (dst src : Nat) (e : Errno) :
    Ev.clean ⟨.clone dst src, some e⟩ = true ↔ ¬ (e ≠ .EOPNOTSUPP ∧ e ≠ .EINVAL) := by
  cases e <;> simp [Ev.clean]

theorem cloneOrCopy_spec {env : Env} {msgClone msgCopy : String} {dst src : File}
    {w w' : World} {b : List SysErr}
    (h : cloneOrCopy env msgClone msgCopy dst src w = (b, w'))
    (P : Path → Prop) {I : Nat → Prop} (hI : ∀ i, I i → i ≠ dst.ino) :
    ∃ evs, Evolves P I w w' evs ∧
      (∀ e ∈ evs, e.op.kind = .clone ∨ e.op.kind = .copy) ∧
      (b = [] ↔ ∀ e ∈ evs, e.clean = true) ∧
      SameIds w w' ∧ w'.fds = w.fds ∧ w'.maps = w.maps ∧
      (b = [] → w'.data dst.ino = overlay (w.data src.ino) (w.data dst.ino)) := by
  unfold cloneOrCopy at h
  rcases h3 : unixIoctlFileClone env dst src w with ⟨r3, w3⟩
  have E3 := unixIoctlFileClone_evolves h3 P hI
  obtain ⟨S3, F3, MM3, -, hq3, hd3⟩ := unixIoctlFileClone_ids h3
  rw [h3] at h
  rcases r3 with _ | e3
  · obtain ⟨rfl, rfl⟩ := Prod.mk.inj h
    exact ⟨_, E3, by simp [Op.kind], by simp [Ev.clean], S3, F3, MM3, fun _ => hd3 rfl⟩
  · simp only [] at h
    by_cases hfatal : e3 ≠ Errno.EOPNOTSUPP ∧ e3 ≠ Errno.EINVAL
    · rw [if_pos hfatal] at h
      obtain ⟨rfl, rfl⟩ := Prod.mk.inj h
      refine ⟨_, E3, by simp [Op.kind], ?_, S3, F3, MM3, by simp⟩
      simp only [List.mem_singleton, forall_eq, clean_clone]
      simp [hfatal]
    · rw [if_neg hfatal] at h
      have hcl : Ev.clean ⟨.clone dst.fd src.fd, some e3⟩ = true := (clean_clone _ _ _).mpr hfatal
      have hd0 : w3.data = w.data := hq3 (by simp)
      rcases h4 : ioCopy env dst src w3 with ⟨r4, w4⟩
      have E4 := ioCopy_evolves h4 P hI
      obtain ⟨S4, F4, MM4, -, hd4⟩ := ioCopy_ids h4
      have S34 : SameIds w w4 :=
        ⟨by rw [S4.nextIno, S3.nextIno], by rw [S4.nextFd, S3.nextFd],
         by rw [S4.nextMap, S3.nextMap]⟩
      rw [h4] at h
      rcases r4 with _ | e4
      · obtain ⟨rfl, rfl⟩ := Prod.mk.inj h
        refine ⟨_, E3.trans E4, by simp [Op.kind], ?_, S34,
          by rw [F4, F3], by rw [MM4, MM3], ?_⟩
        · simp only [List.singleton_append, List.forall_mem_cons, hcl, true_and]
          simp [Ev.clean]
        · intro _
          rw [hd4 rfl, hd0]
      · obtain ⟨rfl, rfl⟩ := Prod.mk.inj h
        refine ⟨_, E3.trans E4, by simp [Op.kind], ?_, S34,
          by rw [F4, F3], by rw [MM4, MM3], by simp⟩
        simp only [List.singleton_append, List.forall_mem_cons, hcl, true_and]
        simp [Ev.clean]

theorem cloneOrCopy_msgs {env : Env} {msgClone msgCopy : String} {dst src : File}
    {w w' : World} {b : List SysErr}
    (h : cloneOrCopy env msgClone msgCopy dst src w = (b, w')) :
    ∀ x ∈ b, x.msg = msgClone ∨ x.msg = msgCopy := by
  unfold cloneOrCopy at h
  repeat' split at h
  all_goals obtain ⟨rfl, rfl⟩ := Prod.mk.inj h
  all_goals simp

theorem closeIfFailed_spec {env : Env} {privateFile : File} {b : List SysErr} {wb wp : World}
    {pf : Option File} {p : List SysErr}
    (h : closeIfFailed env privateFile (b, wb) = ((pf, p), wp))
    (P : Path → Prop) (I : Nat → Prop) :
    ∃ evs, pf = some privateFile ∧ Evolves P I wb wp evs ∧
      (∀ e ∈ evs, e.op = .close privateFile.fd ∧ b ≠ []) ∧
      (p = [] ↔ b = []) ∧ (b = [] → evs = [] ∧ wp = wb) ∧
      SameIds wb wp ∧ wp.maps = wb.maps := by
  unfold closeIfFailed at h
  by_cases hbe : b = []
  · subst hbe
    simp only [ne_eq, not_true_eq_false, if_false] at h
    obtain ⟨h', rfl⟩ := Prod.mk.inj h
    obtain ⟨rfl, rfl⟩ := Prod.mk.inj h'
    exact ⟨[], rfl, Evolves.refl P I _, by simp, by simp, by simp, ⟨rfl, rfl, rfl⟩, rfl⟩
  · simp only [ne_eq, hbe, not_false_eq_true, if_true] at h
    rcases h5 : fileClose env privateFile wb with ⟨r5, w5⟩
    have E5 := fileClose_evolves h5 P I
    obtain ⟨S5, -, MM5, -⟩ := fileClose_ids h5
    rw [h5] at h
    rcases r5 with _ | e5
    · obtain ⟨h', rfl⟩ := Prod.mk.inj h
      obtain ⟨rfl, rfl⟩ := Prod.mk.inj h'
      exact ⟨_, rfl, E5, by simp [hbe], by simp [hbe], by simp [hbe], S5, MM5⟩
    · obtain ⟨h', rfl⟩ := Prod.mk.inj h
      obtain ⟨rfl, rfl⟩ := Prod.mk.inj h'
      exact ⟨_, rfl, E5, by simp [hbe], by simp [hbe], by simp [hbe], S5, MM5⟩

theorem CreatePrivateCopyOf_spec {env : Env} {inputPath tempDir : Path} {w w' : World}
    {file : Option File} {errs : List SysErr}
    (h : CreatePrivateCopyOf env inputPath tempDir w = ((file, errs), w'))
    (P : Path → Prop) {I : Nat → Prop} (hI : ∀ i, I i → i ≠ w.nextIno) :
    ∃ evs, Evolves P I w w' evs ∧
      (∀ e ∈ evs, e.op.kind = .openRead ∨ e.op.kind = .openTmp ∨ e.op.kind = .clone ∨
        e.op.kind = .copy ∨ e.op = .close w.nextFd ∨
        (e.op = .close (w.nextFd + 1) ∧ errs ≠ [])) ∧
      (errs = [] ↔ ∀ e ∈ evs, e.clean = true) ∧
      w'.nextMap = w.nextMap ∧ w'.maps = w.maps ∧
      (errs = [] → ∃ i, w.names inputPath = some i ∧
        file = some ⟨w.nextFd + 1, w.nextIno⟩ ∧
        w'.nextFd = w.nextFd + 2 ∧ w'.nextIno = w.nextIno + 1 ∧
        w'.fds = (w.nextFd + 1) :: w.fds ∧
        (i ≠ w.nextIno → w'.data w.nextIno = w.data i)) := by
  unfold CreatePrivateCopyOf at h
  rcases h1 : osOpen env inputPath w with ⟨r1, w1⟩
  have E1 := osOpen_evolves h1 P I
  obtain ⟨I1, M1, MM1, -⟩ := osOpen_ids h1
  rw [h1] at h
  rcases r1 with e1 | inputFile
  · obtain ⟨h', rfl⟩ := Prod.mk.inj h
    obtain ⟨rfl, rfl⟩ := Prod.mk.inj h'
    exact ⟨_, E1, by simp [Op.kind], by simp [errOf, Ev.clean], M1, MM1, by simp⟩
  · simp only [] at h
    obtain ⟨hifd, hiname, hfd1, -, -, hfds1, -⟩ := osOpen_ok h1
    have hI1 : ∀ i, I i → i ≠ w1.nextIno := by rw [I1]; exact hI
    rcases h2 : unixOpenTmp env tempDir w1 with ⟨r2, w2⟩
    have E2 := unixOpenTmp_evolves h2 (P := P) hI1
    obtain ⟨M2, MM2⟩ := unixOpenTmp_ids h2
    rw [h2] at h
    rcases r2 with e2 | privateFile
    · simp only [] at h
      rcases h3 : fileClose env inputFile w2 with ⟨r3, w3⟩
      have E3 := fileClose_evolves h3 P I
      obtain ⟨S3, -, MM3, -⟩ := fileClose_ids h3
      rw [h3] at h
      have key : errs ≠ [] ∧ w' = w3 := by
        rcases r3 with _ | e3
        · obtain ⟨h', rfl⟩ := Prod.mk.inj h
          obtain ⟨rfl, rfl⟩ := Prod.mk.inj h'
          simp
        · obtain ⟨h', rfl⟩ := Prod.mk.inj h
          obtain ⟨rfl, rfl⟩ := Prod.mk.inj h'
          simp
      obtain ⟨hne, rfl⟩ := key
      refine ⟨_, E1.trans (E2.trans E3), by simp [Op.kind, hifd], ?_,
        by rw [S3.nextMap, M2, M1], by rw [MM3, MM2, MM1], fun hc => absurd hc hne⟩
      simp [hne, errOf, Ev.clean]
    · simp only [] at h
      obtain ⟨hpf, hfd2, hino2, -, hfds2, -, hdata2⟩ := unixOpenTmp_ok h2
      have hI2 : ∀ i, I i → i ≠ privateFile.ino := by
        intro i hi; rw [hpf]; exact hI1 i hi
      -- the copy itself
      rcases hb : cloneOrCopy env "failed to clone file" "failed to copy file"
        privateFile inputFile w2 with ⟨b, wb⟩
      obtain ⟨evb, Eb, Kb, Cb, Sb, Fb, MMb, Db⟩ := cloneOrCopy_spec hb P hI2
      unfold cloneOrCopy at hb
      rw [hb] at h
      simp only [] at h
      -- the deferred close of the private file, when the copy failed
      rcases hp : closeIfFailed env privateFile (b, wb) with ⟨⟨pf, p⟩, wp⟩
      obtain ⟨evp, rfl, Ep, Kp, Cp, Zp, Sp, MMp⟩ := closeIfFailed_spec hp P I
      unfold closeIfFailed at hp
      rw [hp] at h
      rcases h6 : fileClose env inputFile wp with ⟨r6, w6⟩
      have E6 := fileClose_evolves h6 P I
      obtain ⟨S6, F6, MM6, -⟩ := fileClose_ids h6
      rw [h6] at h
      have key : file = some privateFile ∧ errs = p ++ sysErrOf "failed to close file" r6 ∧
          w' = w6 := by
        rcases r6 with _ | e6
        · obtain ⟨h', rfl⟩ := Prod.mk.inj h
          obtain ⟨rfl, rfl⟩ := Prod.mk.inj h'
          simp [sysErrOf]
        · obtain ⟨h', rfl⟩ := Prod.mk.inj h
          obtain ⟨rfl, rfl⟩ := Prod.mk.inj h'
          simp [sysErrOf]
      obtain ⟨rfl, rfl, rfl⟩ := key
      have hempty : p ++ sysErrOf "failed to close file" r6 = [] ↔ (b = [] ∧ r6 = none) := by
        rw [← Cp]
        cases r6 <;> simp [sysErrOf]
      have hpfd : privateFile.fd = w.nextFd + 1 := by rw [hpf, hfd1]
      refine ⟨_, E1.trans (E2.trans (Eb.trans (Ep.trans E6))), ?_, ?_,
        by rw [S6.nextMap, Sp.nextMap, Sb.nextMap, M2, M1],
        by rw [MM6, MMp, MMb, MM2, MM1], ?_⟩
      · intro e he
        simp only [List.mem_append, List.mem_singleton] at he
        rcases he with rfl | rfl | he | he | rfl
        · simp [Op.kind]
        · simp [Op.kind]
        · rcases Kb e he with hk | hk <;> simp [hk]
        · obtain ⟨hk, hbne⟩ := Kp e he
          right; right; right; right; right
          refine ⟨by rw [hk, hpfd], ?_⟩
          rw [Ne, hempty]
          exact fun hc => hbne hc.1
        · simp [hifd]
      · rw [hempty]
        constructor
        · rintro ⟨hb0, rfl⟩
          intro e he
          simp only [List.mem_append, List.mem_singleton] at he
          rcases he with rfl | rfl | he | he | rfl
          · simp [errOf, Ev.clean]
          · simp [errOf, Ev.clean]
          · exact Cb.mp hb0 e he
          · rw [(Zp hb0).1] at he
            simp at he
          · simp [Ev.clean]
        · intro hall
          refine ⟨Cb.mpr (fun e he => hall e (by simp [he])), ?_⟩
          have := hall ⟨.close inputFile.fd, r6⟩ (by simp)
          cases r6 <;> simp_all [Ev.clean]
      · rw [hempty]
        rintro ⟨hb0, rfl⟩
        obtain ⟨-, rfl⟩ := Zp hb0
        refine ⟨inputFile.ino, hiname, by rw [hpf, hfd1, I1], by rw [S6.nextFd, Sb.nextFd, hfd2, hfd1],
          by rw [S6.nextIno, Sb.nextIno, hino2, I1], ?_, ?_⟩
        · rw [F6, Fb, hfds2, hfds1, hifd, hfd1]
          simp
        · intro hne
          have hd6 : w'.data w.nextIno = wp.data w.nextIno :=
            (fileClose_evolves h6 (fun _ => True) (fun _ => True)).data _ trivial
          have hpi : privateFile.ino = w.nextIno := by rw [hpf, I1]
          have d2 : w2.data inputFile.ino = w1.data inputFile.ino :=
            (unixOpenTmp_evolves h2 (P := fun _ => True) (I := fun i => i ≠ w1.nextIno)
              (fun i hi => hi)).data _ (by rw [I1]; exact hne)
          have d1 : w1.data inputFile.ino = w.data inputFile.ino :=
            (osOpen_evolves h1 (fun _ => True) (fun _ => True)).data _ trivial
          rw [hd6, ← hpi, Db hb0, d2, d1, hpi, ← I1, hdata2, overlay_nil]

theorem clean_linkat (fd : Nat) (path : Path) (e : Errno) :
    Ev.clean ⟨.linkat fd path, some e⟩ = true ↔ e = .ENOENT := by
  cases e <;> simp [Ev.clean]

theorem PublishFile_spec {env : Env} {f : File} {outputPath : Path} {w w' : World}
    {errs : List SysErr} (h : PublishFile env f outputPath w = (errs, w'))
    {P : Path → Prop} {I : Nat → Prop} (hP : ∀ p, P p → p ≠ outputPath)
    (hI : ∀ i, I i → i ≠ w.nextIno ∧ w.names outputPath ≠ some i) :
    ∃ r rest, Evolves P I w w' (⟨.linkat f.fd outputPath, r⟩ :: rest) ∧
      (∀ e ∈ rest, e.op.kind = .openCreate ∨ e.op.kind = .clone ∨ e.op.kind = .copy ∨
        e.op = .close w.nextFd) ∧
      (errs = [] ↔ ∀ e ∈ (⟨.linkat f.fd outputPath, r⟩ :: rest : List Ev), e.clean = true) ∧
      w'.nextMap = w.nextMap ∧ w'.maps = w.maps ∧ w'.fds = w.fds ∧
      ((∀ e ∈ (⟨.linkat f.fd outputPath, r⟩ :: rest : List Ev), e.published = false) →
        w'.names = w.names ∧ w'.data = w.data) := by
  unfold PublishFile at h
  rcases h1 : unixLinkat env f outputPath w with ⟨r1, w1⟩
  have E1 := unixLinkat_evolves h1 (P := P) I hP
  obtain ⟨S1, F1, MM1, D1, N1, -, -⟩ := unixLinkat_ids h1
  rw [h1] at h
  rcases r1 with _ | e1
  · obtain ⟨rfl, rfl⟩ := Prod.mk.inj h
    refine ⟨_, [], E1, by simp, by simp [Ev.clean], S1.nextMap, MM1, F1, ?_⟩
    intro hp
    simp [Ev.published] at hp
  · simp only [] at h
    have hn1 : w1.names = w.names := N1 (by simp)
    by_cases hfatal : e1 ≠ Errno.ENOENT
    · rw [if_pos hfatal] at h
      obtain ⟨rfl, rfl⟩ := Prod.mk.inj h
      refine ⟨_, [], E1, by simp, ?_, S1.nextMap, MM1, F1, fun _ => ⟨hn1, D1⟩⟩
      simp only [List.forall_mem_cons, clean_linkat]
      simp [hfatal]
    · rw [if_neg hfatal] at h
      have hcl : Ev.clean ⟨.linkat f.fd outputPath, some e1⟩ = true :=
        (clean_linkat _ _ _).mpr (not_not.mp hfatal)
      rcases h2 : osOpenFileCreate env outputPath w1 with ⟨r2, w2⟩
      have E2 := osOpenFileCreate_evolves h2 (P := P) (I := I) hP
        (by intro i hi; rw [S1.nextIno]; exact (hI i hi).1)
      obtain ⟨M2, MM2⟩ := osOpenFileCreate_ids h2
      rw [h2] at h
      rcases r2 with e2 | outputFile
      · obtain ⟨rfl, rfl⟩ := Prod.mk.inj h
        have hq := osOpenFileCreate_quiet h2 (by simp [errOf])
        have F2 : w2.fds = w1.fds := by
          unfold osOpenFileCreate at h2
          split at h2
          · obtain ⟨-, rfl⟩ := Prod.mk.inj h2
            simp [World.emit]
          · split at h2 <;> simp at h2
        refine ⟨some e1, [⟨.openCreate outputPath, some e2⟩],
          by simpa [errOf] using E1.trans E2, by simp [Op.kind], ?_, by rw [M2, S1.nextMap],
          by rw [MM2, MM1], by rw [F2, F1], fun _ => ⟨by rw [hq.1, hn1], by rw [hq.2, D1]⟩⟩
        simp only [List.forall_mem_cons, hcl, true_and]
        simp [Ev.clean]
      · simp only [] at h
        obtain ⟨hofd, -, hfd2, -, hfds2, -, hcase⟩ := osOpenFileCreate_ok h2
        have hIo : ∀ i, I i → i ≠ outputFile.ino := by
          intro i hi
          rcases hcase with ⟨hex, -, -⟩ | ⟨-, hfresh, -, -⟩
          · intro hc
            rw [hn1] at hex
            exact (hI i hi).2 (by rw [hex, hc])
          · rw [hfresh, S1.nextIno]
            exact (hI i hi).1
        rcases hb : cloneOrCopy env "failed to clone file"
          "failed to copy into public decrypted file" outputFile f w2 with ⟨b, wb⟩
        obtain ⟨evb, Eb, Kb, Cb, Sb, Fb, MMb, -⟩ := cloneOrCopy_spec hb P hIo
        unfold cloneOrCopy at hb
        rw [hb] at h
        rcases h3 : fileClose env outputFile wb with ⟨r3, w3⟩
        have E3 := fileClose_evolves h3 P I
        obtain ⟨S3, F3, MM3, -⟩ := fileClose_ids h3
        rw [h3] at h
        have key : errs = b ++ sysErrOf "failed to close file" r3 ∧ w' = w3 := by
          rcases r3 with _ | e3
          · obtain ⟨rfl, rfl⟩ := Prod.mk.inj h
            simp [sysErrOf]
          · obtain ⟨rfl, rfl⟩ := Prod.mk.inj h
            simp [sysErrOf]
        obtain ⟨rfl, rfl⟩ := key
        have hempty : b ++ sysErrOf "failed to close file" r3 = [] ↔ (b = [] ∧ r3 = none) := by
          cases r3 <;> simp [sysErrOf]
        refine ⟨some e1, ⟨.openCreate outputPath, none⟩ :: (evb ++ [⟨.close outputFile.fd, r3⟩]),
          by simpa [errOf] using E1.trans (E2.trans (Eb.trans E3)), ?_, ?_,
          by rw [S3.nextMap, Sb.nextMap, M2, S1.nextMap], by rw [MM3, MMb, MM2, MM1], ?_, ?_⟩
        · intro e he
          simp only [List.mem_cons, List.mem_append, List.mem_singleton, List.mem_nil_iff,
            or_false] at he
          rcases he with rfl | he | rfl
          · simp [Op.kind]
          · rcases Kb e he with hk | hk <;> simp [hk]
          · simp [hofd, S1.nextFd]
        · rw [hempty]
          constructor
          · rintro ⟨hb0, rfl⟩
            intro e he
            simp only [List.mem_cons, List.mem_append,
              List.mem_singleton, List.mem_nil_iff, or_false] at he
            rcases he with rfl | rfl | he | rfl
            · exact hcl
            · simp [Ev.clean]
            · exact Cb.mp hb0 e he
            · simp [Ev.clean]
          · intro hall
            refine ⟨Cb.mpr (fun e he => hall e (by simp [he])), ?_⟩
            have := hall ⟨.close outputFile.fd, r3⟩ (by simp)
            cases r3 <;> simp_all [Ev.clean]
        · rw [F3, Fb, hfds2, hofd]
          simp [F1]
        · intro hp
          have := hp ⟨.openCreate outputPath, none⟩ (by simp)
          simp [Ev.published] at this

theorem PublishFile_early {env : Env} {f : File} {outputPath : Path} {w w' : World}
    {errs : List SysErr} (h : PublishFile env f outputPath w = (errs, w'))
    {x : SysErr} (hx : errs.head? = some x)
    (hm : x.msg = "failed to call linkat" ∨ x.msg = "failed to create output file") :
    ∀ e ∈ w.since w', e.published = false := by
  unfold PublishFile at h
  rcases h1 : unixLinkat env f outputPath w with ⟨r1, w1⟩
  have E1 := unixLinkat_evolves h1 (P := fun _ => False) (fun _ => True) (fun _ hp => hp.elim)
  rw [h1] at h
  rcases r1 with _ | e1
  · obtain ⟨rfl, rfl⟩ := Prod.mk.inj h
    simp at hx
  · simp only [] at h
    by_cases hfatal : e1 ≠ Errno.ENOENT
    · rw [if_pos hfatal] at h
      obtain ⟨rfl, rfl⟩ := Prod.mk.inj h
      rw [E1.since]
      simp [Ev.published]
    · rw [if_neg hfatal] at h
      rcases h2 : osOpenFileCreate env outputPath w1 with ⟨r2, w2⟩
      have E2 := osOpenFileCreate_evolves h2 (P := fun _ => False) (I := fun _ => False)
        (fun _ hp => hp.elim) (fun _ hi => hi.elim)
      rw [h2] at h
      rcases r2 with e2 | outputFile
      · obtain ⟨rfl, rfl⟩ := Prod.mk.inj h
        rw [((E1.mono (fun _ hp => hp) (fun _ hi => hi.elim)).trans E2).since]
        simp [Ev.published, errOf]
      · simp only [] at h
        rcases hb : cloneOrCopy env "failed to clone file"
          "failed to copy into public decrypted file" outputFile f w2 with ⟨b, wb⟩
        have Mb := cloneOrCopy_msgs hb
        unfold cloneOrCopy at hb
        rw [hb] at h
        rcases h3 : fileClose env outputFile wb with ⟨r3, w3⟩
        rw [h3] at h
        have key : errs = b ++ sysErrOf "failed to close file" r3 := by
          rcases r3 with _ | e3
          · obtain ⟨rfl, -⟩ := Prod.mk.inj h
            simp [sysErrOf]
          · obtain ⟨rfl, -⟩ := Prod.mk.inj h
            simp [sysErrOf]
        subst key
        exfalso
        rcases b with _ | ⟨y, b⟩
        · rcases r3 with _ | e3
          · simp [sysErrOf] at hx
          · simp only [sysErrOf, List.nil_append, List.head?_cons, Option.some.injEq] at hx
            subst hx
            simp at hm
        · simp only [List.cons_append, List.head?_cons, Option.some.injEq] at hx
          subst hx
          rcases Mb y (List.mem_cons_self _ _) with hy | hy
          · rw [hy] at hm
            simp at hm
          · rw [hy] at hm
            simp at hm

theorem PublishFile_late {env : Env} {f : File} {outputPath : Path} {w w' : World}
    {errs : List SysErr} (h : PublishFile env f outputPath w = (errs, w'))
    (hl : ∀ x, errs.head? = some x →
      x.msg ≠ "failed to call linkat" ∧ x.msg ≠ "failed to create output file") :
    ∃ e ∈ w.since w', e.published = true := by
  unfold PublishFile at h
  rcases h1 : unixLinkat env f outputPath w with ⟨r1, w1⟩
  have E1 := unixLinkat_evolves h1 (P := fun _ => False) (fun _ => False) (fun _ hp => hp.elim)
  rw [h1] at h
  rcases r1 with _ | e1
  · obtain ⟨rfl, rfl⟩ := Prod.mk.inj h
    rw [E1.since]
    exact ⟨_, List.mem_singleton.mpr rfl, rfl⟩
  · simp only [] at h
    by_cases hfatal : e1 ≠ Errno.ENOENT
    · rw [if_pos hfatal] at h
      obtain ⟨rfl, rfl⟩ := Prod.mk.inj h
      exact absurd rfl (hl _ rfl).1
    · rw [if_neg hfatal] at h
      rcases h2 : osOpenFileCreate env outputPath w1 with ⟨r2, w2⟩
      have E2 := osOpenFileCreate_evolves h2 (P := fun _ => False) (I := fun _ => False)
        (fun _ hp => hp.elim) (fun _ hi => hi.elim)
      rw [h2] at h
      rcases r2 with e2 | outputFile
      · obtain ⟨rfl, rfl⟩ := Prod.mk.inj h
        exact absurd rfl (hl _ rfl).2
      · simp only [] at h
        rcases hb : cloneOrCopy env "failed to clone file"
          "failed to copy into public decrypted file" outputFile f w2 with ⟨b, wb⟩
        obtain ⟨evb, Eb, -⟩ := cloneOrCopy_spec hb (fun _ => False) (I := fun _ => False)
          (fun _ hi => hi.elim)
        unfold cloneOrCopy at hb
        rw [hb] at h
        rcases h3 : fileClose env outputFile wb with ⟨r3, w3⟩
        have E3 := fileClose_evolves h3 (fun _ => False) (fun _ => False)
        rw [h3] at h
        have key : w' = w3 := by
          rcases r3 with _ | e3
          · obtain ⟨-, rfl⟩ := Prod.mk.inj h
            rfl
          · obtain ⟨-, rfl⟩ := Prod.mk.inj h
            rfl
        subst key
        rw [(E1.trans (E2.trans (Eb.trans E3))).since]
        exact ⟨⟨.openCreate outputPath, none⟩, by simp [errOf], rfl⟩

/-! ## `encryptFile` and `decryptFile` are instances of `pipeline` -/

theorem decryptFile_transform_eq (env : Env) (outputPath : Path) (pubKey privKey : Key)
    (srcFile : File) (srcData : View) (dstFile : File) (dstData : View) (w : World) :
    decryptFile.transform env outputPath pubKey privKey srcFile srcData dstFile dstData w =
      pipeline.transform (decryptConfig pubKey privKey) env outputPath
        srcFile srcData dstFile dstData w := by
  unfold decryptFile.transform pipeline.transform
  simp only [decryptConfig]
  rcases boxOpenAnonymous env dstData srcData pubKey privKey w with ⟨b, w1⟩
  cases b <;> rfl

theorem decryptFile_allocate_eq (env : Env) (outputPath : Path) (pubKey privKey : Key)
    (srcFile : File) (srcData : View) (w : World) :
    decryptFile.allocate env outputPath pubKey privKey srcFile srcData w =
      pipeline.allocate (decryptConfig pubKey privKey) env outputPath srcFile srcData w := by
  unfold decryptFile.allocate pipeline.allocate
  simp only [decryptFile_transform_eq]
  rfl

theorem decryptFile_eq (env : Env) (inputPath outputPath : Path) (pubKey privKey : Key)
    (w : World) :
    decryptFile env inputPath outputPath pubKey privKey w =
      pipeline (decryptConfig pubKey privKey) env inputPath outputPath w := by
  unfold decryptFile pipeline
  simp only [decryptFile_allocate_eq]
  rfl

theorem encryptFile_transform_eq (env : Env) (outputPath : Path) (pubKey : Key)
    (cryptoReader : Bytes)
    (srcFile : File) (srcData : View) (dstFile : File) (dstData : View) (w : World) :
    encryptFile.transform env outputPath pubKey cryptoReader srcFile srcData dstFile dstData w =
      pipeline.transform (encryptConfig pubKey cryptoReader) env outputPath
        srcFile srcData dstFile dstData w := by
  unfold encryptFile.transform pipeline.transform
  simp only [encryptConfig]
  rcases boxSealAnonymous env dstData srcData pubKey cryptoReader w with ⟨b, w1⟩
  cases b <;> rfl

theorem encryptFile_allocate_eq (env : Env) (outputPath : Path) (pubKey : Key)
    (cryptoReader : Bytes) (srcFile : File) (srcData : View) (w : World) :
    encryptFile.allocate env outputPath pubKey cryptoReader srcFile srcData w =
      pipeline.allocate (encryptConfig pubKey cryptoReader) env outputPath
        srcFile srcData w := by
  unfold encryptFile.allocate pipeline.allocate
  simp only [encryptFile_transform_eq]
  rfl

theorem encryptFile_eq (env : Env) (inputPath outputPath : Path) (pubKey : Key)
    (cryptoReader : Bytes) (w : World) :
    encryptFile env inputPath outputPath pubKey cryptoReader w =
      pipeline (encryptConfig pubKey cryptoReader) env inputPath outputPath w := by
  unfold encryptFile pipeline
  simp only [encryptFile_allocate_eq]
  rfl

theorem decryptConfig_sound (pubKey privKey : Key) : (decryptConfig pubKey privKey).Sound := by
  constructor
  · intro env d s w w' r h
    simp only [decryptConfig] at h
    rcases hb : boxOpenAnonymous env d s pubKey privKey w with ⟨b, w1⟩
    obtain ⟨S, F, M, -⟩ := boxOpenAnonymous_ids hb
    have E := fun P I hI => boxOpenAnonymous_evolves hb P (I := I) hI
    rw [hb] at h
    cases b
    · obtain ⟨rfl, rfl⟩ := Prod.mk.inj h
      exact ⟨some .EINVAL, by simp [decryptConfig], S, F, M,
        fun P I hI => by simpa [decryptConfig] using E P I hI⟩
    · obtain ⟨rfl, rfl⟩ := Prod.mk.inj h
      exact ⟨none, by simp, S, F, M, fun P I hI => by simpa [decryptConfig] using E P I hI⟩
  · intro a b
    simp [decryptConfig, Op.kind]

theorem encryptConfig_sound (pubKey : Key) (cryptoReader : Bytes) :
    (encryptConfig pubKey cryptoReader).Sound := by
  constructor
  · intro env d s w w' r h
    simp only [encryptConfig] at h
    rcases hb : boxSealAnonymous env d s pubKey cryptoReader w with ⟨b, w1⟩
    obtain ⟨S, F, M, -⟩ := boxSealAnonymous_ids hb
    have E := fun P I hI => boxSealAnonymous_evolves hb P (I := I) hI
    rw [hb] at h
    rcases b with _ | e
    · obtain ⟨rfl, rfl⟩ := Prod.mk.inj h
      exact ⟨none, by simp, S, F, M, fun P I hI => by simpa [encryptConfig] using E P I hI⟩
    · obtain ⟨rfl, rfl⟩ := Prod.mk.inj h
      exact ⟨some e, by simp [encryptConfig], S, F, M,
        fun P I hI => by simpa [encryptConfig] using E P I hI⟩
  · intro a b
    simp [encryptConfig, Op.kind]

/-! ## Every run has one of the shapes -/

theorem deferClose_spec {env : Env} {msg : String} {f : File} {l l' : List Err} {w w' : World}
    (h : deferClose env msg f (l, w) = (l', w')) :
    ∃ r, l' = l ++ relErr msg r ∧ fileClose env f w = (r, w') := by
  unfold deferClose at h
  rcases hc : fileClose env f w with ⟨r, w1⟩
  rw [hc] at h
  rcases r with _ | e
  · obtain ⟨rfl, rfl⟩ := Prod.mk.inj h
    exact ⟨none, by simp [relErr], rfl⟩
  · obtain ⟨rfl, rfl⟩ := Prod.mk.inj h
    exact ⟨some e, by simp [relErr], rfl⟩

theorem deferMunmap_spec {env : Env} {msg : String} {v : View} {l l' : List Err} {w w' : World}
    (h : deferMunmap env msg v (l, w) = (l', w')) :
    ∃ r, l' = l ++ relErr msg r ∧ syscallMunmap env v w = (r, w') := by
  unfold deferMunmap at h
  rcases hc : syscallMunmap env v w with ⟨r, w1⟩
  rw [hc] at h
  rcases r with _ | e
  · obtain ⟨rfl, rfl⟩ := Prod.mk.inj h
    exact ⟨none, by simp [relErr], rfl⟩
  · obtain ⟨rfl, rfl⟩ := Prod.mk.inj h
    exact ⟨some e, by simp [relErr], rfl⟩

theorem Framed.of_quiet {outputPath : Path} {n : Nat} {w w' : World} {evs : List Ev}
    (h : Evolves (fun _ => True) (fun i => i < n) w w' evs) : Framed outputPath n w w' evs :=
  ⟨h.mono (fun _ _ => trivial) (fun _ hi => hi.1), fun _ => h⟩

theorem Framed.after {outputPath : Path} {n : Nat} {w w1 w2 : World} {e1 e2 : List Ev}
    (h1 : Evolves (fun _ => True) (fun i => i < n) w w1 e1)
    (h2 : Framed outputPath n w1 w2 e2) : Framed outputPath n w w2 (e1 ++ e2) := by
  have hn : w1.names outputPath = w.names outputPath := h1.names _ trivial
  refine ⟨(h1.mono (fun _ _ => trivial) (fun _ hi => hi.1)).trans
    (h2.1.mono (fun _ hp => hp) (fun i hi => ⟨hi.1, by rw [hn]; exact hi.2⟩)), ?_⟩
  intro hq
  exact h1.trans (h2.2 (fun e he => hq e (by simp [he])))

theorem Framed.before {outputPath : Path} {n : Nat} {w w1 w2 : World} {e1 e2 : List Ev}
    (h1 : Framed outputPath n w w1 e1)
    (h2 : Evolves (fun _ => True) (fun _ => True) w1 w2 e2) :
    Framed outputPath n w w2 (e1 ++ e2) := by
  refine ⟨h1.1.trans (h2.mono (fun _ _ => trivial) (fun _ _ => trivial)), ?_⟩
  intro hq
  exact (h1.2 (fun e he => hq e (by simp [he]))).trans
    (h2.mono (fun _ _ => trivial) (fun _ _ => trivial))

theorem transform_run {cfg : Config} (hs : cfg.Sound) {env : Env} {outputPath : Path}
    {sf : File} {sv : View} {df : File} {dv : View} {w w' : World} {x : Exit}
    (h : pipeline.transform cfg env outputPath sf sv df dv w = (x, w'))
    {n : Nat} (hn : n ≤ w.nextIno) (hdv : n ≤ dv.ino)
    (hsf : sf.fd < w.nextFd) (hdf : df.fd < w.nextFd) :
    ∃ tl, TailShape cfg outputPath sf sv df dv x tl ∧ Framed outputPath n w w' tl := by
  unfold pipeline.transform at h
  have hI : ∀ i, i < n → i ≠ dv.ino := fun i hi => by omega
  rcases h1 : cfg.transform env dv sv w with ⟨r1, w1⟩
  obtain ⟨e1, hr1, S1, -, -, E1⟩ := hs.transform h1
  have Q1 := E1 (fun _ => True) (fun i => i < n) hI
  rw [h1] at h
  rcases e1 with _ | e1
  swap
  · subst hr1
    obtain ⟨rfl, rfl⟩ := Prod.mk.inj h
    exact ⟨_, .transform e1, Framed.of_quiet Q1⟩
  subst hr1
  simp only [Option.map_none'] at h
  rcases h2 : unixMsync env dv w1 with ⟨r2, w2⟩
  have Q2 := Q1.trans (unixMsync_evolves h2 (fun _ => True) (fun i => i < n))
  obtain ⟨S2, -, -, -⟩ := unixMsync_ids h2
  rw [h2] at h
  rcases r2 with _ | e2
  swap
  · obtain ⟨rfl, rfl⟩ := Prod.mk.inj h
    exact ⟨_, .flush e2, Framed.of_quiet Q2⟩
  simp only [] at h
  rcases h3 : syscallMunmap env sv w2 with ⟨r3, w3⟩
  have Q3 := Q2.trans (syscallMunmap_evolves h3 (fun _ => True) (fun i => i < n))
  obtain ⟨S3, -, -, -⟩ := syscallMunmap_ids h3
  rw [h3] at h
  rcases r3 with _ | e3
  swap
  · obtain ⟨rfl, rfl⟩ := Prod.mk.inj h
    exact ⟨_, .earlyUnmap e3, Framed.of_quiet Q3⟩
  simp only [] at h
  rcases h4 : fileClose env sf w3 with ⟨r4, w4⟩
  have Q4 := Q3.trans (fileClose_evolves h4 (fun _ => True) (fun i => i < n))
  obtain ⟨S4, -, -, -⟩ := fileClose_ids h4
  rw [h4] at h
  rcases r4 with _ | e4
  swap
  · obtain ⟨rfl, rfl⟩ := Prod.mk.inj h
    exact ⟨_, .earlyClose e4, Framed.of_quiet Q4⟩
  simp only [] at h
  rcases h5 : PublishFile env df outputPath w4 with ⟨errs, w5⟩
  have hfd4 : w4.nextFd = w.nextFd := by
    rw [S4.nextFd, S3.nextFd, S2.nextFd, S1.nextFd]
  have hino4 : w4.nextIno = w.nextIno := by
    rw [S4.nextIno, S3.nextIno, S2.nextIno, S1.nextIno]
  obtain ⟨r, rest, E5, K5, C5, -, -, -, q5⟩ := PublishFile_spec h5
    (P := fun p => p ≠ outputPath) (I := fun i => i < n ∧ w4.names outputPath ≠ some i)
    (fun _ hp => hp) (fun i hi => ⟨by have := hi.1; omega, hi.2⟩)
  have F5 : Framed outputPath n w4 w5 (⟨.linkat df.fd outputPath, r⟩ :: rest) := by
    refine ⟨E5, fun hq => ?_⟩
    obtain ⟨hnm, hdt⟩ := q5 hq
    exact ⟨E5.trace, fun p _ => by rw [hnm], fun i _ => by rw [hdt], E5.nextIno, E5.nextFd,
      E5.nextMap⟩
  have F := Framed.after Q4 F5
  have hk : PubRest sf df rest := by
    intro e he
    rcases K5 e he with hk | hk | hk | hk
    · exact ⟨by simp [hk], by intro hc; simp [hc, Op.kind] at hk,
        by intro hc; simp [hc, Op.kind] at hk⟩
    · exact ⟨by simp [hk], by intro hc; simp [hc, Op.kind] at hk,
        by intro hc; simp [hc, Op.kind] at hk⟩
    · exact ⟨by simp [hk], by intro hc; simp [hc, Op.kind] at hk,
        by intro hc; simp [hc, Op.kind] at hk⟩
    · refine ⟨by simp [hk, Op.kind], ?_, ?_⟩
      · rw [hk, hfd4]
        intro hc
        injection hc with hc
        omega
      · rw [hk, hfd4]
        intro hc
        injection hc with hc
        omega
  rw [h5] at h
  simp only [] at h
  by_cases hne : errs = []
  · rw [if_neg (by simp [hne])] at h
    obtain ⟨rfl, rfl⟩ := Prod.mk.inj h
    refine ⟨_, .done r rest hk (C5.mp hne) ?_, by simpa using F⟩
    have := PublishFile_late h5 (fun x hx => by simp [hne] at hx)
    rwa [E5.since] at this
  · rw [if_pos hne] at h
    obtain ⟨rfl, rfl⟩ := Prod.mk.inj h
    refine ⟨_, .publish r rest errs hne hk (fun hc => hne (C5.mpr hc)) ?_ ?_, by simpa using F⟩
    · intro x hx hm
      have := PublishFile_early h5 hx hm
      rwa [E5.since] at this
    · intro hl
      have := PublishFile_late h5 hl
      rwa [E5.since] at this

theorem allocate_run {cfg : Config} (hs : cfg.Sound) {env : Env} {outputPath : Path}
    {sf : File} {sv : View} {w w' : World} {x : Exit}
    (h : pipeline.allocate cfg env outputPath sf sv w = (x, w'))
    {n : Nat} (hn : n ≤ w.nextIno) (hsf : sf.fd < w.nextFd) :
    ∃ evs, AllocShape cfg outputPath sf sv w.nextFd w.nextMap x evs ∧
      Framed outputPath n w w' evs := by
  unfold pipeline.allocate at h
  rcases h1 : CreatePrivateFile env (env.dir outputPath) (cfg.size sv.len) w with ⟨r1, w1⟩
  obtain ⟨al, Q1, K1, C1, hmap1, -, -, -, ok1⟩ := CreatePrivateFile_spec h1
    (fun _ => True) (I := fun i => i < n) (fun i hi => by omega)
  rw [h1] at h
  rcases r1 with c | df
  · obtain ⟨rfl, rfl⟩ := Prod.mk.inj h
    refine ⟨al, .alloc al c ?_ ?_ ?_, Framed.of_quiet Q1⟩
    · intro e he
      rcases K1 e he with hk | hk | hk
      · exact Or.inl hk
      · exact Or.inr (Or.inl hk)
      · exact Or.inr (Or.inr (by rw [hk]; rfl))
    · intro hc
      have := C1.mpr hc
      simp [errOf] at this
    · intro e he fd hfd
      rcases K1 e he with hk | hk | hk
      · simp [hfd, Op.kind] at hk
      · simp [hfd, Op.kind] at hk
      · rw [hfd] at hk
        injection hk with hk
        omega
  obtain ⟨hdf, hpos, hfd1, hino1, -, -, hnc⟩ := ok1 df rfl
  have hcl1 : ∀ e ∈ al, e.clean = true := C1.mp rfl
  have K1' : ∀ e ∈ al, e.op.kind = .openTmp ∨ e.op.kind = .fallocate := by
    intro e he
    rcases K1 e he with hk | hk | hk
    · exact Or.inl hk
    · exact Or.inr hk
    · exact absurd (by rw [hk]; rfl) (hnc e he)
  simp only [] at h
  rcases h2 : GetDataFromFile env df w1 with ⟨r2, w2⟩
  obtain ⟨g2, Q2, K2, C2, hfd2, hino2, -, ok2⟩ := GetDataFromFile_spec h2
    (fun _ => True) (fun i => i < n)
  rw [h2] at h
  have Q12 := Q1.trans Q2
  have K12 : ∀ e ∈ al ++ g2, e.op.kind = .openTmp ∨ e.op.kind = .fallocate ∨
      e.op.kind = .fstat ∨ e.op.kind = .mmap := by
    intro e he
    rcases List.mem_append.mp he with he | he
    · rcases K1' e he with hk | hk
      · exact Or.inl hk
      · exact Or.inr (Or.inl hk)
    · rcases K2 e he with hk | hk
      · exact Or.inr (Or.inr (Or.inl hk))
      · exact Or.inr (Or.inr (Or.inr hk))
  have hst2 : ∃ r, (⟨.fstat df.fd, r⟩ : Ev) ∈ al ++ g2 := by
    obtain ⟨r0, hr0⟩ := (GetDataFromFile_fstat h2).1
    rw [Q2.since] at hr0
    exact ⟨r0, List.mem_append_right _ hr0⟩
  have hso2 : ∀ e ∈ al ++ g2, ∀ fd, e.op = .fstat fd → fd = df.fd := by
    intro e he fd hfd
    rcases List.mem_append.mp he with he | he
    · rcases K1' e he with hk | hk <;> simp [hfd, Op.kind] at hk
    · have := (GetDataFromFile_fstat h2).2
      rw [Q2.since] at this
      exact this e he fd hfd
  rcases r2 with e2 | dv
  · simp only [] at h
    rcases hd : deferClose env cfg.mCloseDst df
      ([Err.wrap cfg.mMapDst (Cause.sys e2)], w2) with ⟨l, w3⟩
    obtain ⟨r0, rfl, hc0⟩ := deferClose_spec hd
    have Q3 := Q12.trans (fileClose_evolves hc0 (fun _ => True) (fun i => i < n))
    rw [hd] at h
    obtain ⟨rfl, rfl⟩ := Prod.mk.inj h
    refine ⟨_, .mapDst (al ++ g2) df e2 r0 K12 ?_ hpos (by rw [hdf]) hst2 hso2,
      Framed.of_quiet Q3⟩
    intro hc
    have := C2.mpr (fun e he => hc e (by simp [he]))
    simp [errOf] at this
  obtain ⟨hdv, -, -, -⟩ := ok2 dv rfl
  have hcl2 : ∀ e ∈ g2, e.clean = true := C2.mp rfl
  simp only [] at h
  rcases hT : pipeline.transform cfg env outputPath sf sv df dv w2 with ⟨xt, wt⟩
  obtain ⟨tl, ht, Ft⟩ := transform_run hs hT (n := n)
    (by rw [hino2, hino1]; omega) (by rw [hdv, hdf]; simpa using hn)
    (by rw [hfd2, hfd1]; omega) (by rw [hfd2, hfd1, hdf]; simp)
  rw [hT] at h
  simp only [] at h
  rcases hm : deferMunmap env cfg.mUnmapDst dv (xt.errStack, wt) with ⟨l1, wm⟩
  obtain ⟨r0, rfl, hm0⟩ := deferMunmap_spec hm
  rw [hm] at h
  simp only [] at h
  rcases hd : deferClose env cfg.mCloseDst df
    (xt.errStack ++ relErr cfg.mUnmapDst r0, wm) with ⟨l2, wd⟩
  obtain ⟨r1, rfl, hd0⟩ := deferClose_spec hd
  rw [hd] at h
  obtain ⟨rfl, rfl⟩ := Prod.mk.inj h
  have Frel := (syscallMunmap_evolves hm0 (fun _ => True) (fun _ => True)).trans
    (fileClose_evolves hd0 (fun _ => True) (fun _ => True))
  have F := Framed.before (Framed.after Q12 Ft) Frel
  refine ⟨_, .tail (al ++ g2) df dv xt tl r0 r1 ht K12 ?_ (by rw [hdf])
    (by rw [hdv, hmap1]) hpos hst2 hso2, by simpa using F⟩
  intro e he
  rcases List.mem_append.mp he with he | he
  · exact hcl1 e he
  · exact hcl2 e he

theorem pipeline_shape {cfg : Config} (hs : cfg.Sound) {env : Env} {inputPath outputPath : Path}
    {w w' : World} {errs : List Err}
    (h : pipeline cfg env inputPath outputPath w = (errs, w')) :
    ∃ T, Shape cfg inputPath outputPath w errs T ∧ Framed outputPath w.nextIno w w' T := by
  unfold pipeline at h
  rcases h1 : CreatePrivateCopyOf env inputPath (env.dir inputPath) w with ⟨⟨file, es⟩, w1⟩
  obtain ⟨stg, Q1, K1, C1, -, -, ok1⟩ := CreatePrivateCopyOf_spec h1
    (fun _ => True) (I := fun i => i < w.nextIno) (fun i hi => by omega)
  rw [h1] at h
  have K1' : ∀ e ∈ stg, e.op.kind = .openRead ∨ e.op.kind = .openTmp ∨ e.op.kind = .clone ∨
      e.op.kind = .copy ∨ e.op.kind = .close := by
    intro e he
    rcases K1 e he with hk | hk | hk | hk | hk | ⟨hk, -⟩
    · exact Or.inl hk
    · exact Or.inr (Or.inl hk)
    · exact Or.inr (Or.inr (Or.inl hk))
    · exact Or.inr (Or.inr (Or.inr (Or.inl hk)))
    · exact Or.inr (Or.inr (Or.inr (Or.inr (by rw [hk]; rfl))))
    · exact Or.inr (Or.inr (Or.inr (Or.inr (by rw [hk]; rfl))))
  rcases es with _ | ⟨e0, es⟩
  swap
  · simp only [] at h
    obtain ⟨rfl, rfl⟩ := Prod.mk.inj h
    refine ⟨stg, .stage stg (e0 :: es) (by simp) K1' ?_, Framed.of_quiet Q1⟩
    intro hc
    have := C1.mpr hc
    simp at this
  obtain ⟨i, hname, hfile, hfd1, hino1, -, hdata1⟩ := ok1 rfl
  subst hfile
  simp only [] at h
  have hcl1 : ∀ e ∈ stg, e.clean = true := C1.mp rfl
  have hlo1 : ∀ e ∈ stg, ∀ fd, e.op = .close fd → fd < w.nextFd + 1 := by
    intro e he fd hfd
    rcases K1 e he with hk | hk | hk | hk | hk | ⟨-, hk⟩
    · simp [hfd, Op.kind] at hk
    · simp [hfd, Op.kind] at hk
    · simp [hfd, Op.kind] at hk
    · simp [hfd, Op.kind] at hk
    · rw [hfd] at hk
      injection hk with hk
      omega
    · exact absurd rfl hk
  rcases h2 : GetDataFromFile env ⟨w.nextFd + 1, w.nextIno⟩ w1 with ⟨r2, w2⟩
  obtain ⟨g1, Q2, K2, C2, hfd2, hino2, -, ok2⟩ := GetDataFromFile_spec h2
    (fun _ => True) (fun i => i < w.nextIno)
  rw [h2] at h
  have Q12 := Q1.trans Q2
  have K12 : ∀ e ∈ stg ++ g1, e.op.kind = .openRead ∨ e.op.kind = .openTmp ∨
      e.op.kind = .clone ∨ e.op.kind = .copy ∨ e.op.kind = .close ∨ e.op.kind = .fstat ∨
      e.op.kind = .mmap := by
    intro e he
    rcases List.mem_append.mp he with he | he
    · rcases K1' e he with hk | hk | hk | hk | hk <;> simp [hk]
    · rcases K2 e he with hk | hk <;> simp [hk]
  have hlo12 : ∀ e ∈ stg ++ g1, ∀ fd, e.op = .close fd →
      fd < (⟨w.nextFd + 1, w.nextIno⟩ : File).fd := by
    intro e he fd hfd
    rcases List.mem_append.mp he with he | he
    · exact hlo1 e he fd hfd
    · rcases K2 e he with hk | hk <;> simp [hfd, Op.kind] at hk
  have hst12 : ∃ r, (⟨.fstat (⟨w.nextFd + 1, w.nextIno⟩ : File).fd, r⟩ : Ev) ∈ stg ++ g1 := by
    obtain ⟨r0, hr0⟩ := (GetDataFromFile_fstat h2).1
    rw [Q2.since] at hr0
    exact ⟨r0, List.mem_append_right _ hr0⟩
  have hso12 : ∀ e ∈ stg ++ g1, ∀ fd, e.op = .fstat fd →
      fd = (⟨w.nextFd + 1, w.nextIno⟩ : File).fd := by
    intro e he fd hfd
    rcases List.mem_append.mp he with he | he
    · rcases K1' e he with hk | hk | hk | hk | hk <;> simp [hfd, Op.kind] at hk
    · have := (GetDataFromFile_fstat h2).2
      rw [Q2.since] at this
      exact this e he fd hfd
  rcases r2 with e2 | sv
  · simp only [Bool.false_eq_true, if_false] at h
    rcases hd : deferClose env cfg.mCloseSrc ⟨w.nextFd + 1, w.nextIno⟩
      ([Err.wrap cfg.mMapSrc (Cause.sys e2)], w2) with ⟨l, w3⟩
    obtain ⟨r0, rfl, hc0⟩ := deferClose_spec hd
    have Q3 := Q12.trans (fileClose_evolves hc0 (fun _ => True) (fun i => i < w.nextIno))
    rw [hd] at h
    obtain ⟨rfl, rfl⟩ := Prod.mk.inj h
    refine ⟨_, .mapSrc (stg ++ g1) ⟨w.nextFd + 1, w.nextIno⟩ e2 r0 K12 ?_ hlo12 hst12 hso12,
      Framed.of_quiet Q3⟩
    intro hc
    have := C2.mpr (fun e he => hc e (by simp [he]))
    simp [errOf] at this
  obtain ⟨hsv, -, hmap2, -⟩ := ok2 sv rfl
  have hsvid : sv.id < w2.nextMap := by rw [hmap2, hsv]; simp
  have hcl2 : ∀ e ∈ g1, e.clean = true := C2.mp rfl
  have hcl12 : ∀ e ∈ stg ++ g1, e.clean = true := by
    intro e he
    rcases List.mem_append.mp he with he | he
    · exact hcl1 e he
    · exact hcl2 e he
  have hlen : ∃ i, w.names inputPath = some i ∧
      (i < w.nextIno → sv.len = (w.data i).length) := by
    refine ⟨i, hname, fun hi => ?_⟩
    rw [hsv]
    simp only []
    rw [hdata1 (by omega)]
  simp only [] at h
  rcases hA : pipeline.allocate cfg env outputPath ⟨w.nextFd + 1, w.nextIno⟩ sv w2
    with ⟨x, wA⟩
  obtain ⟨evs, ha, Fa⟩ := allocate_run hs hA (n := w.nextIno)
    (by rw [hino2, hino1]; omega) (by rw [hfd2, hfd1]; simp)
  have hsf : (⟨w.nextFd + 1, w.nextIno⟩ : File).fd < w2.nextFd := by
    rw [hfd2, hfd1]; simp
  rw [hA] at h
  have F12 := Framed.after Q12 Fa
  rcases x with ⟨l, freed, closed⟩
  simp only [] at h ha
  rcases hm : deferMunmap env cfg.mUnmapSrc sv (l, wA) with ⟨l1, wm⟩
  obtain ⟨r2, rfl, hm0⟩ := deferMunmap_spec hm
  have Em := syscallMunmap_evolves hm0 (fun _ => True) (fun _ => True)
  rw [hm] at h
  cases freed <;> cases closed <;> simp only [Bool.false_eq_true, if_false, if_true] at h
  · rcases hd : deferClose env cfg.mCloseSrc ⟨w.nextFd + 1, w.nextIno⟩
      (l ++ relErr cfg.mUnmapSrc r2, wm) with ⟨l2, wd⟩
    obtain ⟨r3, rfl, hd0⟩ := deferClose_spec hd
    have Ed := fileClose_evolves hd0 (fun _ => True) (fun _ => True)
    rw [hd] at h
    obtain ⟨rfl, rfl⟩ := Prod.mk.inj h
    exact ⟨_, by simpa using Shape.staged (stg ++ g1) _ sv _ _ _ evs r2 r3 ha K12 hcl12 hlo12 hsf hsvid hlen hst12 hso12,
      by simpa using Framed.before F12 (Em.trans Ed)⟩
  · obtain ⟨rfl, rfl⟩ := Prod.mk.inj h
    exact ⟨_, by simpa using Shape.staged (stg ++ g1) _ sv _ _ _ evs r2 none ha K12 hcl12 hlo12 hsf hsvid hlen hst12 hso12,
      by simpa using Framed.before F12 Em⟩
  · rcases hd : deferClose env cfg.mCloseSrc ⟨w.nextFd + 1, w.nextIno⟩ (l, wA) with ⟨l2, wd⟩
    obtain ⟨r3, rfl, hd0⟩ := deferClose_spec hd
    have Ed := fileClose_evolves hd0 (fun _ => True) (fun _ => True)
    rw [hd] at h
    obtain ⟨rfl, rfl⟩ := Prod.mk.inj h
    exact ⟨_, by simpa using Shape.staged (stg ++ g1) _ sv _ _ _ evs none r3 ha K12 hcl12 hlo12 hsf hsvid hlen hst12 hso12,
      by simpa using Framed.before F12 Ed⟩
  · obtain ⟨rfl, rfl⟩ := Prod.mk.inj h
    exact ⟨_, by simpa using Shape.staged (stg ++ g1) _ sv _ _ _ evs none none ha K12 hcl12 hlo12 hsf hsvid hlen hst12 hso12,
      by simpa using F12⟩

theorem pipeline_run {cfg : Config} (hs : cfg.Sound) (env : Env) (inputPath outputPath : Path)
    (w : World) :
    Shape cfg inputPath outputPath w (pipeline cfg env inputPath outputPath w).1
        (w.since (pipeline cfg env inputPath outputPath w).2) ∧
      Framed outputPath w.nextIno w (pipeline cfg env inputPath outputPath w).2
        (w.since (pipeline cfg env inputPath outputPath w).2) := by
  obtain ⟨T, hS, hF⟩ := pipeline_shape hs
    (Prod.mk.eta (p := pipeline cfg env inputPath outputPath w)).symm
  rw [hF.1.since]
  exact ⟨hS, hF⟩

/-! ## The fixtures are well formed -/

theorem oneFile_WF (path : Path) (content : Bytes) : (oneFile path content).WF := by
  intro p i h
  simp only [oneFile] at h ⊢
  split at h
  · cases h
    decide
  · cases h

theorem twoFiles_WF (path : Path) (content : Bytes) (path2 : Path) (content2 : Bytes) :
    (twoFiles path content path2 content2).WF := by
  intro p i h
  simp only [twoFiles] at h ⊢
  split at h
  · cases h
    decide
  · split at h
    · cases h
      decide
    · cases h

/-! ## The frame of a run (C5) -/

theorem visible_of_quiet {w w' : World} {T : List Ev} (hw : w.WF)
    (E : Evolves (fun _ => True) (fun i => i < w.nextIno) w w' T) (p : Path) :
    w'.visible p = w.visible p := by
  unfold World.visible
  rw [E.names p trivial]
  rcases hn : w.names p with _ | i
  · rfl
  · simp only [Option.map_some']
    rw [E.data i (hw p i hn)]

theorem pipeline_source_unchanged {cfg : Config} (hs : cfg.Sound) (env : Env)
    (inputPath outputPath : Path) (w : World) (i : Nat)
    (hin : w.names inputPath = some i) (hw : w.WF) (hne : inputPath ≠ outputPath)
    (hal : w.names outputPath ≠ some i) :
    (pipeline cfg env inputPath outputPath w).2.visible inputPath = w.visible inputPath := by
  obtain ⟨-, F, -⟩ := pipeline_run hs env inputPath outputPath w
  unfold World.visible
  rw [F.names inputPath hne, hin]
  simp only [Option.map_some']
  rw [F.data i ⟨hw _ _ hin, hal⟩]

theorem pipeline_unpublished {cfg : Config} (hs : cfg.Sound) (env : Env)
    (inputPath outputPath : Path) (w : World) (hw : w.WF)
    (hq : ∀ e ∈ w.since (pipeline cfg env inputPath outputPath w).2, e.published = false)
    (p : Path) :
    (pipeline cfg env inputPath outputPath w).2.visible p = w.visible p := by
  obtain ⟨-, -, F⟩ := pipeline_run hs env inputPath outputPath w
  exact visible_of_quiet hw (F hq) p

/-- C5 (amended): when `outputPath` does not name the source file (it is
another path, and not another name of the same inode), then for every outcome
of the system calls the file at `inputPath` has the same content, hence the
same length, after `EncryptFile` and after `DecryptFile` as before the call. -/
theorem source_unchanged_when_output_is_another_file (env : Env)
    (inputPath outputPath : Path) (pubKey privKey : Key) (w : World) (i : Nat)
    (hin : w.names inputPath = some i) (hw : w.WF) (hne : inputPath ≠ outputPath)
    (hal : w.names outputPath ≠ some i) :
    (EncryptFile env inputPath outputPath pubKey w).2.visible inputPath = w.visible inputPath ∧
    (DecryptFile env inputPath outputPath pubKey privKey w).2.visible inputPath =
      w.visible inputPath := by
  constructor
  · unfold EncryptFile
    rw [encryptFile_eq]
    exact pipeline_source_unchanged (encryptConfig_sound _ _) env _ _ w i hin hw hne hal
  · unfold DecryptFile
    rw [decryptFile_eq]
    exact pipeline_source_unchanged (decryptConfig_sound _ _) env _ _ w i hin hw hne hal

theorem source_unchanged_when_output_is_another_file_witness :
    (oneFile "clear" geronimo).names "clear" = some 0 ∧
    (EncryptFile noFastPath "clear" "encrypted" testKey (oneFile "clear" geronimo)).2.visible
        "clear" = (oneFile "clear" geronimo).visible "clear" ∧
    (DecryptFile noFastPath "clear" "encrypted" testKey testKey
        (oneFile "clear" geronimo)).2.visible "clear" =
      (oneFile "clear" geronimo).visible "clear" :=
  ⟨by decide, source_unchanged_when_output_is_another_file noFastPath "clear" "encrypted"
    testKey testKey (oneFile "clear" geronimo) 0 (by decide) (oneFile_WF _ _) (by decide)
    (by decide)⟩

/-- C5, as stated, fails: with `outputPath` equal to `inputPath` and the
fallback of `PublishFile` (no `linkat`, no clone), `EncryptFile` succeeds and
the file at `inputPath`, which held the nine bytes of the plaintext, now holds
the 57 bytes of the sealed box. -/
theorem source_overwritten_when_output_is_input :
    (EncryptFile noFastPath "clear" "clear" testKey (oneFile "clear" geronimo)).1 = [] ∧
    (oneFile "clear" geronimo).visible "clear" = some geronimo ∧
    (EncryptFile noFastPath "clear" "clear" testKey (oneFile "clear" geronimo)).2.visible
        "clear" = some (List.replicate 48 0 ++ geronimo) := by
  decide

/-! ## Undersized input (C4) -/

theorem published_eq_false {e : Ev} (h1 : e.op.kind ≠ .linkat) (h2 : e.op.kind ≠ .openCreate) :
    e.published = false := by
  rcases e with ⟨op, err⟩
  cases op <;> simp [Ev.published, Op.kind] at h1 h2 ⊢

theorem shape_undersized {cfg : Config} {inputPath outputPath : Path} {w : World}
    {errs : List Err} {T : List Ev} (hS : Shape cfg inputPath outputPath w errs T)
    (hw : w.WF)
    (hshort : ∀ i, w.names inputPath = some i → cfg.size (w.data i).length ≤ 0) :
    errs ≠ [] ∧ ∀ e ∈ T, e.published = false := by
  have rel : ∀ (e : Ev), e.op.kind = .munmap ∨ e.op.kind = .close → e.published = false :=
    fun e h => published_eq_false (by rcases h with h | h <;> simp [h])
      (by rcases h with h | h <;> simp [h])
  cases hS with
  | stage stg es hes hk hc =>
    refine ⟨by simp, fun e he => ?_⟩
    rcases hk e he with h | h | h | h | h <;> exact published_eq_false (by simp [h]) (by simp [h])
  | mapSrc pre sf e r hk hc =>
    refine ⟨by simp, fun ev he => ?_⟩
    rcases List.mem_append.mp he with he | he
    · rcases hk ev he with h | h | h | h | h | h | h <;>
        exact published_eq_false (by simp [h]) (by simp [h])
    · rw [List.mem_singleton.mp he]
      exact rel _ (Or.inr rfl)
  | staged pre sf sv lo lom x evs r2 r3 ha hk hc hlo hsf hsv hlen =>
    obtain ⟨i, hname, hl⟩ := hlen
    have hsz : cfg.size sv.len ≤ 0 := by
      rw [hl (hw _ _ hname)]
      exact hshort i hname
    cases ha with
    | alloc al c hka hca =>
      refine ⟨by simp, fun ev he => ?_⟩
      simp only [Bool.false_eq_true, if_false, List.mem_append, List.mem_singleton] at he
      rcases he with ((he | he) | he) | he
      · rcases hk ev he with h | h | h | h | h | h | h <;>
          exact published_eq_false (by simp [h]) (by simp [h])
      · rcases hka ev he with h | h | h <;>
          exact published_eq_false (by simp [h]) (by simp [h])
      · rw [he]
        exact rel _ (Or.inl rfl)
      · rw [he]
        exact rel _ (Or.inr rfl)
    | mapDst pre2 df e r0 hk2 hc2 hsize => omega
    | tail pre2 df dv x tl r0 r1 ht hk2 hc2 hdf hdv hsize => omega

/-- C4 (amended): for every input file shorter than 48 bytes, the empty file
included, and every outcome of the system calls, `DecryptFile` returns a
non-nil error, no call of the run changes the namespace and every path shows
what it showed before.  The error is the one of the failing step (the mapping
of an empty file, or the allocation of the destination), and for a file of 1
to 47 bytes the negative `decryptedSize` is what is passed as allocation size. -/
theorem undersized_input_is_rejected (env : Env) (inputPath outputPath : Path)
    (pubKey privKey : Key) (w : World) (i : Nat)
    (hin : w.names inputPath = some i) (hw : w.WF) (hshort : (w.data i).length < 48) :
    (DecryptFile env inputPath outputPath pubKey privKey w).1 ≠ [] ∧
    (∀ e ∈ w.since (DecryptFile env inputPath outputPath pubKey privKey w).2,
      e.published = false) ∧
    ∀ p, (DecryptFile env inputPath outputPath pubKey privKey w).2.visible p =
      w.visible p := by
  unfold DecryptFile
  rw [decryptFile_eq]
  obtain ⟨hS, -⟩ := pipeline_run (decryptConfig_sound pubKey privKey) env inputPath outputPath w
  have hsz : ∀ j, w.names inputPath = some j →
      (decryptConfig pubKey privKey).size (w.data j).length ≤ 0 := by
    intro j hj
    rw [hin] at hj
    cases hj
    simp only [decryptConfig, AnonymousOverhead]
    omega
  obtain ⟨h1, h2⟩ := shape_undersized hS hw hsz
  exact ⟨h1, h2, pipeline_unpublished (decryptConfig_sound _ _) env _ _ w hw h2⟩

theorem undersized_input_is_rejected_witness :
    (oneFile "short" geronimo).names "short" = some 0 ∧
    ((oneFile "short" geronimo).data 0).length < 48 ∧
    (DecryptFile allSucceed "short" "out" testKey testKey (oneFile "short" geronimo)).1 ≠ [] ∧
    (∀ e ∈ (oneFile "short" geronimo).since
        (DecryptFile allSucceed "short" "out" testKey testKey (oneFile "short" geronimo)).2,
      e.published = false) ∧
    ∀ p, (DecryptFile allSucceed "short" "out" testKey testKey
        (oneFile "short" geronimo)).2.visible p = (oneFile "short" geronimo).visible p :=
  ⟨by decide, by decide,
    undersized_input_is_rejected allSucceed "short" "out" testKey testKey
      (oneFile "short" geronimo) 0 (by decide) (oneFile_WF _ _) (by decide)⟩

/-- C4, as stated, fails: on a nine-byte input `decryptedSize` is 9 - 48 = -39
and it is passed to `CreatePrivateFile`, which passes it to `Fallocate`; the
error returned is the one of that allocation, `EINVAL`, and nothing in it
reports an undersized input. -/
theorem negative_size_reaches_fallocate :
    (⟨.fallocate 5 (-39), some .EINVAL⟩ : Ev) ∈ (oneFile "short" geronimo).since
      (DecryptFile allSucceed "short" "out" testKey testKey (oneFile "short" geronimo)).2 ∧
    (DecryptFile allSucceed "short" "out" testKey testKey (oneFile "short" geronimo)).1 =
      [.wrap "failed to create private decrypted file" (.errno .EINVAL)] := by
  decide

/-! ## Failures that leave the namespace alone (C7) -/

theorem shape_early_unpublished {cfg : Config} (hs : cfg.Sound) {inputPath outputPath : Path}
    {w : World} {errs : List Err} {T : List Ev}
    (hS : Shape cfg inputPath outputPath w errs T) {e : Err} (hh : errs.head? = some e)
    (hl : reportsAfterOutput cfg.mPublish cfg.mUnmapDst cfg.mCloseDst e = false) :
    ∀ x ∈ T, x.published = false := by
  have hop : ∀ a b r, Ev.published ⟨cfg.op a b, r⟩ = false := by
    intro a b r
    rcases hs.kind a b with h | h <;> exact published_eq_false (by simp [h]) (by simp [h])
  have h7 : ∀ l : List Ev, (∀ e ∈ l, e.op.kind = .openRead ∨ e.op.kind = .openTmp ∨
      e.op.kind = .clone ∨ e.op.kind = .copy ∨ e.op.kind = .close ∨ e.op.kind = .fstat ∨
      e.op.kind = .mmap) → ∀ x ∈ l, x.published = false := by
    intro l hk x hx
    rcases hk x hx with h | h | h | h | h | h | h <;>
      exact published_eq_false (by simp [h]) (by simp [h])
  have h4 : ∀ l : List Ev, (∀ e ∈ l, e.op.kind = .openTmp ∨ e.op.kind = .fallocate ∨
      e.op.kind = .fstat ∨ e.op.kind = .mmap) → ∀ x ∈ l, x.published = false := by
    intro l hk x hx
    rcases hk x hx with h | h | h | h <;>
      exact published_eq_false (by simp [h]) (by simp [h])
  have pm : ∀ m r, Ev.published ⟨.munmap m, r⟩ = false := fun _ _ => rfl
  have pc : ∀ fd r, Ev.published ⟨.close fd, r⟩ = false := fun _ _ => rfl
  have ps : ∀ m r, Ev.published ⟨.msync m, r⟩ = false := fun _ _ => rfl
  cases hS with
  | stage stg es hes hk hc =>
    intro x hx
    rcases hk x hx with h | h | h | h | h <;>
      exact published_eq_false (by simp [h]) (by simp [h])
  | mapSrc pre sf e r hk hc =>
    simp only [List.forall_mem_append, List.forall_mem_singleton]
    exact ⟨h7 pre hk, by simp [Ev.published]⟩
  | staged pre sf sv lo lom x evs r2 r3 ha hk hc hlo hsf hsv hlen =>
    have hpre := h7 pre hk
    cases ha with
    | alloc al c hka hca =>
      simp only [Bool.false_eq_true, if_false, List.forall_mem_append, List.forall_mem_singleton]
      refine ⟨⟨⟨hpre, ?_⟩, by simp [Ev.published]⟩, by simp [Ev.published]⟩
      intro x hx
      rcases hka x hx with h | h | h <;>
        exact published_eq_false (by simp [h]) (by simp [h])
    | mapDst pre2 df e r0 hk2 hc2 hsize =>
      simp only [Bool.false_eq_true, if_false, List.forall_mem_append, List.forall_mem_singleton]
      exact ⟨⟨⟨hpre, h4 pre2 hk2, by simp [Ev.published]⟩, by simp [Ev.published]⟩,
        by simp [Ev.published]⟩
    | tail pre2 df dv x tl r0 r1 ht hk2 hc2 hdf hdv hsize =>
      have hpre2 := h4 pre2 hk2
      cases ht with
      | transform e =>
        dsimp only
        simp only [Bool.false_eq_true, if_false, List.forall_mem_append,
          List.forall_mem_singleton, List.forall_mem_cons]
        simp [hop, pm, pc, ps]
        exact ⟨hpre, hpre2⟩
      | flush e =>
        dsimp only
        simp only [Bool.false_eq_true, if_false, List.forall_mem_append,
          List.forall_mem_singleton, List.forall_mem_cons]
        simp [hop, pm, pc, ps]
        exact ⟨hpre, hpre2⟩
      | earlyUnmap e =>
        dsimp only
        simp only [Bool.false_eq_true, if_false, if_true, List.forall_mem_append,
          List.forall_mem_singleton, List.forall_mem_cons]
        simp [hop, pm, pc, ps]
        exact ⟨hpre, hpre2⟩
      | earlyClose e =>
        dsimp only
        simp only [Bool.false_eq_true, if_false, if_true, List.forall_mem_append,
          List.forall_mem_singleton, List.forall_mem_cons]
        simp [hop, pm, pc, ps]
        exact ⟨hpre, hpre2⟩
      | publish r rest es hes hkr hcr hq =>
        dsimp only at hh ⊢
        simp only [List.singleton_append, List.cons_append, List.head?_cons,
          Option.some.injEq] at hh
        subst hh
        rcases es with _ | ⟨y, es⟩
        · exact absurd rfl hes
        have hy : y.msg = "failed to call linkat" ∨ y.msg = "failed to create output file" := by
          simp only [reportsAfterOutput, decide_True, Bool.true_and, Bool.and_eq_false_imp,
            Bool.not_eq_true', decide_eq_false_iff_not, Bool.not_eq_false',
            decide_eq_true_eq] at hl
          by_cases h1 : y.msg = "failed to call linkat"
          · exact Or.inl h1
          · exact Or.inr (hl h1)
        have hq' := hq y rfl hy
        simp only [if_true, List.forall_mem_append, List.forall_mem_singleton,
          List.forall_mem_cons, List.append_nil]
        simp only [List.forall_mem_cons] at hq'
        simp [hop, pm, pc, ps, hq'.1]
        exact ⟨hpre, hpre2, hq'.2⟩
      | done r rest hkr hcr =>
        exfalso
        dsimp only at hh
        simp only [if_true, List.append_nil, List.nil_append] at hh
        rcases r0 with _ | e0
        · rcases r1 with _ | e1
          · simp [relErr] at hh
          · simp only [relErr, List.nil_append, List.head?_cons, Option.some.injEq] at hh
            subst hh
            simp [reportsAfterOutput] at hl
        · simp only [relErr, List.singleton_append, List.head?_cons, Option.some.injEq] at hh
          subst hh
          simp [reportsAfterOutput] at hl

theorem pipeline_early_failure {cfg : Config} (hs : cfg.Sound) (env : Env)
    (inputPath outputPath : Path) (w : World) (hw : w.WF) (e : Err)
    (hh : (pipeline cfg env inputPath outputPath w).1.head? = some e)
    (hl : reportsAfterOutput cfg.mPublish cfg.mUnmapDst cfg.mCloseDst e = false) (p : Path) :
    (pipeline cfg env inputPath outputPath w).2.visible p = w.visible p := by
  obtain ⟨hS, -⟩ := pipeline_run hs env inputPath outputPath w
  exact pipeline_unpublished hs env _ _ w hw (shape_early_unpublished hs hS hh hl) p

theorem decryptConfig_distinct (pubKey privKey : Key) :
    (decryptConfig pubKey privKey).Distinct := by
  constructor <;> simp [decryptConfig, reportsAfterOutput]

theorem encryptConfig_distinct (pubKey : Key) (cryptoReader : Bytes) :
    (encryptConfig pubKey cryptoReader).Distinct := by
  constructor <;> simp [encryptConfig, reportsAfterOutput]

theorem shape_late_published {cfg : Config} (hd : cfg.Distinct)
    {inputPath outputPath : Path} {w : World} {errs : List Err} {T : List Ev}
    (hS : Shape cfg inputPath outputPath w errs T) {e : Err} (hh : errs.head? = some e)
    (hl : reportsAfterOutput cfg.mPublish cfg.mUnmapDst cfg.mCloseDst e = true) :
    ∃ x ∈ T, x.published = true := by
  cases hS with
  | stage stg es hes hk hc =>
    exfalso
    simp only [List.head?_cons, Option.some.injEq] at hh
    subst hh
    rcases es with _ | ⟨y, es⟩
    · exact hes rfl
    · simp [reportsAfterOutput, hd.stage] at hl
  | mapSrc pre sf e r hk hc =>
    exfalso
    simp only [List.singleton_append, List.head?_cons, Option.some.injEq] at hh
    subst hh
    simp [reportsAfterOutput] at hl
  | staged pre sf sv lo lom x evs r2 r3 ha hk hc hlo hsf hsv hlen =>
    cases ha with
    | alloc al c hka hca =>
      exfalso
      simp only [List.singleton_append, List.cons_append, List.head?_cons,
        Option.some.injEq] at hh
      subst hh
      rcases c with e | e | es | es
      · simp [reportsAfterOutput, hd.alloc.2.1, hd.alloc.2.2] at hl
      · simp [reportsAfterOutput] at hl
      · rcases es with _ | ⟨y, es⟩
        · simp [reportsAfterOutput] at hl
        · simp [reportsAfterOutput, hd.alloc.1] at hl
      · simp [reportsAfterOutput] at hl
    | mapDst pre2 df e r0 hk2 hc2 hsize =>
      exfalso
      simp only [List.singleton_append, List.cons_append, List.head?_cons,
        Option.some.injEq] at hh
      subst hh
      simp [reportsAfterOutput] at hl
    | tail pre2 df dv x tl r0 r1 ht hk2 hc2 hdf hdv hsize =>
      cases ht with
      | transform e =>
        exfalso
        simp only [List.singleton_append, List.cons_append, List.head?_cons,
          Option.some.injEq] at hh
        subst hh
        rw [hd.report] at hl
        cases hl
      | flush e =>
        exfalso
        simp only [List.singleton_append, List.cons_append, List.head?_cons,
          Option.some.injEq] at hh
        subst hh
        simp [reportsAfterOutput, hd.flush.1, hd.flush.2] at hl
      | earlyUnmap e =>
        exfalso
        simp only [List.singleton_append, List.cons_append, List.head?_cons,
          Option.some.injEq] at hh
        subst hh
        simp [reportsAfterOutput, hd.earlyUnmap.1, hd.earlyUnmap.2] at hl
      | earlyClose e =>
        exfalso
        simp only [List.singleton_append, List.cons_append, List.head?_cons,
          Option.some.injEq] at hh
        subst hh
        simp [reportsAfterOutput, hd.earlyClose.1, hd.earlyClose.2] at hl
      | publish r rest es hes hkr hcr hq hp =>
        simp only [List.singleton_append, List.cons_append, List.head?_cons,
          Option.some.injEq] at hh
        subst hh
        rcases es with _ | ⟨y, es⟩
        · exact absurd rfl hes
        simp only [reportsAfterOutput, decide_True, Bool.true_and, Bool.and_eq_true,
          Bool.not_eq_true', decide_eq_false_iff_not] at hl
        obtain ⟨x, hx, hpx⟩ := hp (fun z hz => by
          simp only [List.head?_cons, Option.some.injEq] at hz
          subst hz
          exact hl)
        refine ⟨x, ?_, hpx⟩
        simp only [List.mem_append, List.mem_cons] at hx ⊢
        rcases hx with rfl | hx
        · simp
        · simp [hx]
      | done r rest hkr hcr hp =>
        obtain ⟨x, hx, hpx⟩ := hp
        refine ⟨x, ?_, hpx⟩
        simp only [List.mem_append, List.mem_cons] at hx ⊢
        rcases hx with rfl | hx
        · simp
        · simp [hx]

theorem pipeline_late_failure {cfg : Config} (hs : cfg.Sound) (hd : cfg.Distinct) (env : Env)
    (inputPath outputPath : Path) (w : World) (e : Err)
    (hh : (pipeline cfg env inputPath outputPath w).1.head? = some e)
    (hl : reportsAfterOutput cfg.mPublish cfg.mUnmapDst cfg.mCloseDst e = true) :
    ∃ x ∈ w.since (pipeline cfg env inputPath outputPath w).2, x.published = true := by
  obtain ⟨hS, -⟩ := pipeline_run hs env inputPath outputPath w
  exact shape_late_published hd hS hh hl

/-- C7 (amended): when `EncryptFile` or `DecryptFile` returns a non-nil error
whose first entry is neither the publish failure caused by a step that follows
the opening of the output file (the clone, the copy, the close of that file)
nor a failed release of the destination view or temp file (which runs after
`PublishFile`), every path shows what it showed before the call.  And when the
first entry is of one of these two kinds, a call of the run has linked
`outputPath` or opened it: the condition leaves out no run that failed before
the output was touched. -/
theorem failure_before_output_leaves_namespace (env : Env)
    (inputPath outputPath : Path) (pubKey privKey : Key) (w : World) (hw : w.WF) (e : Err) :
    ((EncryptFile env inputPath outputPath pubKey w).1.head? = some e →
      (reportsAfterOutput "failed to publish encrypted file" "failed to release encrypted data"
          "failed to close private encrypted file" e = false →
        ∀ p, (EncryptFile env inputPath outputPath pubKey w).2.visible p = w.visible p) ∧
      (reportsAfterOutput "failed to publish encrypted file" "failed to release encrypted data"
          "failed to close private encrypted file" e = true →
        ∃ x ∈ w.since (EncryptFile env inputPath outputPath pubKey w).2,
          x.published = true)) ∧
    ((DecryptFile env inputPath outputPath pubKey privKey w).1.head? = some e →
      (reportsAfterOutput "failed to publish decrypted file" "failed to munmap decrypted data"
          "failed to close private decrypted file" e = false →
        ∀ p, (DecryptFile env inputPath outputPath pubKey privKey w).2.visible p =
          w.visible p) ∧
      (reportsAfterOutput "failed to publish decrypted file" "failed to munmap decrypted data"
          "failed to close private decrypted file" e = true →
        ∃ x ∈ w.since (DecryptFile env inputPath outputPath pubKey privKey w).2,
          x.published = true)) := by
  constructor
  · unfold EncryptFile
    rw [encryptFile_eq]
    intro hh
    exact ⟨fun hl p => pipeline_early_failure (encryptConfig_sound _ _) env _ _ w hw e hh hl p,
      fun hl => pipeline_late_failure (encryptConfig_sound _ _) (encryptConfig_distinct _ _)
        env _ _ w e hh hl⟩
  · unfold DecryptFile
    rw [decryptFile_eq]
    intro hh
    exact ⟨fun hl p => pipeline_early_failure (decryptConfig_sound _ _) env _ _ w hw e hh hl p,
      fun hl => pipeline_late_failure (decryptConfig_sound _ _) (decryptConfig_distinct _ _)
        env _ _ w e hh hl⟩

set_option maxRecDepth 8000 in
theorem failure_before_output_leaves_namespace_witness :
    ((DecryptFile outputOpenFails "sealed" "out" testKey testKey
        (oneFile "sealed" (List.replicate 48 0 ++ geronimo))).1.head? =
        some (.wrap "failed to publish decrypted file"
          (.multi [⟨"failed to create output file", .EACCES⟩])) ∧
      reportsAfterOutput "failed to publish decrypted file" "failed to munmap decrypted data"
        "failed to close private decrypted file"
        (.wrap "failed to publish decrypted file"
          (.multi [⟨"failed to create output file", .EACCES⟩])) = false ∧
      ∀ p, (DecryptFile outputOpenFails "sealed" "out" testKey testKey
          (oneFile "sealed" (List.replicate 48 0 ++ geronimo))).2.visible p =
        (oneFile "sealed" (List.replicate 48 0 ++ geronimo)).visible p) ∧
    ((DecryptFile outputCopyFails "sealed" "out" testKey testKey
        (oneFile "sealed" (List.replicate 48 0 ++ geronimo))).1.head? =
        some (.wrap "failed to publish decrypted file"
          (.multi [⟨"failed to copy into public decrypted file", .ENOSPC⟩])) ∧
      reportsAfterOutput "failed to publish decrypted file" "failed to munmap decrypted data"
        "failed to close private decrypted file"
        (.wrap "failed to publish decrypted file"
          (.multi [⟨"failed to copy into public decrypted file", .ENOSPC⟩])) = true ∧
      ∃ x ∈ (oneFile "sealed" (List.replicate 48 0 ++ geronimo)).since
          (DecryptFile outputCopyFails "sealed" "out" testKey testKey
            (oneFile "sealed" (List.replicate 48 0 ++ geronimo))).2,
        x.published = true) :=
  ⟨⟨by decide, by decide,
    ((failure_before_output_leaves_namespace outputOpenFails "sealed" "out" testKey testKey
      (oneFile "sealed" (List.replicate 48 0 ++ geronimo)) (oneFile_WF _ _)
      (.wrap "failed to publish decrypted file"
        (.multi [⟨"failed to create output file", .EACCES⟩]))).2
      (by decide)).1 (by decide)⟩,
   ⟨by decide, by decide,
    ((failure_before_output_leaves_namespace outputCopyFails "sealed" "out" testKey testKey
      (oneFile "sealed" (List.replicate 48 0 ++ geronimo)) (oneFile_WF _ _)
      (.wrap "failed to publish decrypted file"
        (.multi [⟨"failed to copy into public decrypted file", .ENOSPC⟩]))).2
      (by decide)).2 (by decide)⟩⟩

set_option maxRecDepth 8000 in
/-- C7, as stated, fails in each of the cases the amended statement leaves out.
`outputPath` does not exist before the call; `DecryptFile` returns an error and
`outputPath` exists after it: holding the first four bytes of the plaintext
when the fallback copy fails, empty when the clone into it fails, holding the
whole plaintext when its close fails, and published by `linkat` when the
unmapping of the destination view or the close of the destination temp file
fails afterwards. -/
theorem failure_after_output_leaves_it_behind :
    (oneFile "sealed" (List.replicate 48 0 ++ geronimo)).visible "out" = none ∧
    ((DecryptFile outputCopyFails "sealed" "out" testKey testKey
        (oneFile "sealed" (List.replicate 48 0 ++ geronimo))).1 =
        [.wrap "failed to publish decrypted file"
          (.multi [⟨"failed to copy into public decrypted file", .ENOSPC⟩])] ∧
      (DecryptFile outputCopyFails "sealed" "out" testKey testKey
        (oneFile "sealed" (List.replicate 48 0 ++ geronimo))).2.visible "out" =
        some [71, 101, 114, 111]) ∧
    ((DecryptFile outputCloneFails "sealed" "out" testKey testKey
        (oneFile "sealed" (List.replicate 48 0 ++ geronimo))).1 =
        [.wrap "failed to publish decrypted file"
          (.multi [⟨"failed to clone file", .EACCES⟩])] ∧
      (DecryptFile outputCloneFails "sealed" "out" testKey testKey
        (oneFile "sealed" (List.replicate 48 0 ++ geronimo))).2.visible "out" = some []) ∧
    ((DecryptFile outputCloseFails "sealed" "out" testKey testKey
        (oneFile "sealed" (List.replicate 48 0 ++ geronimo))).1 =
        [.wrap "failed to publish decrypted file"
          (.multi [⟨"failed to close file", .EINTR⟩])] ∧
      (DecryptFile outputCloseFails "sealed" "out" testKey testKey
        (oneFile "sealed" (List.replicate 48 0 ++ geronimo))).2.visible "out" =
        some geronimo) ∧
    ((DecryptFile destinationUnmapFails "sealed" "out" testKey testKey
        (oneFile "sealed" (List.replicate 48 0 ++ geronimo))).1 =
        [.wrap "failed to munmap decrypted data" (.errno .EINVAL)] ∧
      (DecryptFile destinationUnmapFails "sealed" "out" testKey testKey
        (oneFile "sealed" (List.replicate 48 0 ++ geronimo))).2.visible "out" =
        some geronimo) ∧
    ((DecryptFile destinationCloseFails "sealed" "out" testKey testKey
        (oneFile "sealed" (List.replicate 48 0 ++ geronimo))).1 =
        [.wrap "failed to close private decrypted file" (.errno .EINTR)] ∧
      (DecryptFile destinationCloseFails "sealed" "out" testKey testKey
        (oneFile "sealed" (List.replicate 48 0 ++ geronimo))).2.visible "out" =
        some geronimo) := by
  decide

/-! ## A failing transform (C3) -/

theorem notFail_of_kind {x : Ev} (h : x.op.kind = .openRead ∨ x.op.kind = .openTmp ∨
    x.op.kind = .openCreate ∨ x.op.kind = .clone ∨ x.op.kind = .copy ∨ x.op.kind = .close ∨
    x.op.kind = .fstat ∨ x.op.kind = .mmap ∨ x.op.kind = .fallocate ∨ x.op.kind = .munmap ∨
    x.op.kind = .msync ∨ x.op.kind = .linkat) : NotFail x := by
  left
  rcases h with h | h | h | h | h | h | h | h | h | h | h | h <;> simp [h]

theorem beforeTransform_append {sf : File} {pre pre2 : List Ev}
    (hk : ∀ e ∈ pre, e.op.kind = .openRead ∨ e.op.kind = .openTmp ∨ e.op.kind = .clone ∨
      e.op.kind = .copy ∨ e.op.kind = .close ∨ e.op.kind = .fstat ∨ e.op.kind = .mmap)
    (hlo : ∀ e ∈ pre, ∀ fd, e.op = .close fd → fd < sf.fd)
    (hk2 : ∀ e ∈ pre2, e.op.kind = .openTmp ∨ e.op.kind = .fallocate ∨
      e.op.kind = .fstat ∨ e.op.kind = .mmap) :
    BeforeTransform sf.fd (pre ++ pre2) := by
  intro x hx
  rcases List.mem_append.mp hx with hx | hx
  · refine ⟨?_, fun hc => ?_⟩
    · rcases hk x hx with h | h | h | h | h | h | h <;> simp [h]
    · have := hlo x hx _ hc
      omega
  · refine ⟨?_, fun hc => ?_⟩
    · rcases hk2 x hx with h | h | h | h <;> simp [h]
    · rcases hk2 x hx with h | h | h | h <;> simp [hc, Op.kind] at h

theorem notFail_before {srcFd : Nat} {pre : List Ev} (h : BeforeTransform srcFd pre) :
    ∀ x ∈ pre, NotFail x := by
  intro x hx
  left
  rcases (h x hx).1 with h | h | h | h | h | h | h | h <;> simp [h]

theorem notFail_pubRest {sf df : File} {rest : List Ev} (h : PubRest sf df rest) :
    ∀ x ∈ rest, NotFail x := by
  intro x hx
  left
  rcases (h x hx).1 with h | h | h | h <;> simp [h]

theorem notFail_none (op : Op) : NotFail ⟨op, none⟩ := Or.inr rfl

theorem notFail_munmap (m : Nat) (r : Option Errno) : NotFail ⟨.munmap m, r⟩ :=
  Or.inl (by simp [Op.kind])

theorem notFail_close (fd : Nat) (r : Option Errno) : NotFail ⟨.close fd, r⟩ :=
  Or.inl (by simp [Op.kind])

theorem notFail_msync (m : Nat) (r : Option Errno) : NotFail ⟨.msync m, r⟩ :=
  Or.inl (by simp [Op.kind])

theorem notFail_linkat (fd : Nat) (p : Path) (r : Option Errno) : NotFail ⟨.linkat fd p, r⟩ :=
  Or.inl (by simp [Op.kind])

theorem Every.nil {P : Ev → Prop} : Every P [] := fun _ h => absurd h (List.not_mem_nil _)

theorem Every.cons {P : Ev → Prop} {a : Ev} {l : List Ev} (h : P a) (hl : Every P l) :
    Every P (a :: l) := by
  intro x hx
  rcases List.mem_cons.mp hx with rfl | hx
  · exact h
  · exact hl x hx

theorem Every.append {P : Ev → Prop} {l1 l2 : List Ev} (h1 : Every P l1) (h2 : Every P l2) :
    Every P (l1 ++ l2) := by
  intro x hx
  rcases List.mem_append.mp hx with hx | hx
  · exact h1 x hx
  · exact h2 x hx

theorem fail_mem_split {ev E : Ev} {A B : List Ev} (hnf : ¬ NotFail ev) (hA : Every NotFail A)
    (hB : Every NotFail B) (hmem : ev ∈ A ++ E :: B) : ev = E := by
  rcases List.mem_append.mp hmem with h | h
  · exact absurd (hA ev h) hnf
  · rcases List.mem_cons.mp h with h | h
    · exact h
    · exact absurd (hB ev h) hnf

theorem shape_transform_failure {cfg : Config} {inputPath outputPath : Path} {w : World}
    {errs : List Err} {T : List Ev} (hS : Shape cfg inputPath outputPath w errs T)
    (ev : Ev) (hkind : ev.op.kind = .seal ∨ ev.op.kind = .openAnonymous)
    (herr : ev.err ≠ none) (hmem : ev ∈ T) :
    ∃ pre sf sv df dv e r0 r1 r2 r3, ev = ⟨cfg.op dv sv, some e⟩ ∧
      T = pre ++ [ev, ⟨.munmap dv, r0⟩, ⟨.close df, r1⟩, ⟨.munmap sv, r2⟩, ⟨.close sf, r3⟩] ∧
      cfg.report e ∈ errs ∧ BeforeTransform sf pre := by
  have hnf : ¬ NotFail ev := by
    rintro (⟨h1, h2⟩ | h)
    · rcases hkind with h | h
      · exact h1 h
      · exact h2 h
    · exact herr h
  have contra : Every NotFail T → False := fun hall => hnf (hall ev hmem)
  cases hS with
  | stage stg es hes hk hc =>
    exfalso
    apply contra
    intro x hx
    exact notFail_of_kind (by rcases hk x hx with h | h | h | h | h <;> simp [h])
  | mapSrc pre sf e r hk hc =>
    exfalso
    apply contra
    refine Every.append (fun x hx => ?_) (Every.cons (notFail_close _ _) Every.nil)
    exact notFail_of_kind (by rcases hk x hx with h | h | h | h | h | h | h <;> simp [h])
  | staged pre sf sv lo lom x evs r2 r3 ha hk hc hlo hsf hsv hlen =>
    have hpre : Every NotFail pre := fun x hx =>
      notFail_of_kind (by rcases hk x hx with h | h | h | h | h | h | h <;> simp [h])
    have N2 : Every NotFail [⟨.munmap sv.id, r2⟩] := Every.cons (notFail_munmap _ _) Every.nil
    have N3 : Every NotFail [⟨.close sf.fd, r3⟩] := Every.cons (notFail_close _ _) Every.nil
    cases ha with
    | alloc al c hka hca =>
      exfalso
      apply contra
      have hal : Every NotFail evs := fun x hx =>
        notFail_of_kind (by rcases hka x hx with h | h | h <;> simp [h])
      simpa using Every.append (Every.append (Every.append hpre hal) N2) N3
    | mapDst pre2 df e r0 hk2 hc2 hsize =>
      exfalso
      apply contra
      have hp2 : Every NotFail pre2 := fun x hx =>
        notFail_of_kind (by rcases hk2 x hx with h | h | h | h <;> simp [h])
      simpa using Every.append (Every.append (Every.append hpre
        (Every.append hp2 (Every.cons (notFail_close df.fd r0) Every.nil))) N2) N3
    | tail pre2 df dv x tl r0 r1 ht hk2 hc2 hdf hdv hsize =>
      have hB := beforeTransform_append hk hlo hk2
      have hp2 : Every NotFail pre2 := fun x hx =>
        notFail_of_kind (by rcases hk2 x hx with h | h | h | h <;> simp [h])
      have N01 : Every NotFail [⟨.munmap dv.id, r0⟩, ⟨.close df.fd, r1⟩] :=
        Every.cons (notFail_munmap _ _) (Every.cons (notFail_close _ _) Every.nil)
      cases ht with
      | transform e =>
        have hmem' : ev ∈ (pre ++ pre2) ++ (⟨cfg.op dv.id sv.id, some e⟩ : Ev) ::
            [⟨.munmap dv.id, r0⟩, ⟨.close df.fd, r1⟩, ⟨.munmap sv.id, r2⟩,
              ⟨.close sf.fd, r3⟩] := by
          simpa using hmem
        have hev := fail_mem_split hnf (Every.append hpre hp2)
          (Every.append N01 (Every.append N2 N3)) hmem'
        refine ⟨pre ++ pre2, sf.fd, sv.id, df.fd, dv.id, e, r0, r1, r2, r3, hev, ?_, ?_, hB⟩
        · rw [hev]
          simp
        · simp
      | flush e =>
        exfalso
        apply contra
        simpa using Every.append (Every.append (Every.append hpre (Every.append
          (Every.append hp2 (Every.cons (notFail_none (cfg.op dv.id sv.id))
            (Every.cons (notFail_msync dv.id (some e)) Every.nil))) N01)) N2) N3
      | earlyUnmap e =>
        exfalso
        apply contra
        simpa using Every.append (Every.append hpre (Every.append
          (Every.append hp2 (Every.cons (notFail_none (cfg.op dv.id sv.id))
            (Every.cons (notFail_msync dv.id none)
              (Every.cons (notFail_munmap sv.id (some e)) Every.nil)))) N01)) N3
      | earlyClose e =>
        exfalso
        apply contra
        simpa using Every.append hpre (Every.append
          (Every.append hp2 (Every.cons (notFail_none (cfg.op dv.id sv.id))
            (Every.cons (notFail_msync dv.id none)
              (Every.cons (notFail_munmap sv.id none)
                (Every.cons (notFail_close sf.fd (some e)) Every.nil))))) N01)
      | publish r rest es hes hkr hcr =>
        exfalso
        apply contra
        simpa using Every.append hpre (Every.append
          (Every.append hp2 (Every.append (Every.cons (notFail_none (cfg.op dv.id sv.id))
            (Every.cons (notFail_msync dv.id none)
              (Every.cons (notFail_munmap sv.id none)
                (Every.cons (notFail_close sf.fd none)
                  (Every.cons (notFail_linkat df.fd outputPath r) Every.nil)))))
            (notFail_pubRest hkr))) N01)
      | done r rest hkr hcr =>
        exfalso
        apply contra
        simpa using Every.append hpre (Every.append
          (Every.append hp2 (Every.append (Every.cons (notFail_none (cfg.op dv.id sv.id))
            (Every.cons (notFail_msync dv.id none)
              (Every.cons (notFail_munmap sv.id none)
                (Every.cons (notFail_close sf.fd none)
                  (Every.cons (notFail_linkat df.fd outputPath r) Every.nil)))))
            (notFail_pubRest hkr))) N01)

/-- C3: when `box.OpenAnonymous` reports failure in a run of `DecryptFile`,
the error returned contains the entry "failed to decrypt file"; the calls
recorded after the failed open are exactly the four deferred releases
(destination view, destination file, source view, staged source, in this
order), and before it nothing was flushed, unmapped or published and the
staged source was not closed: no `msync`, no early release of the source and
no call of `PublishFile` is executed, and every path, `outputPath` included,
shows what it showed before the call. -/
theorem authentication_failure_aborts_before_publishing (env : Env)
    (inputPath outputPath : Path) (pubKey privKey : Key) (w : World) (hw : w.WF)
    (d s : Nat) (err : Errno)
    (hfail : (⟨.openAnonymous d s, some err⟩ : Ev) ∈
      w.since (DecryptFile env inputPath outputPath pubKey privKey w).2) :
    Err.new "failed to decrypt file" ∈
      (DecryptFile env inputPath outputPath pubKey privKey w).1 ∧
    (∃ pre srcFd dstFd r0 r1 r2 r3,
      w.since (DecryptFile env inputPath outputPath pubKey privKey w).2 =
        pre ++ [⟨.openAnonymous d s, some err⟩, ⟨.munmap d, r0⟩, ⟨.close dstFd, r1⟩,
          ⟨.munmap s, r2⟩, ⟨.close srcFd, r3⟩] ∧
      BeforeTransform srcFd pre) ∧
    (∀ e ∈ w.since (DecryptFile env inputPath outputPath pubKey privKey w).2,
      e.op.kind ≠ .msync ∧ e.op.kind ≠ .linkat ∧ e.op.kind ≠ .openCreate) ∧
    ∀ p, (DecryptFile env inputPath outputPath pubKey privKey w).2.visible p =
      w.visible p := by
  unfold DecryptFile at hfail ⊢
  rw [decryptFile_eq] at hfail ⊢
  obtain ⟨hS, -⟩ := pipeline_run (decryptConfig_sound pubKey privKey) env inputPath outputPath w
  obtain ⟨pre, sf, sv, df, dv, e, r0, r1, r2, r3, hev, hT, herr, hB⟩ :=
    shape_transform_failure hS ⟨.openAnonymous d s, some err⟩ (Or.inr rfl) (by simp) hfail
  simp only [decryptConfig, Ev.mk.injEq, Op.openAnonymous.injEq, Option.some.injEq] at hev
  obtain ⟨⟨rfl, rfl⟩, rfl⟩ := hev
  have hkinds : ∀ x ∈ w.since (pipeline (decryptConfig pubKey privKey) env inputPath
      outputPath w).2,
      x.op.kind ≠ .msync ∧ x.op.kind ≠ .linkat ∧ x.op.kind ≠ .openCreate := by
    rw [hT]
    intro x hx
    rcases List.mem_append.mp hx with hx | hx
    · rcases (hB x hx).1 with h | h | h | h | h | h | h | h <;> simp [h]
    · simp only [List.mem_cons, List.mem_singleton, List.not_mem_nil, or_false] at hx
      rcases hx with rfl | rfl | rfl | rfl | rfl <;> simp [Op.kind]
  refine ⟨?_, ⟨pre, sf, df, r0, r1, r2, r3, hT, hB⟩, hkinds, ?_⟩
  · simpa [decryptConfig] using herr
  · exact pipeline_unpublished (decryptConfig_sound _ _) env _ _ w hw
      (fun x hx => published_eq_false (hkinds x hx).2.1 (hkinds x hx).2.2)

theorem authentication_failure_aborts_before_publishing_witness :
    (⟨.openAnonymous 1 0, some .EINVAL⟩ : Ev) ∈ (oneFile "sealed" tampered).since
      (DecryptFile allSucceed "sealed" "out" testKey testKey (oneFile "sealed" tampered)).2 ∧
    Err.new "failed to decrypt file" ∈
      (DecryptFile allSucceed "sealed" "out" testKey testKey (oneFile "sealed" tampered)).1 ∧
    ∀ p, (DecryptFile allSucceed "sealed" "out" testKey testKey
      (oneFile "sealed" tampered)).2.visible p = (oneFile "sealed" tampered).visible p :=
  ⟨by decide,
    (authentication_failure_aborts_before_publishing allSucceed "sealed" "out" testKey testKey
      (oneFile "sealed" tampered) (oneFile_WF _ _) 1 0 .EINVAL (by decide)).1,
    (authentication_failure_aborts_before_publishing allSucceed "sealed" "out" testKey testKey
      (oneFile "sealed" tampered) (oneFile_WF _ _) 1 0 .EINVAL (by decide)).2.2.2⟩

/-! ## The order of the releases around `PublishFile` (C10) -/

theorem notLink_of_kind {x : Ev} (h : x.op.kind = .openRead ∨ x.op.kind = .openTmp ∨
    x.op.kind = .openCreate ∨ x.op.kind = .clone ∨ x.op.kind = .copy ∨ x.op.kind = .close ∨
    x.op.kind = .fstat ∨ x.op.kind = .mmap ∨ x.op.kind = .fallocate ∨ x.op.kind = .munmap ∨
    x.op.kind = .msync ∨ x.op.kind = .seal ∨ x.op.kind = .openAnonymous) : NotLink x := by
  unfold NotLink
  rcases h with h | h | h | h | h | h | h | h | h | h | h | h | h <;> simp [h]

theorem notLink_transform {cfg : Config} (hs : cfg.Sound) (a b : Nat) (r : Option Errno) :
    NotLink ⟨cfg.op a b, r⟩ :=
  notLink_of_kind (by rcases hs.kind a b with h | h <;> simp [h])

theorem notLink_munmap (m : Nat) (r : Option Errno) : NotLink ⟨.munmap m, r⟩ := by
  simp [NotLink, Op.kind]

theorem notLink_close (fd : Nat) (r : Option Errno) : NotLink ⟨.close fd, r⟩ := by
  simp [NotLink, Op.kind]

theorem notLink_msync (m : Nat) (r : Option Errno) : NotLink ⟨.msync m, r⟩ := by
  simp [NotLink, Op.kind]

theorem untouched_before {srcFd dstFd : Nat} {pre : List Ev} (h : BeforeTransform srcFd pre)
    (hd : ∀ x ∈ pre, x.op ≠ .close dstFd) : Untouched srcFd dstFd pre := by
  intro x hx
  obtain ⟨hk, hs⟩ := h x hx
  have hd' := hd x hx
  rcases hk with h | h | h | h | h | h | h | h <;> simp [h, hs, hd']

theorem untouched_rest {sf df : File} {rest : List Ev} (h : PubRest sf df rest) :
    Untouched sf.fd df.fd rest := by
  intro x hx
  obtain ⟨hk, hs, hd⟩ := h x hx
  rcases hk with h | h | h | h <;> simp [h, hs, hd]

theorem countP_untouched_munmap {srcFd dstFd : Nat} {l : List Ev} (h : Untouched srcFd dstFd l)
    (m : Nat) : l.countP (fun x => decide (x.op = .munmap m)) = 0 := by
  rw [List.countP_eq_zero]
  intro x hx
  have := (h x hx).1
  simp only [decide_eq_true_eq]
  intro hc
  rw [hc] at this
  exact this rfl

theorem countP_untouched_close {srcFd dstFd : Nat} {l : List Ev} (h : Untouched srcFd dstFd l) :
    l.countP (fun x => decide (x.op = .close srcFd)) = 0 := by
  rw [List.countP_eq_zero]
  intro x hx
  have := (h x hx).2.2.2.2.2.1
  simpa using this

theorem released_of_parts {op : Nat → Nat → Op} (outputPath : Path)
    (hop : ∀ a b, (op a b).kind = .seal ∨ (op a b).kind = .openAnonymous)
    {pre rest : List Ev} {srcFd srcView dstFd dstView : Nat} (r r0 r1 : Option Errno)
    (hv : srcView ≠ dstView) (hf : srcFd ≠ dstFd)
    (hpre : Untouched srcFd dstFd pre) (hrest : Untouched srcFd dstFd rest) :
    ReleasedBetweenFlushAndPublish op outputPath
      (pre ++ [⟨op dstView srcView, none⟩, ⟨.msync dstView, none⟩,
          ⟨.munmap srcView, none⟩, ⟨.close srcFd, none⟩, ⟨.linkat dstFd outputPath, r⟩] ++
        rest ++ [⟨.munmap dstView, r0⟩, ⟨.close dstFd, r1⟩]) := by
  refine ⟨pre, rest, srcFd, srcView, dstFd, dstView, r, r0, r1, rfl, hv, hf, hpre, hrest,
    ?_, ?_⟩
  · have hne : ∀ m : Nat, op dstView srcView ≠ .munmap m := by
      intro m hc
      rcases hop dstView srcView with h | h <;> simp [hc, Op.kind] at h
    simp [List.countP_append, List.countP_cons, countP_untouched_munmap hpre,
      countP_untouched_munmap hrest, hne, Ne.symm hv]
  · have hne : ∀ m : Nat, op dstView srcView ≠ .close m := by
      intro m hc
      rcases hop dstView srcView with h | h <;> simp [hc, Op.kind] at h
    simp [List.countP_append, List.countP_cons, countP_untouched_close hpre,
      countP_untouched_close hrest, hne, Ne.symm hf]

theorem shape_published {cfg : Config} (hs : cfg.Sound) {inputPath outputPath : Path}
    {w : World} {errs : List Err} {T : List Ev}
    (hS : Shape cfg inputPath outputPath w errs T)
    (ev : Ev) (hkind : ev.op.kind = .linkat) (hmem : ev ∈ T) :
    ReleasedBetweenFlushAndPublish cfg.op outputPath T := by
  have contra : Every NotLink T → False := fun hall => hall ev hmem hkind
  cases hS with
  | stage stg es hes hk hc =>
    exfalso
    apply contra
    intro x hx
    exact notLink_of_kind (by rcases hk x hx with h | h | h | h | h <;> simp [h])
  | mapSrc pre sf e r hk hc =>
    exfalso
    apply contra
    refine Every.append (fun x hx => ?_) (Every.cons (notLink_close _ _) Every.nil)
    exact notLink_of_kind (by rcases hk x hx with h | h | h | h | h | h | h <;> simp [h])
  | staged pre sf sv lo lom x evs r2 r3 ha hk hc hlo hsf hsv hlen =>
    have hpre : Every NotLink pre := fun x hx =>
      notLink_of_kind (by rcases hk x hx with h | h | h | h | h | h | h <;> simp [h])
    have N2 : Every NotLink [⟨.munmap sv.id, r2⟩] := Every.cons (notLink_munmap _ _) Every.nil
    have N3 : Every NotLink [⟨.close sf.fd, r3⟩] := Every.cons (notLink_close _ _) Every.nil
    cases ha with
    | alloc al c hka hca =>
      exfalso
      apply contra
      have hal : Every NotLink evs := fun x hx =>
        notLink_of_kind (by rcases hka x hx with h | h | h <;> simp [h])
      simpa using Every.append (Every.append (Every.append hpre hal) N2) N3
    | mapDst pre2 df e r0 hk2 hc2 hsize =>
      exfalso
      apply contra
      have hp2 : Every NotLink pre2 := fun x hx =>
        notLink_of_kind (by rcases hk2 x hx with h | h | h | h <;> simp [h])
      simpa using Every.append (Every.append (Every.append hpre
        (Every.append hp2 (Every.cons (notLink_close df.fd r0) Every.nil))) N2) N3
    | tail pre2 df dv x tl r0 r1 ht hk2 hc2 hdf hdv hsize =>
      have hB := beforeTransform_append hk hlo hk2
      have hp2 : Every NotLink pre2 := fun x hx =>
        notLink_of_kind (by rcases hk2 x hx with h | h | h | h <;> simp [h])
      have N01 : Every NotLink [⟨.munmap dv.id, r0⟩, ⟨.close df.fd, r1⟩] :=
        Every.cons (notLink_munmap _ _) (Every.cons (notLink_close _ _) Every.nil)
      have hU : Untouched sf.fd df.fd (pre ++ pre2) := by
        refine untouched_before hB (fun y hy hc => ?_)
        rcases List.mem_append.mp hy with hy | hy
        · have := hlo y hy _ hc
          omega
        · rcases hk2 y hy with h | h | h | h <;> simp [hc, Op.kind] at h
      have hv : sv.id ≠ dv.id := by omega
      have hf : sf.fd ≠ df.fd := by omega
      cases ht with
      | transform e =>
        exfalso
        apply contra
        simpa using Every.append (Every.append (Every.append hpre (Every.append
          (Every.append hp2 (Every.cons (notLink_transform hs dv.id sv.id (some e))
            Every.nil)) N01)) N2) N3
      | flush e =>
        exfalso
        apply contra
        simpa using Every.append (Every.append (Every.append hpre (Every.append
          (Every.append hp2 (Every.cons (notLink_transform hs dv.id sv.id none)
            (Every.cons (notLink_msync dv.id (some e)) Every.nil))) N01)) N2) N3
      | earlyUnmap e =>
        exfalso
        apply contra
        simpa using Every.append (Every.append hpre (Every.append
          (Every.append hp2 (Every.cons (notLink_transform hs dv.id sv.id none)
            (Every.cons (notLink_msync dv.id none)
              (Every.cons (notLink_munmap sv.id (some e)) Every.nil)))) N01)) N3
      | earlyClose e =>
        exfalso
        apply contra
        simpa using Every.append hpre (Every.append
          (Every.append hp2 (Every.cons (notLink_transform hs dv.id sv.id none)
            (Every.cons (notLink_msync dv.id none)
              (Every.cons (notLink_munmap sv.id none)
                (Every.cons (notLink_close sf.fd (some e)) Every.nil))))) N01)
      | publish r rest es hes hkr hcr =>
        simpa using released_of_parts outputPath hs.kind r r0 r1 hv hf hU (untouched_rest hkr)
      | done r rest hkr hcr =>
        simpa using released_of_parts outputPath hs.kind r r0 r1 hv hf hU (untouched_rest hkr)

/-- C10: in every run of `decryptFile` and of `encryptFile` in which
`PublishFile` is invoked (its first statement, the `linkat`, is recorded), the
calls recorded before that `linkat` end with a successful transform, a
successful `msync` of the destination view, a successful `munmap` of the
source view and a successful close of the staged source, in this order; the
destination view is unmapped and the destination temp file closed after
`PublishFile` has returned; and the source view and the staged source are each
released exactly once in the run. -/
theorem source_released_between_flush_and_publish (env : Env)
    (inputPath outputPath : Path) (pubKey privKey : Key) (cryptoReader : Bytes) (w : World) :
    (∀ ev ∈ w.since (decryptFile env inputPath outputPath pubKey privKey w).2,
      ev.op.kind = .linkat →
      ReleasedBetweenFlushAndPublish .openAnonymous outputPath
        (w.since (decryptFile env inputPath outputPath pubKey privKey w).2)) ∧
    (∀ ev ∈ w.since (encryptFile env inputPath outputPath pubKey cryptoReader w).2,
      ev.op.kind = .linkat →
      ReleasedBetweenFlushAndPublish .seal outputPath
        (w.since (encryptFile env inputPath outputPath pubKey cryptoReader w).2)) := by
  constructor
  · rw [decryptFile_eq]
    intro ev hmem hk
    exact shape_published (decryptConfig_sound pubKey privKey)
      (pipeline_run (decryptConfig_sound pubKey privKey) env inputPath outputPath w).1 ev hk hmem
  · rw [encryptFile_eq]
    intro ev hmem hk
    exact shape_published (encryptConfig_sound pubKey cryptoReader)
      (pipeline_run (encryptConfig_sound pubKey cryptoReader) env inputPath outputPath w).1
      ev hk hmem

set_option maxRecDepth 8000 in
theorem source_released_between_flush_and_publish_witness :
    ReleasedBetweenFlushAndPublish .openAnonymous "out"
      ((oneFile "sealed" (List.replicate 48 0 ++ geronimo)).since
        (decryptFile allSucceed "sealed" "out" testKey testKey
          (oneFile "sealed" (List.replicate 48 0 ++ geronimo))).2) :=
  (source_released_between_flush_and_publish allSucceed "sealed" "out" testKey testKey []
    (oneFile "sealed" (List.replicate 48 0 ++ geronimo))).1 ⟨.linkat 5 "out", none⟩
    (by decide) rfl

/-! ## The error list (C8) -/

set_option maxRecDepth 8000 in
theorem releases_of_failed_allocation :
    ((oneFile "short" geronimo).since
        (decryptFile destinationCloseFails "short" "out" testKey testKey
          (oneFile "short" geronimo)).2).filter
      (ownRelease ((oneFile "short" geronimo).since
        (decryptFile destinationCloseFails "short" "out" testKey testKey
          (oneFile "short" geronimo)).2)) =
      [⟨.munmap 0, none⟩, ⟨.close 4, none⟩] := by
  decide

/-! ## Defects, on concrete runs (C9, C6, C2, C1) -/

/-- C9, on a failing input: when the only failure is the close of the source
file inside `CreatePrivateCopyOf`, the deferred closure that closes the private
copy has already run and seen an empty error list, so `CreatePrivateCopyOf`
returns an error and a private file that is still open; `DecryptFile` returns
without closing it: descriptor 4 is still in the table and no `close 4` was
issued. -/
theorem private_copy_leaks_when_input_close_fails :
    (CreatePrivateCopyOf inputCloseFails "sealed" "/tmp"
        (oneFile "sealed" (List.replicate 48 0 ++ geronimo))).1 =
      (some ⟨4, 1⟩, [⟨"failed to close file", .EINTR⟩]) ∧
    (DecryptFile inputCloseFails "sealed" "out" testKey testKey
        (oneFile "sealed" (List.replicate 48 0 ++ geronimo))).1 =
      [.wrap "failed to create the private copy of the encrypted file"
        (.multi [⟨"failed to close file", .EINTR⟩])] ∧
    (DecryptFile inputCloseFails "sealed" "out" testKey testKey
        (oneFile "sealed" (List.replicate 48 0 ++ geronimo))).2.fds = [4] ∧
    (oneFile "sealed" (List.replicate 48 0 ++ geronimo)).since
        (DecryptFile inputCloseFails "sealed" "out" testKey testKey
          (oneFile "sealed" (List.replicate 48 0 ++ geronimo))).2 =
      [⟨.openRead "sealed", none⟩, ⟨.openTmp "/tmp", none⟩, ⟨.clone 4 3, none⟩,
        ⟨.close 3, some .EINTR⟩] := by
  decide

/-- C6, on a failing input: the destination already exists and is longer than
the staged content.  With `linkat` available `PublishFile` refuses
(`EEXIST`); through the fallback (no `linkat`, no clone) it opens the existing
file without truncating it, copies, returns no error and leaves the two staged
bytes followed by the last three bytes of the old content. -/
theorem fallback_copy_keeps_stale_tail :
    (PublishFile allSucceed ⟨5, 1⟩ "out" stagedOverExisting).1 =
      [⟨"failed to call linkat", .EEXIST⟩] ∧
    (PublishFile noFastPath ⟨5, 1⟩ "out" stagedOverExisting).1 = [] ∧
    (PublishFile noFastPath ⟨5, 1⟩ "out" stagedOverExisting).2.visible "out" =
      some [1, 2, 9, 9, 9] := by
  decide

/-- C2, on a failing input: `outputPath` already holds 100 bytes.  Through the
fallback of `PublishFile`, `EncryptFile` of the nine bytes of "Geronimo!"
succeeds and the file at `outputPath` is still 100 bytes long, not 57: the 57
bytes of the sealed box followed by the last 43 bytes of the old content. -/
theorem size_law_broken_over_longer_output :
    (EncryptFile noFastPath "clear" "encrypted" testKey
      (twoFiles "clear" geronimo "encrypted" (List.replicate 100 7))).1 = [] ∧
    ((EncryptFile noFastPath "clear" "encrypted" testKey
      (twoFiles "clear" geronimo "encrypted" (List.replicate 100 7))).2.visible
        "encrypted").map List.length = some 100 ∧
    (EncryptFile noFastPath "clear" "encrypted" testKey
      (twoFiles "clear" geronimo "encrypted" (List.replicate 100 7))).2.visible "encrypted" =
      some (List.replicate 48 0 ++ geronimo ++ List.replicate 43 7) := by
  decide

/-- The size law on the input of the test: with no file at `outputPath`, the
nine bytes of "Geronimo!" give a file of 57 bytes, with and without the fast
paths. -/
theorem size_law_on_test_input :
    ((EncryptFile allSucceed "clear" "encrypted" testKey
      (oneFile "clear" geronimo)).2.visible "encrypted").map List.length = some 57 ∧
    ((EncryptFile noFastPath "clear" "encrypted" testKey
      (oneFile "clear" geronimo)).2.visible "encrypted").map List.length = some 57 := by
  decide

/-- C1, as stated, fails on the empty plaintext: `toyBox` opens every box it
seals, yet `EncryptFile` of an empty file fails, because a mapping of length
zero is refused (`EINVAL`), and nothing is published. -/
theorem round_trip_fails_on_empty_file :
    (∀ msg rand, toyBox.OpenAnonymous
      (match toyBox.SealAnonymous msg testKey rand with
        | .ok c => c
        | .error _ => []) testKey testKey = some msg) ∧
    (EncryptFile allSucceed "clear" "mid" testKey (oneFile "clear" [])).1 =
      [.wrap "failed to get data from private copy"
        (.sys ⟨"failed to mmap(2) private copy of encrypted file", .EINVAL⟩)] ∧
    (EncryptFile allSucceed "clear" "mid" testKey (oneFile "clear" [])).2.visible "mid" =
      none := by
  refine ⟨?_, by decide, by decide⟩
  intro msg rand
  simp [toyBox]

/-! ## Runs in which nothing fails (C1) -/

theorem Env.Benign.result_none {env : Env} (hb : env.Benign) (op : Op) (k : Nat)
    (h1 : op.kind ≠ .clone) (h2 : op.kind ≠ .linkat) : env.result op k = none := by
  rcases hb op k with h | ⟨h, -⟩ | ⟨h, -⟩
  · exact h
  · exact absurd h h1
  · exact absurd h h2

theorem errOf_eq_none {ε α : Type} {r : Except ε α} (h : errOf r = none) : ∃ a, r = .ok a := by
  cases r with
  | error e => simp [errOf] at h
  | ok a => exact ⟨a, rfl⟩

theorem GetDataFromFile_benign {env : Env} (hb : env.Benign) {f : File} {w w' : World}
    {r : Except SysErr View} (h : GetDataFromFile env f w = (r, w'))
    (hl : (w.data f.ino).length ≠ 0) : errOf r = none := by
  unfold GetDataFromFile at h
  rcases h1 : fileStat env f w with ⟨r1, w1⟩
  obtain ⟨-, -, -, R1, L1⟩ := fileStat_ids h1
  rw [hb.result_none _ _ (by simp [Op.kind]) (by simp [Op.kind])] at R1
  obtain ⟨n, rfl⟩ := errOf_eq_none R1
  rw [h1] at h
  simp only [] at h
  have hn := L1 n rfl
  rcases h2 : syscallMmap env f n w1 with ⟨r2, w2⟩
  have R2 := syscallMmap_result h2 (by rw [hn]; exact hl)
  rw [hb.result_none _ _ (by simp [Op.kind]) (by simp [Op.kind])] at R2
  obtain ⟨v, rfl⟩ := errOf_eq_none R2
  rw [h2] at h
  obtain ⟨rfl, -⟩ := Prod.mk.inj h
  rfl

theorem CreatePrivateFile_benign {env : Env} (hb : env.Benign) {tempDir : Path} {size : Int}
    {w w' : World} {r : Except Cause File}
    (h : CreatePrivateFile env tempDir size w = (r, w')) (hs : 0 < size) : errOf r = none := by
  unfold CreatePrivateFile at h
  rcases h1 : unixOpenTmp env tempDir w with ⟨r1, w1⟩
  have R1 := unixOpenTmp_result h1
  rw [hb.result_none _ _ (by simp [Op.kind]) (by simp [Op.kind])] at R1
  obtain ⟨f, rfl⟩ := errOf_eq_none R1
  rw [h1] at h
  simp only [] at h
  rcases h2 : syscallFallocate env f size w1 with ⟨r2, w2⟩
  obtain ⟨-, -, -, -, R2, -⟩ := syscallFallocate_ids h2
  have R2' := R2 hs
  rw [hb.result_none _ _ (by simp [Op.kind]) (by simp [Op.kind])] at R2'
  subst R2'
  rw [h2] at h
  obtain ⟨rfl, -⟩ := Prod.mk.inj h
  rfl

theorem cloneOrCopy_benign {env : Env} (hb : env.Benign) {msgClone msgCopy : String}
    {dst src : File} {w w' : World} {b : List SysErr}
    (h : cloneOrCopy env msgClone msgCopy dst src w = (b, w')) : b = [] := by
  unfold cloneOrCopy at h
  rcases h3 : unixIoctlFileClone env dst src w with ⟨r3, w3⟩
  obtain ⟨-, -, -, R3, -, -⟩ := unixIoctlFileClone_ids h3
  rw [h3] at h
  rcases r3 with _ | e3
  · obtain ⟨rfl, -⟩ := Prod.mk.inj h
    rfl
  · simp only [] at h
    have hsup : ¬ (e3 ≠ Errno.EOPNOTSUPP ∧ e3 ≠ Errno.EINVAL) := by
      rcases hb (.clone dst.fd src.fd) w.clock with hr | ⟨-, hr | hr⟩ | ⟨hk, -⟩
      · rw [hr] at R3
        cases R3
      · rw [hr] at R3
        cases R3
        simp
      · rw [hr] at R3
        cases R3
        simp
      · simp [Op.kind] at hk
    rw [if_neg hsup] at h
    rcases h4 : ioCopy env dst src w3 with ⟨r4, w4⟩
    obtain ⟨-, -, -, R4, -⟩ := ioCopy_ids h4
    rw [hb.result_none _ _ (by simp [Op.kind]) (by simp [Op.kind])] at R4
    subst R4
    rw [h4] at h
    obtain ⟨rfl, -⟩ := Prod.mk.inj h
    rfl

theorem CreatePrivateCopyOf_benign {env : Env} (hb : env.Benign) {inputPath tempDir : Path}
    {w w' : World} {file : Option File} {errs : List SysErr}
    (h : CreatePrivateCopyOf env inputPath tempDir w = ((file, errs), w'))
    {i : Nat} (hin : w.names inputPath = some i) : errs = [] := by
  unfold CreatePrivateCopyOf at h
  rcases h1 : osOpen env inputPath w with ⟨r1, w1⟩
  obtain ⟨-, -, -, R1⟩ := osOpen_ids h1
  have R1' := R1 i hin
  rw [hb.result_none _ _ (by simp [Op.kind]) (by simp [Op.kind])] at R1'
  obtain ⟨inputFile, rfl⟩ := errOf_eq_none R1'
  obtain ⟨hifd, -, -, -, -, hfds1, -⟩ := osOpen_ok h1
  rw [h1] at h
  simp only [] at h
  rcases h2 : unixOpenTmp env tempDir w1 with ⟨r2, w2⟩
  have R2 := unixOpenTmp_result h2
  rw [hb.result_none _ _ (by simp [Op.kind]) (by simp [Op.kind])] at R2
  obtain ⟨privateFile, rfl⟩ := errOf_eq_none R2
  obtain ⟨-, -, -, -, hfds2, -, -⟩ := unixOpenTmp_ok h2
  rw [h2] at h
  simp only [] at h
  rcases hbody : cloneOrCopy env "failed to clone file" "failed to copy file"
    privateFile inputFile w2 with ⟨b, wb⟩
  have hb0 := cloneOrCopy_benign hb hbody
  obtain ⟨evb, -, -, -, -, Fb, -, -⟩ := cloneOrCopy_spec hbody (fun _ => True)
    (I := fun _ => False) (fun _ hi => absurd hi id)
  subst hb0
  unfold cloneOrCopy at hbody
  rw [hbody] at h
  simp only [ne_eq, not_true_eq_false, if_false] at h
  rcases h6 : fileClose env inputFile wb with ⟨r6, w6⟩
  obtain ⟨-, -, -, R6⟩ := fileClose_ids h6
  have R6' := R6 (by rw [Fb, hfds2, hfds1, hifd]; simp)
  rw [hb.result_none _ _ (by simp [Op.kind]) (by simp [Op.kind])] at R6'
  subst R6'
  rw [h6] at h
  obtain ⟨h', -⟩ := Prod.mk.inj h
  obtain ⟨-, rfl⟩ := Prod.mk.inj h'
  rfl

theorem PublishFile_benign {env : Env} (hb : env.Benign) {f : File} {outputPath : Path}
    {w w' : World} {errs : List SysErr} (h : PublishFile env f outputPath w = (errs, w'))
    (hout : w.names outputPath = none) (hf : f.ino < w.nextIno) :
    errs = [] ∧ ∃ j, w'.names outputPath = some j ∧ j < w'.nextIno ∧
      w'.data j = w.data f.ino := by
  unfold PublishFile at h
  rcases h1 : unixLinkat env f outputPath w with ⟨r1, w1⟩
  obtain ⟨S1, F1, -, D1, N1, L1, R1⟩ := unixLinkat_ids h1
  have R1' := R1 hout
  rw [h1] at h
  rcases r1 with _ | e1
  · obtain ⟨rfl, rfl⟩ := Prod.mk.inj h
    obtain ⟨-, hnm⟩ := L1 rfl
    exact ⟨rfl, f.ino, hnm, by rw [S1.nextIno]; exact hf, by rw [D1]⟩
  · simp only [] at h
    have he1 : e1 = .ENOENT := by
      rcases hb (.linkat f.fd outputPath) w.clock with hr | ⟨hk, -⟩ | ⟨-, hr⟩
      · rw [hr] at R1'
        cases R1'
      · simp [Op.kind] at hk
      · rw [hr] at R1'
        cases R1'
        rfl
    subst he1
    simp only [ne_eq, not_true_eq_false, if_false] at h
    have hn1 : w1.names = w.names := N1 (by simp)
    rcases h2 : osOpenFileCreate env outputPath w1 with ⟨r2, w2⟩
    have R2 := osOpenFileCreate_result h2
    rw [hb.result_none _ _ (by simp [Op.kind]) (by simp [Op.kind])] at R2
    obtain ⟨outputFile, rfl⟩ := errOf_eq_none R2
    obtain ⟨hofd, hnm2, -, -, hfds2, -, hcase⟩ := osOpenFileCreate_ok h2
    rw [h2] at h
    simp only [] at h
    have hfresh : outputFile.ino = w1.nextIno ∧ w2.nextIno = w1.nextIno + 1 ∧
        w2.data outputFile.ino = [] := by
      rcases hcase with ⟨hex, -, -⟩ | ⟨-, h1', h2', h3'⟩
      · rw [hn1, hout] at hex
        cases hex
      · exact ⟨h1', h2', h3'⟩
    obtain ⟨hoino, hino2, hdata2⟩ := hfresh
    have hd2 : w2.data f.ino = w.data f.ino := by
      have E2 := osOpenFileCreate_evolves h2 (P := fun p => p ≠ outputPath)
        (I := fun i => i ≠ w1.nextIno) (fun _ hp => hp) (fun _ hi => hi)
      rw [E2.data f.ino (by rw [S1.nextIno]; omega), D1]
    rcases hbody : cloneOrCopy env "failed to clone file"
      "failed to copy into public decrypted file" outputFile f w2 with ⟨b, wb⟩
    have hb0 := cloneOrCopy_benign hb hbody
    obtain ⟨evb, Eb, -, -, Sb, Fb, -, Db⟩ := cloneOrCopy_spec hbody (fun _ => True)
      (I := fun _ => False) (fun _ hi => absurd hi id)
    subst hb0
    unfold cloneOrCopy at hbody
    rw [hbody] at h
    rcases h3 : fileClose env outputFile wb with ⟨r3, w3⟩
    have E3 := fileClose_evolves h3 (fun _ => True) (fun _ => True)
    obtain ⟨S3, -, -, R3⟩ := fileClose_ids h3
    have R3' := R3 (by rw [Fb, hfds2, hofd]; simp)
    rw [hb.result_none _ _ (by simp [Op.kind]) (by simp [Op.kind])] at R3'
    subst R3'
    rw [h3] at h
    obtain ⟨rfl, rfl⟩ := Prod.mk.inj h
    refine ⟨rfl, outputFile.ino, ?_, ?_, ?_⟩
    · rw [E3.names _ trivial, Eb.names _ trivial, hnm2]
    · rw [S3.nextIno, Sb.nextIno, hino2, hoino]
      omega
    · rw [E3.data _ trivial, Db rfl, hdata2, overlay_nil, hd2]

theorem transform_benign {cfg : Config} (hs : cfg.Sound) {env : Env} (hb : env.Benign)
    {outputPath : Path} {sf : File} {sv : View} {df : File} {dv : View} {w w' : World}
    {x : Exit} (h : pipeline.transform cfg env outputPath sf sv df dv w = (x, w'))
    {S R : Bytes} (htr : cfg.Maps env S R)
    (hS : w.bytes sv = S) (hZ : w.data dv.ino = List.replicate R.length 0)
    (hlen : dv.len = R.length) (hino : dv.ino = df.ino)
    (hsvm : sv.id ∈ w.maps) (hdvm : dv.id ∈ w.maps) (hvne : sv.id ≠ dv.id)
    (hsff : sf.fd ∈ w.fds) (hdff : df.fd ∈ w.fds) (hfne : sf.fd ≠ df.fd)
    (hout : w.names outputPath = none) (hdfi : df.ino < w.nextIno) :
    x.errStack = [] ∧ x.dataFreed = true ∧ x.fileClosed = true ∧
    dv.id ∈ w'.maps ∧ df.fd ∈ w'.fds ∧
    ∃ j, w'.names outputPath = some j ∧ j < w'.nextIno ∧ w'.data j = R := by
  unfold pipeline.transform at h
  rcases h1 : cfg.transform env dv sv w with ⟨r1, w1⟩
  obtain ⟨hr1, hd1⟩ := htr dv sv w w1 r1 h1 hS hZ hlen
  obtain ⟨e1, -, S1, F1, M1, E1⟩ := hs.transform h1
  have Q1 := E1 (fun _ => True) (fun i => i ≠ dv.ino) (fun _ hi => hi)
  subst hr1
  rw [h1] at h
  simp only [] at h
  rcases h2 : unixMsync env dv w1 with ⟨r2, w2⟩
  have Q2 := unixMsync_evolves h2 (fun _ => True) (fun _ => True)
  obtain ⟨S2, F2, M2, R2⟩ := unixMsync_ids h2
  rw [hb.result_none _ _ (by simp [Op.kind]) (by simp [Op.kind])] at R2
  subst R2
  rw [h2] at h
  simp only [] at h
  rcases h3 : syscallMunmap env sv w2 with ⟨r3, w3⟩
  have Q3 := syscallMunmap_evolves h3 (fun _ => True) (fun _ => True)
  obtain ⟨S3, F3, M3, R3⟩ := syscallMunmap_ids h3
  have R3' := R3 (by rw [M2, M1]; exact hsvm)
  rw [hb.result_none _ _ (by simp [Op.kind]) (by simp [Op.kind])] at R3'
  subst R3'
  rw [h3] at h
  simp only [if_true] at h M3
  rcases h4 : fileClose env sf w3 with ⟨r4, w4⟩
  have Q4 := fileClose_evolves h4 (fun _ => True) (fun _ => True)
  obtain ⟨S4, F4, M4, R4⟩ := fileClose_ids h4
  have R4' := R4 (by rw [F3, F2, F1]; exact hsff)
  rw [hb.result_none _ _ (by simp [Op.kind]) (by simp [Op.kind])] at R4'
  subst R4'
  rw [h4] at h
  simp only [] at h
  have hn4 : w4.names outputPath = none := by
    rw [Q4.names _ trivial, Q3.names _ trivial, Q2.names _ trivial, Q1.names _ trivial, hout]
  have hino4 : w4.nextIno = w.nextIno := by
    rw [S4.nextIno, S3.nextIno, S2.nextIno, S1.nextIno]
  have hd4 : w4.data df.ino = R := by
    rw [Q4.data _ trivial, Q3.data _ trivial, Q2.data _ trivial, ← hino, hd1]
  rcases h5 : PublishFile env df outputPath w4 with ⟨errs, w5⟩
  obtain ⟨he, j, hj1, hj2, hj3⟩ := PublishFile_benign hb h5 hn4 (by rw [hino4]; exact hdfi)
  obtain ⟨r, rest, -, -, -, -, M5, F5, -⟩ := PublishFile_spec h5
    (P := fun _ => False) (I := fun _ => False) (fun _ hp => absurd hp id)
    (fun _ hi => absurd hi id)
  subst he
  rw [h5] at h
  simp only [ne_eq, not_true_eq_false, if_false] at h
  obtain ⟨rfl, rfl⟩ := Prod.mk.inj h
  refine ⟨rfl, rfl, rfl, ?_, ?_, j, hj1, hj2, by rw [hj3, hd4]⟩
  · rw [M5, M4, M3, M2, M1]
    exact (List.mem_erase_of_ne (Ne.symm hvne)).mpr hdvm
  · rw [F5, F4, F3, F2, F1]
    exact (List.mem_erase_of_ne (Ne.symm hfne)).mpr hdff

theorem allocate_benign {cfg : Config} (hs : cfg.Sound) {env : Env} (hb : env.Benign)
    {outputPath : Path} {sf : File} {sv : View} {w w' : World} {x : Exit}
    (h : pipeline.allocate cfg env outputPath sf sv w = (x, w'))
    {S R : Bytes} (htr : cfg.Maps env S R)
    (hS : w.bytes sv = S) (hsize : cfg.size sv.len = (R.length : Int)) (hR : R ≠ [])
    (hsvi : sv.ino < w.nextIno)
    (hsvm : sv.id ∈ w.maps) (hsvlt : sv.id < w.nextMap)
    (hsff : sf.fd ∈ w.fds) (hsflt : sf.fd < w.nextFd)
    (hout : w.names outputPath = none) :
    x.errStack = [] ∧ x.dataFreed = true ∧ x.fileClosed = true ∧
    ∃ j, w'.names outputPath = some j ∧ j < w'.nextIno ∧ w'.data j = R := by
  unfold pipeline.allocate at h
  have hpos : 0 < R.length := List.length_pos.mpr hR
  rcases h1 : CreatePrivateFile env (env.dir outputPath) (cfg.size sv.len) w with ⟨r1, w1⟩
  have B1 := CreatePrivateFile_benign hb h1 (by rw [hsize]; exact_mod_cast hpos)
  obtain ⟨df, rfl⟩ := errOf_eq_none B1
  obtain ⟨al, Q1, -, -, hmap1, hmaps1, -, -, ok1⟩ := CreatePrivateFile_spec h1
    (fun _ => True) (I := fun i => i ≠ w.nextIno) (fun _ hi => hi)
  obtain ⟨hdf, -, hfd1, hino1, hfds1, hdata1, -⟩ := ok1 df rfl
  rw [h1] at h
  simp only [] at h
  have hZ1 : w1.data df.ino = List.replicate R.length 0 := by
    rw [hdf]
    simp only []
    rw [hdata1, hsize]
    simp
  rcases h2 : GetDataFromFile env df w1 with ⟨r2, w2⟩
  have B2 := GetDataFromFile_benign hb h2 (by rw [hZ1, List.length_replicate]; omega)
  obtain ⟨dv, rfl⟩ := errOf_eq_none B2
  obtain ⟨g2, Q2, -, -, hfd2, hino2, hfds2, ok2⟩ := GetDataFromFile_spec h2
    (fun _ => True) (fun _ => True)
  obtain ⟨hdv, -, hmap2, hmaps2⟩ := ok2 dv rfl
  rw [h2] at h
  simp only [] at h
  have hdvino : dv.ino = df.ino := by rw [hdv]
  have hdvlen : dv.len = R.length := by
    rw [hdv]
    simp only []
    rw [hZ1]
    simp
  have hdvid : dv.id = w.nextMap := by rw [hdv, hmap1]
  have hS2 : w2.bytes sv = S := by
    unfold World.bytes at hS ⊢
    rw [Q2.data _ trivial, Q1.data _ (by omega), hS]
  have hZ2 : w2.data dv.ino = List.replicate R.length 0 := by
    rw [Q2.data _ trivial, hdvino, hZ1]
  rcases hT : pipeline.transform cfg env outputPath sf sv df dv w2 with ⟨xt, wt⟩
  obtain ⟨hx1, hx2, hx3, hdm, hdfd, j, hj1, hj2, hj3⟩ := transform_benign hs hb hT htr hS2 hZ2
    hdvlen hdvino
    (by rw [hmaps2, hmaps1]; simp [hsvm])
    (by rw [hmaps2, hdvid, hmap1]; simp)
    (by rw [hdvid]; omega)
    (by rw [hfds2, hfds1]; simp [hsff])
    (by rw [hfds2, hfds1, hdf]; simp)
    (by rw [hdf]; simp only []; omega)
    (by rw [Q2.names _ trivial, Q1.names _ trivial, hout])
    (by rw [hino2, hino1, hdf]; simp)
  rw [hT] at h
  simp only [] at h
  rcases hm : deferMunmap env cfg.mUnmapDst dv (xt.errStack, wt) with ⟨l1, wm⟩
  obtain ⟨r0, rfl, hm0⟩ := deferMunmap_spec hm
  have Em := syscallMunmap_evolves hm0 (fun _ => True) (fun _ => True)
  obtain ⟨Sm, Fm, -, Rm⟩ := syscallMunmap_ids hm0
  have Rm' := Rm hdm
  rw [hb.result_none _ _ (by simp [Op.kind]) (by simp [Op.kind])] at Rm'
  subst Rm'
  rw [hm] at h
  simp only [] at h
  rcases hd : deferClose env cfg.mCloseDst df
    (xt.errStack ++ relErr cfg.mUnmapDst none, wm) with ⟨l2, wd⟩
  obtain ⟨r1, rfl, hd0⟩ := deferClose_spec hd
  have Ed := fileClose_evolves hd0 (fun _ => True) (fun _ => True)
  obtain ⟨Sd, -, -, Rd⟩ := fileClose_ids hd0
  have Rd' := Rd (by rw [Fm]; exact hdfd)
  rw [hb.result_none _ _ (by simp [Op.kind]) (by simp [Op.kind])] at Rd'
  subst Rd'
  rw [hd] at h
  obtain ⟨rfl, rfl⟩ := Prod.mk.inj h
  refine ⟨by simp [hx1, relErr], hx2, hx3, j, ?_, ?_, ?_⟩
  · rw [Ed.names _ trivial, Em.names _ trivial, hj1]
  · rw [Sd.nextIno, Sm.nextIno]
    exact hj2
  · rw [Ed.data _ trivial, Em.data _ trivial, hj3]

theorem pipeline_benign {cfg : Config} (hs : cfg.Sound) {env : Env} (hb : env.Benign)
    {inputPath outputPath : Path} {w : World} {i : Nat} {S R : Bytes}
    (htr : cfg.Maps env S R) (hw : w.WF)
    (hin : w.names inputPath = some i) (hS : w.data i = S) (hne : S ≠ [])
    (hsize : cfg.size S.length = (R.length : Int)) (hR : R ≠ [])
    (hout : w.names outputPath = none) :
    (pipeline cfg env inputPath outputPath w).1 = [] ∧
    (pipeline cfg env inputPath outputPath w).2.visible outputPath = some R ∧
    (pipeline cfg env inputPath outputPath w).2.WF ∧
    ∀ p, p ≠ outputPath →
      (pipeline cfg env inputPath outputPath w).2.visible p = w.visible p := by
  obtain ⟨-, F, -⟩ := pipeline_run hs env inputPath outputPath w
  have key : (pipeline cfg env inputPath outputPath w).1 = [] ∧
      ∃ j, (pipeline cfg env inputPath outputPath w).2.names outputPath = some j ∧
        j < (pipeline cfg env inputPath outputPath w).2.nextIno ∧
        (pipeline cfg env inputPath outputPath w).2.data j = R := by
    rcases h : pipeline cfg env inputPath outputPath w with ⟨errs, w'⟩
    unfold pipeline at h
    rcases h1 : CreatePrivateCopyOf env inputPath (env.dir inputPath) w with ⟨⟨file, es⟩, w1⟩
    have B1 := CreatePrivateCopyOf_benign hb h1 hin
    subst B1
    obtain ⟨stg, Q1, -, -, hmap1, hmaps1, ok1⟩ := CreatePrivateCopyOf_spec h1
      (fun _ => True) (I := fun i => i ≠ w.nextIno) (fun _ hi => hi)
    obtain ⟨i', hname, hfile, hfd1, hino1, hfds1, hdata1⟩ := ok1 rfl
    rw [hin] at hname
    cases hname
    have hilt : i < w.nextIno := hw _ _ hin
    subst hfile
    rw [h1] at h
    simp only [] at h
    have hd1 : w1.data w.nextIno = S := by rw [hdata1 (by omega), hS]
    rcases h2 : GetDataFromFile env ⟨w.nextFd + 1, w.nextIno⟩ w1 with ⟨r2, w2⟩
    have B2 := GetDataFromFile_benign hb h2 (by
      simp only []
      rw [hd1]
      exact fun hc => hne (List.length_eq_zero.mp hc))
    obtain ⟨sv, rfl⟩ := errOf_eq_none B2
    obtain ⟨g1, Q2, -, -, hfd2, hino2, hfds2, ok2⟩ := GetDataFromFile_spec h2
      (fun _ => True) (fun _ => True)
    obtain ⟨hsv, -, hmap2, hmaps2⟩ := ok2 sv rfl
    rw [h2] at h
    simp only [] at h
    have hsvlen : sv.len = S.length := by
      rw [hsv]
      simp only []
      rw [hd1]
    rcases hA : pipeline.allocate cfg env outputPath ⟨w.nextFd + 1, w.nextIno⟩ sv w2
      with ⟨x, wA⟩
    obtain ⟨hx1, hx2, hx3, j, hj1, hj2, hj3⟩ := allocate_benign hs hb hA htr
      (by
        unfold World.bytes
        rw [Q2.data _ trivial, hsv]
        simp only []
        rw [hd1]
        simp)
      (by rw [hsvlen]; exact hsize) hR
      (by rw [hsv, hino2, hino1]; simp)
      (by rw [hmaps2, hsv]; simp)
      (by rw [hmap2, hsv]; simp)
      (by rw [hfds2, hfds1]; simp)
      (by rw [hfd2, hfd1]; simp)
      (by rw [Q2.names _ trivial, Q1.names _ trivial, hout])
    rw [hA] at h
    rcases x with ⟨l, freed, closed⟩
    simp only [] at hx1 hx2 hx3 h
    subst hx1 hx2 hx3
    simp only [if_true] at h
    obtain ⟨rfl, rfl⟩ := Prod.mk.inj h
    exact ⟨rfl, j, hj1, hj2, hj3⟩
  obtain ⟨he, j, hj1, hj2, hj3⟩ := key
  refine ⟨he, ?_, ?_, ?_⟩
  · unfold World.visible
    rw [hj1]
    simp [hj3]
  · intro p k hp
    by_cases hpo : p = outputPath
    · rw [hpo, hj1] at hp
      cases hp
      exact hj2
    · rw [F.names p hpo] at hp
      exact lt_of_lt_of_le (hw p k hp) F.nextIno
  · intro p hpo
    unfold World.visible
    rw [F.names p hpo]
    rcases hn : w.names p with _ | k
    · rfl
    · simp only [Option.map_some']
      rw [F.data k ⟨hw p k hn, by rw [hout]; simp⟩]

theorem appendInto_zeros (d : View) (res : Bytes) (h : d.len = res.length) :
    appendInto d (List.replicate res.length 0) res = res := by
  unfold appendInto overlay
  rw [if_pos (by omega)]
  simp

theorem encryptConfig_maps (env : Env) (pubKey : Key) (cryptoReader : Bytes) (P c : Bytes)
    (hc : env.box.SealAnonymous P pubKey cryptoReader = .ok c) :
    (encryptConfig pubKey cryptoReader).Maps env P c := by
  intro d s wx wy r h hS hZ hlen
  simp only [encryptConfig] at h
  rcases hb : boxSealAnonymous env d s pubKey cryptoReader wx with ⟨b, w1⟩
  obtain ⟨-, -, -, hres⟩ := boxSealAnonymous_ids hb
  obtain ⟨rfl, hd⟩ := hres c (by rw [hS]; exact hc)
  rw [hb] at h
  obtain ⟨rfl, rfl⟩ := Prod.mk.inj h
  refine ⟨rfl, ?_⟩
  rw [hd, hZ, appendInto_zeros d c hlen]

theorem decryptConfig_maps (env : Env) (pubKey privKey : Key) (P c : Bytes)
    (hc : env.box.OpenAnonymous c pubKey privKey = some P) :
    (decryptConfig pubKey privKey).Maps env c P := by
  intro d s wx wy r h hS hZ hlen
  simp only [decryptConfig] at h
  rcases hb : boxOpenAnonymous env d s pubKey privKey wx with ⟨b, w1⟩
  obtain ⟨-, -, -, hres⟩ := boxOpenAnonymous_ids hb
  obtain ⟨rfl, hd⟩ := hres P (by rw [hS]; exact hc)
  rw [hb] at h
  obtain ⟨rfl, rfl⟩ := Prod.mk.inj h
  refine ⟨rfl, ?_⟩
  rw [hd, hZ, appendInto_zeros d P hlen]

theorem visible_eq_some {w : World} {p : Path} {c : Bytes} (h : w.visible p = some c) :
    ∃ j, w.names p = some j ∧ w.data j = c := by
  unfold World.visible at h
  rcases hn : w.names p with _ | j
  · rw [hn] at h
    cases h
  · rw [hn] at h
    exact ⟨j, rfl, by simpa using h⟩

theorem visible_eq_none {w : World} {p : Path} (h : w.visible p = none) : w.names p = none := by
  unfold World.visible at h
  rcases hn : w.names p with _ | j
  · rfl
  · rw [hn] at h
    cases h

/-- C1 (amended): for every non-empty byte sequence `P` and every key pair for
which `box.OpenAnonymous` inverts `box.SealAnonymous`, when no call fails
(a clone may be unsupported and `linkat` may answer `ENOENT`, the randomness
source delivers, and the sealed box is `AnonymousOverhead` bytes longer than
the message) and neither the intermediate path nor `outputPath` names a file
before the run, `EncryptFile(in, mid, pub)` on a file holding `P` followed by
`DecryptFile(mid, out, pub, priv)` succeeds and leaves at `out` a file whose
content is exactly `P`. -/
theorem round_trip_of_nonempty_file (env : Env) (inputPath midPath outputPath : Path)
    (pubKey privKey : Key) (w : World) (i : Nat) (P : Bytes)
    (hb : env.Benign)
    (hrand : ∀ msg, ∃ c, env.box.SealAnonymous msg pubKey env.randReader = .ok c)
    (hover : ∀ msg c, env.box.SealAnonymous msg pubKey env.randReader = .ok c →
      c.length = msg.length + AnonymousOverhead)
    (hinv : ∀ msg c, env.box.SealAnonymous msg pubKey env.randReader = .ok c →
      env.box.OpenAnonymous c pubKey privKey = some msg)
    (hw : w.WF) (hin : w.names inputPath = some i) (hP : w.data i = P) (hne : P ≠ [])
    (hmid : w.names midPath = none) (hout : w.names outputPath = none)
    (hmo : midPath ≠ outputPath) :
    (EncryptFile env inputPath midPath pubKey w).1 = [] ∧
    (DecryptFile env midPath outputPath pubKey privKey
      (EncryptFile env inputPath midPath pubKey w).2).1 = [] ∧
    (DecryptFile env midPath outputPath pubKey privKey
      (EncryptFile env inputPath midPath pubKey w).2).2.visible outputPath = some P := by
  obtain ⟨c, hc⟩ := hrand P
  have hlen := hover P c hc
  have hopen := hinv P c hc
  unfold AnonymousOverhead at hlen
  have hcne : c ≠ [] := by
    intro h0
    rw [h0] at hlen
    simp at hlen
  unfold EncryptFile DecryptFile
  rw [encryptFile_eq]
  obtain ⟨e1, v1, wf1, o1⟩ := pipeline_benign (encryptConfig_sound pubKey env.randReader) hb
    (encryptConfig_maps env pubKey env.randReader P c hc) hw hin hP hne
    (by simp only [encryptConfig, AnonymousOverhead]; rw [hlen]; push_cast; rfl) hcne hmid
  obtain ⟨j, hj1, hj2⟩ := visible_eq_some v1
  have hout1 := visible_eq_none (by
    rw [o1 outputPath (Ne.symm hmo)]
    unfold World.visible
    rw [hout]
    rfl)
  rw [decryptFile_eq]
  obtain ⟨e2, v2, -, -⟩ := pipeline_benign (decryptConfig_sound pubKey privKey) hb
    (decryptConfig_maps env pubKey privKey P c hopen) wf1 hj1 hj2 hcne
    (by simp only [decryptConfig, AnonymousOverhead]; rw [hlen]; push_cast; omega) hne hout1
  exact ⟨e1, e2, v2⟩

theorem noFastPath_benign : noFastPath.Benign := by
  intro op k
  cases op <;> simp [noFastPath, Op.kind]

set_option maxRecDepth 8000 in
theorem round_trip_of_nonempty_file_witness :
    (EncryptFile noFastPath "clear" "mid" testKey (oneFile "clear" geronimo)).1 = [] ∧
    (DecryptFile noFastPath "mid" "out" testKey testKey
      (EncryptFile noFastPath "clear" "mid" testKey (oneFile "clear" geronimo)).2).1 = [] ∧
    (DecryptFile noFastPath "mid" "out" testKey testKey
      (EncryptFile noFastPath "clear" "mid" testKey
        (oneFile "clear" geronimo)).2).2.visible "out" = some geronimo :=
  round_trip_of_nonempty_file noFastPath "clear" "mid" "out" testKey testKey
    (oneFile "clear" geronimo) 0 geronimo noFastPath_benign
    (fun msg => ⟨List.replicate 48 0 ++ msg, rfl⟩)
    (fun msg c h => by
      simp only [noFastPath, allSucceed, toyBox, Except.ok.injEq] at h
      subst h
      simp [AnonymousOverhead])
    (fun msg c h => by
      simp only [noFastPath, allSucceed, toyBox, Except.ok.injEq] at h
      subst h
      simp [noFastPath, allSucceed, toyBox])
    (oneFile_WF _ _) (by decide) (by decide) (by decide) (by decide) (by decide) (by decide)

/-- The size law where it holds: when no call fails and `outputPath` names no
file before the run, `EncryptFile` of a non-empty file of `n` bytes succeeds
and the file at `outputPath` is `n + 48` bytes long, whichever strategy
`PublishFile` used. -/
theorem size_law_when_output_absent (env : Env) (inputPath outputPath : Path)
    (pubKey : Key) (w : World) (i : Nat) (P : Bytes)
    (hb : env.Benign)
    (hrand : ∀ msg, ∃ c, env.box.SealAnonymous msg pubKey env.randReader = .ok c)
    (hover : ∀ msg c, env.box.SealAnonymous msg pubKey env.randReader = .ok c →
      c.length = msg.length + AnonymousOverhead)
    (hw : w.WF) (hin : w.names inputPath = some i) (hP : w.data i = P) (hne : P ≠ [])
    (hout : w.names outputPath = none) :
    (EncryptFile env inputPath outputPath pubKey w).1 = [] ∧
    ((EncryptFile env inputPath outputPath pubKey w).2.visible outputPath).map List.length =
      some (P.length + 48) := by
  obtain ⟨c, hc⟩ := hrand P
  have hlen := hover P c hc
  unfold AnonymousOverhead at hlen
  have hcne : c ≠ [] := by
    intro h0
    rw [h0] at hlen
    simp at hlen
  unfold EncryptFile
  rw [encryptFile_eq]
  obtain ⟨e1, v1, -, -⟩ := pipeline_benign (encryptConfig_sound pubKey env.randReader) hb
    (encryptConfig_maps env pubKey env.randReader P c hc) hw hin hP hne
    (by simp only [encryptConfig, AnonymousOverhead]; rw [hlen]; push_cast; rfl) hcne hout
  exact ⟨e1, by rw [v1]; simp [hlen]⟩

end LargeFileDecrypt
